import Mathlib

/-!
# Rate limiter: counter store, rule matcher and admission decision

A shallow embedding of `pkg/ratelimit/storage/memory.go`,
`pkg/ratelimit/rate_limit.go` and `middleware/rate_limit.go`.

Conventions of the embedding

* Go `string` and `[]byte` are both `String`; `string(key)` and `[]byte(id)`
  are the identity.
* A Go `map[string]V` is a function `String → Option V`.
* `int64` is `Int`, wrapped with `wrapInt64` where the source does arithmetic;
  `uint64` is `Nat` below `2^64`; a `*uint64` is an `Option Nat`.
* A Go `error` is an `Option Error`, `none` being `nil`.
* The store is the sequential state `(data, timers)`: every operation holds
  `dataMu` for its whole body, so operations act one after the other.  A timer
  is recorded by its duration.  The goroutine of a timer acts in steps of its
  own: when the timer fires, the value is deleted under `dataMu`
  (`timerFired`) and, in a second critical section, the timer is unregistered
  under `timerMu` (`timerUnregistered`); when the context the timer was armed
  with is done, the timer is stopped and unregistered (`ctxDone`).  Other
  operations can run between the two steps of an expiry.
* The middleware arms its timers with `r.Context()`.  A request says whether
  that context ends once the request has been served (`ContextEnds`), as it
  does under `net/http`; the timers the request armed end with it.
* The standard library (`strings`, `net`, `regexp`, `encoding/json`) is not
  part of the repository: it is the parameter `Lib`.
-/

namespace Ratelimit

/-! ## Machine integers and `strconv` -/

/-- Two's-complement wrap of an integer into the `int64` range. -/
def wrapInt64 (x : Int) : Int := (x + 2 ^ 63) % 2 ^ 64 - 2 ^ 63

/-- The conversion `uint64(x)` of an `int64`. -/
def toUint64 (x : Int) : Nat := (x % 2 ^ 64).toNat

/-- The decimal digit characters, as `'0' + d`. -/
def digitByte : Nat → Char
  | 0 => '0'
  | 1 => '1'
  | 2 => '2'
  | 3 => '3'
  | 4 => '4'
  | 5 => '5'
  | 6 => '6'
  | 7 => '7'
  | 8 => '8'
  | _ => '9'

/-- The digit loop of `strconv.formatBits` at base 10: digits are produced from
the least significant one and written in front of what is already there. -/
def formatBits : Nat → Nat → List Char → List Char
  | 0, _, acc => acc
  | fuel + 1, u, acc =>
    if u < 10 then digitByte u :: acc
    else formatBits fuel (u / 10) (digitByte (u % 10) :: acc)

/-- The function `strconv.FormatInt(i, 10)`. -/
def FormatInt (i : Int) : String :=
  if i < 0 then String.mk ('-' :: formatBits (i.natAbs + 1) i.natAbs [])
  else String.mk (formatBits (i.natAbs + 1) i.natAbs [])

/-- The digit loop of `strconv.ParseUint` at base 10, without the range check:
`none` when a character is not a decimal digit. -/
def parseDigits : List Char → Nat → Option Nat
  | [], n => some n
  | c :: cs, n =>
    if 48 ≤ c.toNat ∧ c.toNat ≤ 57 then parseDigits cs (n * 10 + (c.toNat - 48))
    else none

/-- The sign handling and range check of `strconv.ParseInt(s, 10, 64)` on the
characters of `s`. -/
def parseIntChars (cs : List Char) : Option Int :=
  match cs with
  | [] => none
  | c :: rest =>
    let neg := decide (c = '-')
    let ds := if c = '+' ∨ c = '-' then rest else c :: rest
    if ds = [] then none
    else
      match parseDigits ds 0 with
      | none => none
      | some un =>
        if 2 ^ 64 ≤ un then none
        else if !neg && decide (2 ^ 63 ≤ un) then none
        else if neg && decide (2 ^ 63 < un) then none
        else some (if neg then -(un : Int) else (un : Int))

/-- The function `strconv.ParseInt(s, 10, 64)`; `none` is any error (syntax or
range). -/
def ParseInt (s : String) : Option Int := parseIntChars s.data

/-! ## The counter store (`storage/memory.go`) -/

/-- The errors the store returns. -/
inductive Error where
  | ValueNotFoundByKey
  | KeyIsEmpty
  | ValueByKeyIsNotFound (key : String)
  | ValueByKeyIsNotInteger (key : String)
  deriving DecidableEq, Repr

/-- A Go map with string keys. -/
abbrev GoMap (V : Type) := String → Option V

/-- The statement `m[k] = v`. -/
def GoMap.insert {V : Type} (m : GoMap V) (k : String) (v : V) : GoMap V :=
  fun x => if x = k then some v else m x

/-- The statement `delete(m, k)`. -/
def GoMap.erase {V : Type} (m : GoMap V) (k : String) : GoMap V :=
  fun x => if x = k then none else m x

/-- The value `make(map[string]V)`. -/
def GoMap.empty {V : Type} : GoMap V := fun _ => none

/-- The store: `data` holds the values, `timers` the armed timers, each
recorded by the duration (in nanoseconds) it was created with. -/
structure MemoryCache where
  data : GoMap String
  timers : GoMap Int

/-- The constructor `NewMemoryCache`. -/
def NewMemoryCache : MemoryCache := { data := GoMap.empty, timers := GoMap.empty }

/-- The duration `time.Duration(ttl) * time.Second` given to `time.NewTimer`. -/
def timerDuration (ttl : Nat) : Int := wrapInt64 (wrapInt64 ttl * 1000000000)

namespace MemoryCache

/-- The method `Has`. -/
def Has (c : MemoryCache) (key : String) : Bool := (c.data key).isSome

/-- The method `initCancel`: arm a timer for the key unless the ttl is nil or
zero or a timer is already registered for the key. -/
def initCancel (c : MemoryCache) (strKey : String) (ttl : Option Nat) : MemoryCache :=
  match ttl with
  | none => c
  | some t =>
    if t ≤ 0 then c
    else
      match c.timers strKey with
      | some _ => c
      | none => { c with timers := c.timers.insert strKey (timerDuration t) }

/-- The timer branch of the goroutine started by `initCancel`, first critical
section: when the timer of `strKey` fires, the value is deleted under
`dataMu`.  The fired timer is still registered. -/
def timerFired (c : MemoryCache) (strKey : String) : MemoryCache :=
  { c with data := c.data.erase strKey }

/-- The timer branch of the goroutine started by `initCancel`, second critical
section: once `dataMu` is released, the fired timer of `strKey` is unregistered
under `timerMu`. -/
def timerUnregistered (c : MemoryCache) (strKey : String) : MemoryCache :=
  { c with timers := c.timers.erase strKey }

/-- The context branch of the goroutine started by `initCancel`: when the
context of the arming call is done, the timer is stopped and unregistered, the
value stays. -/
def ctxDone (c : MemoryCache) (strKey : String) : MemoryCache :=
  { c with timers := c.timers.erase strKey }

/-- The method `callCancel`: stop and unregister the timer of the key. -/
def callCancel (c : MemoryCache) (key : String) : Option Error × MemoryCache :=
  match c.timers key with
  | some _ => (none, { c with timers := c.timers.erase key })
  | none => (none, c)

/-- The method `sliceByteToInt64`. -/
def sliceByteToInt64 (c : MemoryCache) (key : String) : Int × Option Error :=
  match c.data key with
  | none => (0, some (Error.ValueByKeyIsNotFound key))
  | some val =>
    match ParseInt val with
    | none => (0, some (Error.ValueByKeyIsNotInteger key))
    | some valInt => (valInt, none)

/-- The method `Inc`. -/
def Inc (c : MemoryCache) (key : String) (ttl : Option Nat) :
    (Int × Option Error) × MemoryCache :=
  match c.data key with
  | none => ((1, some Error.ValueNotFoundByKey), { c with data := c.data.insert key "1" })
  | some _ =>
    match c.sliceByteToInt64 key with
    | (_, some err) => ((0, some err), c)
    | (valInt, none) =>
      let valInt := wrapInt64 (valInt + 1)
      let c1 : MemoryCache := { c with data := c.data.insert key (FormatInt valInt) }
      ((valInt, none), c1.initCancel key ttl)

/-- The method `Decr`. -/
def Decr (c : MemoryCache) (key : String) (ttl : Option Nat) :
    (Int × Option Error) × MemoryCache :=
  match c.data key with
  | none => ((-1, some Error.ValueNotFoundByKey), { c with data := c.data.insert key "-1" })
  | some _ =>
    match c.sliceByteToInt64 key with
    | (_, some err) => ((0, some err), c)
    | (valInt, none) =>
      let valInt := wrapInt64 (valInt - 1)
      let c1 : MemoryCache := { c with data := c.data.insert key (FormatInt valInt) }
      ((valInt, none), c1.initCancel key ttl)

/-- The method `Get`. -/
def Get (c : MemoryCache) (key : String) : Option String × Option Error :=
  match c.data key with
  | none => (none, some Error.ValueNotFoundByKey)
  | some v => (some v, none)

/-- The method `Set`. -/
def Set (c : MemoryCache) (key : String) (value : String) (ttl : Option Nat) :
    Option Error × MemoryCache :=
  if key.length = 0 then (some Error.KeyIsEmpty, c)
  else
    let c1 : MemoryCache := { c with data := c.data.insert key value }
    (none, c1.initCancel key ttl)

/-- The method `Del`: the loop over the keys stops at the first error of
`callCancel`. -/
def Del (c : MemoryCache) : List String → Option Error × MemoryCache
  | [] => (none, c)
  | key :: list =>
    let c1 : MemoryCache := { c with data := c.data.erase key }
    match c1.callCancel key with
    | (some err, c2) => (some err, c2)
    | (none, c2) => Del c2 list

/-- The method `Clear`. -/
def Clear (_c : MemoryCache) : Option Error × MemoryCache :=
  (none, { data := GoMap.empty, timers := GoMap.empty })

end MemoryCache

/-! ## The standard library, as a parameter -/

/-- A parsed address, `net.IP`: its bytes. -/
abbrev IP := List Nat

/-- A parsed network, `net.IPNet`: network number and mask. -/
structure IPNet where
  IP : List Nat
  Mask : List Nat
  deriving DecidableEq, Repr

/-- The functions of the Go standard library the rate limiter calls.
`ParseIP` gives `none` for the nil address, `ParseCIDR` gives `none` when it
returns an error (and a nil network), `Contains` takes the possibly nil
address, `Compile` gives the compiled pattern as its `MatchString` function or
`none` on a malformed pattern, and `DecodeIP` is the JSON decoding of a reset
body into its `ip` field (`none` when decoding fails, the empty string when the
field is missing). -/
structure Lib where
  ToLower : String → String
  ParseIP : String → Option IP
  ParseCIDR : String → Option IPNet
  Contains : IPNet → Option IP → Bool
  Compile : String → Option (String → Bool)
  DecodeIP : String → Option String

/-- The call `reg.MatchString(s)` for the pattern compiled from `pat`. -/
def Lib.MatchString (lib : Lib) (pat s : String) : Bool :=
  match lib.Compile pat with
  | some m => m s
  | none => false

/-! ## Configuration (`pkg/ratelimit/rate_limit.go`) -/

/-- The struct `LimitHandler`. -/
structure LimitHandler where
  ID : String := ""
  Protocol : String := ""
  ProtocolRegexp : Bool := false
  Method : String := ""
  Url : String := ""
  Regexp : Bool := false
  deriving DecidableEq, Repr

/-- The struct `ByIpData`: one rule. -/
structure ByIpData where
  ID : String := ""
  Handlers : List LimitHandler := []
  Limit : Int := 0
  BlockTime : Int := 0
  Mask : String := ""
  ExcludeIps : List String := []
  deriving DecidableEq, Repr

/-- The struct `ByIp`. -/
structure ByIp where
  ExcludeIps : List String := []
  Data : List ByIpData := []
  deriving DecidableEq, Repr

/-- The struct `Config`. -/
structure Config where
  Title : String := ""
  ByIp : ByIp := {}
  deriving DecidableEq, Repr

/-! ## The rule matcher: `IdsByIP` -/

/-- The mask check at the head of the rule loop of `IdsByIP`: `true` when the
rule is skipped (`continue`), which happens only when the mask is not empty,
parses to a network, and the network does not contain the address. -/
def maskSkips (lib : Lib) (mask : String) (ip : Option IP) : Bool :=
  if mask = "" then false
  else
    match lib.ParseCIDR mask with
    | none => false
    | some ipNet => !lib.Contains ipNet ip

/-- The condition under which the handler loop of `IdsByIP` appends the rule
id, once the three `continue` guards have been passed. -/
def handlerCond (lib : Lib) (protocol method url : String) (lh : LimitHandler) : Bool :=
  (decide (url = "*") || (!lh.Regexp && decide (lib.ToLower lh.Url = url)) ||
      (lh.Regexp && lib.MatchString lh.Url url)) &&
    (decide (lh.Method = "") || decide (lib.ToLower lh.Method = method)) &&
    (decide (lh.Protocol = "") ||
      (!lh.ProtocolRegexp && decide (lib.ToLower lh.Protocol = protocol)) ||
      (lh.ProtocolRegexp && lib.MatchString lh.Protocol protocol))

/-- The handler loop of `IdsByIP`, over the handlers of one rule; `res` is the
slice being appended to. -/
def handlerLoop (lib : Lib) (protocol method url storeID : String) :
    List LimitHandler → List String → List String
  | [], res => res
  | lh :: lhs, res =>
    if lh.Regexp && (lib.Compile lh.Url).isNone then
      handlerLoop lib protocol method url storeID lhs res
    else if lh.ProtocolRegexp && (lib.Compile lh.Protocol).isNone then
      handlerLoop lib protocol method url storeID lhs res
    else if lh.Url = "" then
      handlerLoop lib protocol method url storeID lhs res
    else if handlerCond lib protocol method url lh then
      handlerLoop lib protocol method url storeID lhs (res ++ [storeID])
    else
      handlerLoop lib protocol method url storeID lhs res

/-- The rule loop of `IdsByIP`; the three strings are already lower-cased. -/
def ruleLoop (lib : Lib) (protocol method url : String) (ip : Option IP) :
    List ByIpData → List String → List String
  | [], res => res
  | byIpData :: rest, res =>
    if maskSkips lib byIpData.Mask ip then
      ruleLoop lib protocol method url ip rest res
    else if protocol = "*" ∧ method = "*" ∧ url = "*" then
      ruleLoop lib protocol method url ip rest (res ++ [byIpData.ID])
    else
      ruleLoop lib protocol method url ip rest
        (handlerLoop lib protocol method url byIpData.ID byIpData.Handlers res)

/-- The method `IdsByIP`. -/
def IdsByIP (lib : Lib) (cfg : Config) (protocol method url strIP : String) : List String :=
  ruleLoop lib (lib.ToLower protocol) (lib.ToLower method) (lib.ToLower url)
    (lib.ParseIP strIP) cfg.ByIp.Data []

/-! ## The admission decision engine -/

/-- The inner loop of `IsLimitedByIDs`, over the rules, for one id. -/
def isLimitedRules (c : MemoryCache) (storeID : String) : List ByIpData → Bool
  | [] => false
  | byIpData :: rest =>
    if byIpData.ID ≠ storeID then isLimitedRules c storeID rest
    else
      match c.Get storeID with
      | (_, some _) => isLimitedRules c storeID rest
      | (v, none) =>
        match ParseInt (v.getD "") with
        | none => isLimitedRules c storeID rest
        | some counter =>
          if counter ≥ byIpData.Limit then true
          else isLimitedRules c storeID rest

/-- The outer loop of `IsLimitedByIDs`, over the ids. -/
def isLimitedIDs (cfg : Config) (c : MemoryCache) : List String → Bool
  | [] => false
  | storeID :: rest =>
    if isLimitedRules c storeID cfg.ByIp.Data then true
    else isLimitedIDs cfg c rest

/-- The method `IsLimitedByIDs`. -/
def IsLimitedByIDs (cfg : Config) (c : MemoryCache) (ids : List String) : Bool :=
  if ids.length = 0 then false
  else isLimitedIDs cfg c ids

/-- The inner loop of `IncByIDs`, over the rules, for one id: `some counter`
when the loop returns, `none` when it runs to its end. -/
def incRules (c : MemoryCache) (storeID : String) :
    List ByIpData → Option Int × MemoryCache
  | [] => (none, c)
  | byIpData :: rest =>
    let ttl := toUint64 byIpData.BlockTime
    if byIpData.ID ≠ storeID then incRules c storeID rest
    else
      match c.Inc storeID (some ttl) with
      | ((_, some _), c1) => incRules c1 storeID rest
      | ((counter, none), c1) => (some counter, c1)

/-- The outer loop of `IncByIDs`, over the ids. -/
def incIDs (cfg : Config) : MemoryCache → List String → Int × MemoryCache
  | c, [] => (0, c)
  | c, storeID :: rest =>
    match incRules c storeID cfg.ByIp.Data with
    | (some counter, c1) => (counter, c1)
    | (none, c1) => incIDs cfg c1 rest

/-- The method `IncByIDs`: the returned counter and the store afterwards. -/
def IncByIDs (cfg : Config) (c : MemoryCache) (ids : List String) : Int × MemoryCache :=
  if ids.length = 0 then (0, c)
  else incIDs cfg c ids

/-- The inner loop of `ClearByIDs`, over the rules, for one id. -/
def clearRules (c : MemoryCache) (storeID : String) :
    List ByIpData → Option Error × MemoryCache
  | [] => (none, c)
  | byIpData :: rest =>
    if byIpData.ID ≠ storeID then clearRules c storeID rest
    else
      match c.Del [storeID] with
      | (some err, c1) => (some err, c1)
      | (none, c1) => clearRules c1 storeID rest

/-- The outer loop of `ClearByIDs`, over the ids. -/
def clearIDs (cfg : Config) : MemoryCache → List String → Option Error × MemoryCache
  | c, [] => (none, c)
  | c, storeID :: rest =>
    match clearRules c storeID cfg.ByIp.Data with
    | (some err, c1) => (some err, c1)
    | (none, c1) => clearIDs cfg c1 rest

/-- The method `ClearByIDs`. -/
def ClearByIDs (cfg : Config) (c : MemoryCache) (ids : List String) :
    Option Error × MemoryCache :=
  if ids.length = 0 then (none, c)
  else clearIDs cfg c ids

/-- The method `IsLimitedByApp`. -/
def IsLimitedByApp : Bool := false

/-! ## The request pipeline adapter (`middleware/rate_limit.go`) -/

/-- What the middleware reads of a request: `r.Proto`, `r.Method`,
`r.URL.Path`, the `X-FORWARDED-FOR` header and the body, and what becomes of
`r.Context()`, which the middleware hands to the limiter: `ContextEnds` tells
whether the context is cancelled once the request has been served, as
`net/http` does for every request it serves; it is `false` for a request that
carries `context.Background()`, as those built by `httptest.NewRequest`. -/
structure Request where
  Proto : String := ""
  Method : String := ""
  Path : String := ""
  XForwardedFor : String := ""
  Body : String := ""
  ContextEnds : Bool := true
  deriving DecidableEq, Repr

/-- What the middleware does to the response: `Code` is the status it writes
itself (`none` when it writes nothing and leaves the answer to the wrapped
handler), `Next` tells whether the wrapped handler is called. -/
structure Response where
  Code : Option Nat
  Next : Bool
  deriving DecidableEq, Repr

/-- The first element of `strings.Split(s, ",")`. -/
def firstField (s : String) : String := String.mk (s.data.takeWhile (fun ch => ch ≠ ','))

/-- The handler built by `RateLimit`, on one request: the response and the
store afterwards. -/
def RateLimit (lib : Lib) (cfg : Config) (c : MemoryCache) (r : Request) :
    Response × MemoryCache :=
  if r.Path = "/reset" ∧ r.Method = "POST" then
    match lib.DecodeIP r.Body with
    | none => ({ Code := some 400, Next := false }, c)
    | some inputIP =>
      if inputIP = "" then ({ Code := some 400, Next := false }, c)
      else
        let ids := IdsByIP lib cfg "*" "*" "*" inputIP
        if ids.length > 0 then
          match ClearByIDs cfg c ids with
          | (some _, c1) => ({ Code := some 400, Next := false }, c1)
          | (none, c1) => ({ Code := some 200, Next := false }, c1)
        else ({ Code := some 200, Next := false }, c)
  else
    let realIP := firstField r.XForwardedFor
    let ids := IdsByIP lib cfg r.Proto r.Method r.Path realIP
    if ids.length > 0 then
      let ids := ids.take 1
      let limited := IsLimitedByIDs cfg c ids
      let c1 := (IncByIDs cfg c ids).2
      ({ Code := if limited || IsLimitedByApp then some 429 else none, Next := true }, c1)
    else
      ({ Code := if IsLimitedByApp then some 429 else none, Next := true }, c)

/-- The end of the context of a request that found the store `before` and left
it as `after`: the timers registered in between were armed with that context,
and the context branch of each of their goroutines stops and unregisters its
timer (`ctxDone`); the values and the timers registered earlier stay. -/
def contextDone (before after : MemoryCache) : MemoryCache :=
  { after with timers := fun k =>
      match before.timers k with
      | some _ => after.timers k
      | none => none }

/-- A sequence of requests served one after the other, with no expiry in
between: the responses in order and the final store.  When a request has been
served and its context ends, the timers it armed end with it. -/
def serveAll (lib : Lib) (cfg : Config) : MemoryCache → List Request → List Response × MemoryCache
  | c, [] => ([], c)
  | c, r :: rs =>
    let out := RateLimit lib cfg c r
    let c1 := if r.ContextEnds then contextDone c out.2 else out.2
    let more := serveAll lib cfg c1 rs
    (out.1 :: more.1, more.2)

/-! ## A reference instance of the standard library

`refLib` evaluates the library calls on the inputs used in the examples below.
It follows Go on ASCII strings (`ToLower`), dotted-quad IPv4 addresses
(`ParseIP`), IPv4 networks `a.b.c.d/n` (`ParseCIDR`, `Contains`), patterns
without metacharacters and the pattern `.*` (`Compile`), and the bodies
`\x7b"ip": "..."\x7d`, `\x7b"NO": "1"\x7d` and the empty body (`DecodeIP`).
The theorems below hold for every `Lib`; `refLib` only instantiates them. -/

/-- Split a character list at every occurrence of `sep`. -/
def splitChars (sep : Char) : List Char → List (List Char)
  | [] => [[]]
  | ch :: cs =>
    if ch = sep then [] :: splitChars sep cs
    else
      match splitChars sep cs with
      | [] => [[ch]]
      | f :: fs => (ch :: f) :: fs

/-- One decimal field of a dotted-quad address: one to three digits, no leading
zero, at most 255. -/
def parseOctet (cs : List Char) : Option Nat :=
  if cs = [] ∨ 3 < cs.length then none
  else if 1 < cs.length ∧ cs.head? = some '0' then none
  else
    match parseDigits cs 0 with
    | none => none
    | some n => if n ≤ 255 then some n else none

/-- A dotted-quad IPv4 address, as its four bytes. -/
def parseIPv4 (cs : List Char) : Option IP :=
  match splitChars '.' cs with
  | [a, b, c, d] =>
    match parseOctet a, parseOctet b, parseOctet c, parseOctet d with
    | some x, some y, some z, some w => some [x, y, z, w]
    | _, _, _, _ => none
  | _ => none

/-- Byte `i` of the IPv4 mask with `n` leading ones, `net.CIDRMask(n, 32)`. -/
def maskByte (n i : Nat) : Nat := 256 - 2 ^ (8 - min 8 (n - 8 * i))

/-- An IPv4 network `a.b.c.d/n` with `n ≤ 32`: the masked address and the
mask. -/
def parseCIDRv4 (cs : List Char) : Option IPNet :=
  match splitChars '/' cs with
  | [addr, bits] =>
    match parseIPv4 addr, (if bits = [] then none else parseDigits bits 0) with
    | some ip, some n =>
      if n ≤ 32 then
        let m := (List.range 4).map (maskByte n)
        some { IP := List.zipWith Nat.land ip m, Mask := m }
      else none
    | _, _ => none
  | _ => none

/-- The method `(*IPNet).Contains` on four-byte addresses; the nil address
has length zero and is contained in no network. -/
def containsV4 (n : IPNet) (ip : Option IP) : Bool :=
  match ip with
  | none => false
  | some a =>
    decide (a.length = n.IP.length) &&
      decide (List.zipWith Nat.land n.IP n.Mask = List.zipWith Nat.land a n.Mask)

/-- The predicate `strings.Contains(s, sub)` on character lists. -/
def hasInfix (sub : List Char) : List Char → Bool
  | [] => sub.isEmpty
  | ch :: cs => sub.isPrefixOf (ch :: cs) || hasInfix sub cs

/-- The characters with a special meaning in a pattern. -/
def metaChars : List Char :=
  ['\\', '.', '+', '*', '?', '(', ')', '|', '[', ']', '\x7b', '\x7d', '^', '$']

/-- Patterns without metacharacters match the strings that contain them; `.*`
matches every string; a pattern with an unclosed group does not compile. -/
def compileRef (pat : String) : Option (String → Bool) :=
  if pat = ".*" then some (fun _ => true)
  else if pat.data.all (fun ch => !metaChars.contains ch) then
    some (fun s => hasInfix pat.data s.data)
  else none

/-- The body of a reset request, decoded into its `ip` field. -/
def decodeRef (body : String) : Option String :=
  let pre := "\x7b\"ip\": \"".data
  let suf := "\"\x7d".data
  if pre.isPrefixOf body.data ∧ suf.isSuffixOf body.data ∧
      pre.length + suf.length ≤ body.data.length then
    some (String.mk ((body.data.drop pre.length).take
      (body.data.length - pre.length - suf.length)))
  else if body = "\x7b\"NO\": \"1\"\x7d" then some ""
  else none

/-- The reference instance. -/
def refLib : Lib where
  ToLower := fun s => String.mk (s.data.map Char.toLower)
  ParseIP := fun s => parseIPv4 s.data
  ParseCIDR := fun s => parseCIDRv4 s.data
  Contains := containsV4
  Compile := compileRef
  DecodeIP := decodeRef

/-! ## Drivers: sequences of calls -/

/-- Successive `Inc` calls on one key, one per ttl of the list, with nothing in
between: the returned pairs in order and the final store. -/
def incAll (key : String) : MemoryCache → List (Option Nat) → List (Int × Option Error) × MemoryCache
  | c, [] => ([], c)
  | c, ttl :: ttls =>
    let out := c.Inc key ttl
    let more := incAll key out.2 ttls
    (out.1 :: more.1, more.2)

/-! ## Example configurations and requests -/

/-- The rule of the end-to-end example: limit 3 in a window of 10 seconds for
`GET /run` from `10.0.0.0/8`. -/
def exampleRule : ByIpData :=
  { ID := "R1", Handlers := [{ Method := "GET", Url := "/run" }], Limit := 3, BlockTime := 10,
    Mask := "10.0.0.0/8" }

/-- The configuration with the example rule alone. -/
def exampleCfg : Config := { ByIp := { Data := [exampleRule] } }

/-- A `GET /run` request from `10.1.2.3`, served by `net/http`: its context
ends when it has been served. -/
def exampleReq : Request :=
  { Proto := "HTTP/1.1", Method := "GET", Path := "/run", XForwardedFor := "10.1.2.3",
    ContextEnds := true }

/-- The same request with a context that is never cancelled, as the requests of
the middleware tests. -/
def backgroundReq : Request := { exampleReq with ContextEnds := false }

/-- The example rule with limit 0. -/
def zeroLimitCfg : Config := { ByIp := { Data := [{ exampleRule with Limit := 0 }] } }

/-- Two rules without mask and with the ids `a` and `b`. -/
def twoRuleCfg : Config :=
  { ByIp := { Data := [
      { ID := "a", Handlers := [{ Method := "GET", Url := "/run" }], Limit := 3, BlockTime := 10 },
      { ID := "b", Handlers := [{ Url := ".*", Regexp := true }], Limit := 5, BlockTime := 20 }] } }

/-! ## The rule matcher, rule by rule -/

/-- The body of the handler loop of `IdsByIP` as a test: the handler passes the
three `continue` guards and satisfies the condition, so the loop appends the
rule id for it. -/
def handlerAppends (lib : Lib) (protocol method url : String) (lh : LimitHandler) : Bool :=
  !(lh.Regexp && (lib.Compile lh.Url).isNone) &&
    !(lh.ProtocolRegexp && (lib.Compile lh.Protocol).isNone) &&
    !decide (lh.Url = "") && handlerCond lib protocol method url lh

/-- The ids one pass of the rule loop of `IdsByIP` appends for one rule. -/
def ruleIDs (lib : Lib) (protocol method url : String) (ip : Option IP) (d : ByIpData) :
    List String :=
  if maskSkips lib d.Mask ip then []
  else if protocol = "*" ∧ method = "*" ∧ url = "*" then [d.ID]
  else (d.Handlers.filter (handlerAppends lib protocol method url)).map (fun _ => d.ID)

/-- The spec's containment of a source IP in a rule's mask: an empty mask
applies regardless of IP, another mask applies when it is a CIDR whose network
contains the parsed address. -/
def maskContains (lib : Lib) (mask strIP : String) : Bool :=
  decide (mask = "") ||
    match lib.ParseCIDR mask with
    | some ipNet => lib.Contains ipNet (lib.ParseIP strIP)
    | none => false

/-- The spec's handler match on a query: the URL, method and protocol
conditions, stated on the lower-cased query. -/
def handlerMatches (lib : Lib) (protocol method url : String) (lh : LimitHandler) : Prop :=
  (url = "*" ∨ (lh.Regexp = false ∧ lib.ToLower lh.Url = lib.ToLower url) ∨
      (lh.Regexp = true ∧ lib.MatchString lh.Url (lib.ToLower url) = true)) ∧
    (lh.Method = "" ∨ lib.ToLower lh.Method = lib.ToLower method) ∧
    (lh.Protocol = "" ∨
      (lh.ProtocolRegexp = false ∧ lib.ToLower lh.Protocol = lib.ToLower protocol) ∨
      (lh.ProtocolRegexp = true ∧ lib.MatchString lh.Protocol (lib.ToLower protocol) = true))

/-- A configuration with the rule list replaced. -/
def Config.withData (cfg : Config) (data : List ByIpData) : Config :=
  { cfg with ByIp := { cfg.ByIp with Data := data } }

/-- A rule for `123.45.67.0/24`. -/
def rule67 : ByIpData :=
  { ID := "R67", Handlers := [{ Protocol := "http/1.1", Method := "GET", Url := "/run" }],
    Limit := 3, BlockTime := 10, Mask := "123.45.67.0/24" }

/-- A rule without handlers for `123.45.68.0/24`. -/
def rule68 : ByIpData :=
  { ID := "R68", Handlers := [], Limit := 3, BlockTime := 10, Mask := "123.45.68.0/24" }

/-- A rule without mask, with a literal handler and a handler whose protocol is
a pattern. -/
def rule0 : ByIpData :=
  { ID := "R0", Handlers := [{ Method := "POST", Url := "/upload" },
      { Protocol := ".*", ProtocolRegexp := true, Url := "/run" }],
    Limit := 5, BlockTime := 60 }

/-- The three rules in this order. -/
def maskCfg : Config := { ByIp := { Data := [rule67, rule68, rule0] } }

/-- The example rule with a mask that is not a CIDR (33 bits). -/
def badMaskCfg : Config :=
  { ByIp := { Data := [{ exampleRule with Mask := "10.0.0.0/33" }] } }

/-- The rule loop of `IdsByIP` appends the id of the rule at least once: the
rule is not skipped by the mask check, and the query is all-wildcard or some
handler passes the body of the handler loop. -/
def ruleMatches (lib : Lib) (protocol method url : String) (ip : Option IP) (d : ByIpData) :
    Bool :=
  !maskSkips lib d.Mask ip &&
    (decide (protocol = "*" ∧ method = "*" ∧ url = "*") ||
      d.Handlers.any (handlerAppends lib protocol method url))

/-- A handler whose URL pattern has an unclosed group. -/
def badPatternHandler : LimitHandler := { Method := "GET", Url := "(", Regexp := true }

/-- A rule without mask whose first handler has a malformed pattern and whose
second handler is the literal `GET /run`. -/
def badPatternRule : ByIpData :=
  { ID := "RP", Handlers := [badPatternHandler, { Method := "GET", Url := "/run" }],
    Limit := 3, BlockTime := 10 }

/-- The rule with the malformed pattern, followed by the example rule. -/
def badPatternCfg : Config := { ByIp := { Data := [badPatternRule, exampleRule] } }

/-- A rule without mask whose only handler has an empty URL. -/
def emptyUrlRule : ByIpData :=
  { ID := "RE", Handlers := [{ Method := "GET", Url := "" }], Limit := 3, BlockTime := 10 }

/-- The configuration with the empty-URL rule alone. -/
def emptyUrlCfg : Config := { ByIp := { Data := [emptyUrlRule] } }

/-! ## Runs of the store -/

/-- What can happen to a store: a call of one of its methods, the two steps of
the expiry of a key (the value is deleted, then the timer is unregistered), or
the end of the context a timer was armed with. -/
inductive Event where
  | Set (key value : String) (ttl : Option Nat)
  | Inc (key : String) (ttl : Option Nat)
  | Decr (key : String) (ttl : Option Nat)
  | Get (key : String)
  | Has (key : String)
  | Del (list : List String)
  | Clear
  | TimerFired (key : String)
  | TimerUnregistered (key : String)
  | CtxDone (key : String)
  deriving DecidableEq, Repr

/-- A store in a run: the store, and the keys whose expiry is under way, that
is, whose goroutine has deleted the value and has not yet unregistered the
timer. -/
structure Running where
  store : MemoryCache
  expiring : String → Bool

/-- A new store, no expiry under way. -/
def Running.new : Running := { store := NewMemoryCache, expiring := fun _ => false }

/-- The store after one event.  A timer fires, and a context ends, only for a
key with a registered timer whose goroutine still waits; the timer is
unregistered by the goroutine that has deleted the value.  A `Del` or `Clear`
that meets the fired timer of an expiring key finds in the source that `Stop`
fails and waits on the channel of the timer, which the goroutine has emptied;
here the call goes on as for any registered timer, which adds stores to those
a run can reach and takes none away. -/
def Running.step (s : Running) : Event → Running
  | Event.Set key value ttl => { s with store := (s.store.Set key value ttl).2 }
  | Event.Inc key ttl => { s with store := (s.store.Inc key ttl).2 }
  | Event.Decr key ttl => { s with store := (s.store.Decr key ttl).2 }
  | Event.Get _ => s
  | Event.Has _ => s
  | Event.Del list => { s with store := (s.store.Del list).2 }
  | Event.Clear => { s with store := s.store.Clear.2 }
  | Event.TimerFired key =>
    if (s.store.timers key).isSome ∧ s.expiring key = false then
      { store := s.store.timerFired key,
        expiring := fun k => if k = key then true else s.expiring k }
    else s
  | Event.TimerUnregistered key =>
    if s.expiring key = true then
      { store := s.store.timerUnregistered key,
        expiring := fun k => if k = key then false else s.expiring k }
    else s
  | Event.CtxDone key =>
    if (s.store.timers key).isSome ∧ s.expiring key = false then
      { s with store := s.store.ctxDone key }
    else s

/-- The store after a sequence of events. -/
def Running.run (s : Running) : List Event → Running
  | [] => s
  | e :: es => (s.step e).run es

/-- The stores that a new store can become, taken when no expiry is under
way. -/
def MemoryCache.Reachable (c : MemoryCache) : Prop :=
  ∃ es : List Event, (Running.new.run es).store = c ∧
    ∀ k, (Running.new.run es).expiring k = false

/-- The store invariant: a key without value has no timer. -/
def timersHaveValues (c : MemoryCache) : Prop := ∀ k, c.data k = none → c.timers k = none

/-- The invariant of a run: a key without value has no timer, unless its
expiry is under way. -/
def Running.timersHaveValues (s : Running) : Prop :=
  ∀ k, s.store.data k = none → s.store.timers k = none ∨ s.expiring k = true


/-- The id is the id of a configured rule. -/
def configured (cfg : Config) (id : String) : Bool :=
  cfg.ByIp.Data.any (fun d => decide (d.ID = id))

/-- A reset request for `10.1.2.3`. -/
def resetReq : Request :=
  { Proto := "HTTP/1.1", Method := "POST", Path := "/reset",
    Body := "\x7b\"ip\": \"10.1.2.3\"\x7d" }

/-- Two rules without mask and with the same handler `GET /run`: `A` with limit
1, declared first, and `B` with limit 3. -/
def firstIdCfg : Config :=
  { ByIp := { Data := [
      { ID := "A", Handlers := [{ Method := "GET", Url := "/run" }], Limit := 1, BlockTime := 10 },
      { ID := "B", Handlers := [{ Method := "GET", Url := "/run" }], Limit := 3,
        BlockTime := 10 }] } }

/-- The example rule with `10.1.2.3` in its `exclude_ips`, in a configuration
that lists the same IP in the global exclusion list. -/
def excludeCfg : Config :=
  { ByIp :=
      { ExcludeIps := ["10.1.2.3"],
        Data := [{ exampleRule with ExcludeIps := ["10.1.2.3"] }] } }

/-- A configuration with its exclusion lists replaced, the global one by
`global` and the one of each rule by `perRule`. -/
def Config.withExcludeIps (cfg : Config) (global : List String)
    (perRule : ByIpData → List String) : Config :=
  { cfg with
    ByIp :=
      { ExcludeIps := global,
        Data := cfg.ByIp.Data.map (fun d => { d with ExcludeIps := perRule d }) } }

/-- Successive `IncByIDs` calls with the same id list, with nothing in between:
the store after `m` calls. -/
def incByIDsTimes (cfg : Config) (ids : List String) : Nat → MemoryCache → MemoryCache
  | 0, c => c
  | m + 1, c => incByIDsTimes cfg ids m (IncByIDs cfg c ids).2

/-! ## `strconv`: reading back what was written -/

/-- The code of a digit character. -/
theorem digitByte_toNat (d : Nat) (hd : d < 10) : (digitByte d).toNat = 48 + d := by
  interval_cases d <;> rfl

/-- Reading one written digit. -/
theorem parseDigits_digitByte (d : Nat) (hd : d < 10) (rest : List Char) (k : Nat) :
    parseDigits (digitByte d :: rest) k = parseDigits rest (k * 10 + d) := by
  have h := digitByte_toNat d hd
  simp only [parseDigits, h]
  rw [if_pos (by omega)]
  congr 1
  omega

/-- The digits written by `formatBits` are read back by `parseDigits`. -/
theorem formatBits_spec (fuel : Nat) : ∀ (u : Nat) (acc : List Char), u < fuel →
    ∃ ds : List Char, formatBits fuel u acc = ds ++ acc ∧ ds ≠ [] ∧
      (∀ ch ∈ ds, 48 ≤ ch.toNat ∧ ch.toNat ≤ 57) ∧
      ∀ (k : Nat) (rest : List Char),
        parseDigits (ds ++ rest) k = parseDigits rest (k * 10 ^ ds.length + u) := by
  induction fuel with
  | zero => intro u acc h; omega
  | succ fuel ih =>
    intro u acc hu
    by_cases h10 : u < 10
    · refine ⟨[digitByte u], by simp [formatBits, h10], by simp, ?_, ?_⟩
      · intro ch hch
        simp only [List.mem_singleton] at hch
        subst hch
        rw [digitByte_toNat u h10]
        omega
      · intro k rest
        simpa using parseDigits_digitByte u h10 rest k
    · obtain ⟨ds, hds, hne, hdig, hval⟩ :=
        ih (u / 10) (digitByte (u % 10) :: acc) (by omega)
      refine ⟨ds ++ [digitByte (u % 10)], ?_, by simp, ?_, ?_⟩
      · simp [formatBits, h10, hds]
      · intro ch hch
        rcases List.mem_append.mp hch with h | h
        · exact hdig ch h
        · simp only [List.mem_singleton] at h
          subst h
          rw [digitByte_toNat _ (Nat.mod_lt _ (by omega))]
          omega
      · intro k rest
        rw [List.append_assoc, hval]
        simp only [List.singleton_append]
        rw [parseDigits_digitByte _ (Nat.mod_lt _ (by omega))]
        congr 1
        simp only [List.length_append, List.length_singleton, pow_succ]
        have := Nat.div_add_mod u 10
        nlinarith [this]

/-- On the `int64` range `ParseInt` reads back what `FormatInt` writes. -/
theorem ParseInt_FormatInt (n : Int) (hlo : -2 ^ 63 ≤ n) (hhi : n < 2 ^ 63) :
    ParseInt (FormatInt n) = some n := by
  obtain ⟨ds, hds, hne, hdig, hval⟩ := formatBits_spec (n.natAbs + 1) n.natAbs [] (by omega)
  have hparse : parseDigits ds 0 = some n.natAbs := by
    have := hval 0 []
    simpa [parseDigits] using this
  simp only [List.append_nil] at hds
  obtain ⟨c0, rest, hcons⟩ := List.exists_cons_of_ne_nil hne
  have hc0 := hdig c0 (by rw [hcons]; simp)
  have hplus : c0 ≠ '+' := by
    intro h; rw [h] at hc0; revert hc0; decide
  have hminus : c0 ≠ '-' := by
    intro h; rw [h] at hc0; revert hc0; decide
  by_cases hneg : n < 0
  · have hfmt : (FormatInt n).data = '-' :: ds := by simp [FormatInt, hneg, hds]
    have hle : ¬ (2 : Nat) ^ 63 < n.natAbs := by omega
    have hle2 : ¬ (2 : Nat) ^ 64 ≤ n.natAbs := by omega
    simp only [ParseInt, hfmt, parseIntChars]
    simp [hne, hparse, hle, hle2]
    rw [abs_of_neg hneg]; omega
  · have hfmt : (FormatInt n).data = c0 :: rest := by simp [FormatInt, hneg, hds, hcons]
    have hle : ¬ (2 : Nat) ^ 63 ≤ n.natAbs := by omega
    have hle2 : ¬ (2 : Nat) ^ 64 ≤ n.natAbs := by omega
    simp only [ParseInt, hfmt, parseIntChars]
    simp [hplus, hminus, ← hcons, hparse, hle, hle2]
    exact ⟨hcons ▸ hne, by omega, by omega, by omega⟩

/-! ## The counter store: `Inc` -/

/-- No wrap inside the `int64` range. -/
theorem wrapInt64_of_range (x : Int) (hlo : -2 ^ 63 ≤ x) (hhi : x < 2 ^ 63) :
    wrapInt64 x = x := by
  unfold wrapInt64
  omega

/-- The timers of the other keys are not touched by `initCancel`, nor is any
value. -/
theorem initCancel_frame (c : MemoryCache) (key : String) (ttl : Option Nat) :
    (c.initCancel key ttl).data = c.data ∧
      ∀ k, k ≠ key → (c.initCancel key ttl).timers k = c.timers k := by
  unfold MemoryCache.initCancel
  cases ttl with
  | none => simp
  | some t =>
    by_cases ht : t ≤ 0
    · simp [ht]
    · cases hk : c.timers key with
      | some d => simp [ht, hk]
      | none =>
        simp only [ht, hk, if_false, true_and]
        intro k hne
        simp [GoMap.insert, hne]

/-- The method `Inc` on a key with no entry. -/
theorem Inc_absent (c : MemoryCache) (key : String) (ttl : Option Nat)
    (h : c.data key = none) :
    c.Inc key ttl =
      ((1, some Error.ValueNotFoundByKey), { c with data := c.data.insert key "1" }) := by
  simp [MemoryCache.Inc, h]

/-- The method `Inc` on a key whose value parses as an integer. -/
theorem Inc_present (c : MemoryCache) (key : String) (ttl : Option Nat) (v : String) (n : Int)
    (h : c.data key = some v) (hp : ParseInt v = some n) :
    c.Inc key ttl =
      ((wrapInt64 (n + 1), none),
        MemoryCache.initCancel { c with data := c.data.insert key (FormatInt (wrapInt64 (n + 1))) }
          key ttl) := by
  simp [MemoryCache.Inc, MemoryCache.sliceByteToInt64, h, hp]

/-- Reading the key just written. -/
theorem GoMap.insert_self {V : Type} (m : GoMap V) (k : String) (v : V) :
    m.insert k v k = some v := by
  simp [GoMap.insert]

/-- Reading another key than the one written. -/
theorem GoMap.insert_other {V : Type} (m : GoMap V) (k x : String) (v : V) (h : x ≠ k) :
    m.insert k v x = m x := by
  simp [GoMap.insert, h]

/-- What `Inc` does to a stored in-range integer below the largest `int64`. -/
theorem Inc_integer (c : MemoryCache) (key : String) (ttl : Option Nat) (n : Int)
    (hlo : -2 ^ 63 ≤ n) (hhi : n < 2 ^ 63 - 1) (hc : c.data key = some (FormatInt n)) :
    (c.Inc key ttl).1 = (n + 1, none) ∧
      (c.Inc key ttl).2.data key = some (FormatInt (n + 1)) ∧
      ∀ k, k ≠ key → (c.Inc key ttl).2.data k = c.data k ∧
        (c.Inc key ttl).2.timers k = c.timers k := by
  have hp := ParseInt_FormatInt n hlo (by omega)
  have hw := wrapInt64_of_range (n + 1) (by omega) (by omega)
  rw [Inc_present c key ttl _ n hc hp, hw]
  have hf := initCancel_frame { c with data := c.data.insert key (FormatInt (n + 1)) } key ttl
  refine ⟨rfl, ?_, ?_⟩
  · simp only [hf.1]; exact GoMap.insert_self _ _ _
  · intro k hk
    refine ⟨?_, ?_⟩
    · simp only [hf.1]; exact GoMap.insert_other _ _ _ _ hk
    · exact hf.2 k hk

/-- Successive `Inc` calls from a stored integer `n`: call number `i` returns
`n + 1 + i`, and `n + N` is left stored. -/
theorem incAll_from (key : String) : ∀ (ttls : List (Option Nat)) (c : MemoryCache) (n : Int),
    -2 ^ 63 ≤ n → n + ttls.length < 2 ^ 63 → c.data key = some (FormatInt n) →
    (incAll key c ttls).1 = (List.range ttls.length).map
        (fun (i : Nat) => (n + 1 + (i : Int), (none : Option Error))) ∧
      (incAll key c ttls).2.data key = some (FormatInt (n + ttls.length)) ∧
      ∀ k, k ≠ key → (incAll key c ttls).2.data k = c.data k := by
  intro ttls
  induction ttls with
  | nil => intro c n _ _ hc; simp [incAll, hc]
  | cons ttl ttls ih =>
    intro c n hlo hhi hc
    simp only [List.length_cons, Nat.cast_add, Nat.cast_one] at hhi
    obtain ⟨h1, h2, h3⟩ := Inc_integer c key ttl n hlo (by omega) hc
    obtain ⟨i1, i2, i3⟩ := ih (c.Inc key ttl).2 (n + 1) (by omega) (by omega) h2
    refine ⟨?_, ?_, ?_⟩
    · simp only [incAll, h1, i1, List.length_cons, List.range_succ_eq_map, List.map_cons,
        List.map_map]
      simp only [Nat.cast_zero, add_zero, List.cons.injEq, true_and]
      apply List.map_congr_left
      intro i _
      simp only [Function.comp, Nat.cast_succ, Prod.mk.injEq, and_true]
      omega
    · simp only [incAll, i2, List.length_cons, Nat.cast_add, Nat.cast_one]
      congr 2
      omega
    · intro k hk
      simp only [incAll]
      rw [i3 k hk, (h3 k hk).1]

/-! ## The decision engine -/


/-- The inner loop of `IsLimitedByIDs` answers true exactly when a rule with
the id has a limit reached by the stored integer. -/
theorem isLimitedRules_iff (c : MemoryCache) (storeID : String) (data : List ByIpData) :
    isLimitedRules c storeID data = true ↔
      ∃ d ∈ data, d.ID = storeID ∧
        ∃ v n, c.Get storeID = (some v, none) ∧ ParseInt v = some n ∧ d.Limit ≤ n := by
  induction data with
  | nil => simp [isLimitedRules]
  | cons d rest ih =>
    by_cases hid : d.ID = storeID
    · cases hg : c.data storeID with
      | none =>
        simp [isLimitedRules, hid, MemoryCache.Get, hg, ih]
      | some v =>
        cases hp : ParseInt v with
        | none => simp [isLimitedRules, hid, MemoryCache.Get, hg, hp, ih]
        | some n =>
          by_cases hl : d.Limit ≤ n
          · simp [isLimitedRules, hid, MemoryCache.Get, hg, hp, hl]
          · simp [isLimitedRules, hid, MemoryCache.Get, hg, hp, hl, ih]
    · simp [isLimitedRules, hid, ih]

/-- The outer loop of `IsLimitedByIDs`. -/
theorem isLimitedIDs_iff (cfg : Config) (c : MemoryCache) (ids : List String) :
    isLimitedIDs cfg c ids = true ↔
      ∃ id ∈ ids, isLimitedRules c id cfg.ByIp.Data = true := by
  induction ids with
  | nil => simp [isLimitedIDs]
  | cons id rest ih =>
    by_cases h : isLimitedRules c id cfg.ByIp.Data = true
    · simp [isLimitedIDs, h]
    · simp [isLimitedIDs, h, ih]

/-- The inner loop of `IncByIDs` passes over rules with another id. -/
theorem incRules_of_ne (c : MemoryCache) (storeID : String) (l : List ByIpData)
    (h : ∀ d ∈ l, d.ID ≠ storeID) : incRules c storeID l = (none, c) := by
  induction l with
  | nil => rfl
  | cons d rest ih =>
    have hd : d.ID ≠ storeID := h d (by simp)
    simp only [incRules, hd, ne_eq, not_false_eq_true, if_true]
    exact ih (fun x hx => h x (by simp [hx]))

/-- The inner loop of `IncByIDs` on a rule list in two parts. -/
theorem incRules_append (storeID : String) (l1 l2 : List ByIpData) (c : MemoryCache) :
    incRules c storeID (l1 ++ l2) =
      match incRules c storeID l1 with
      | (some x, c1) => (some x, c1)
      | (none, c1) => incRules c1 storeID l2 := by
  induction l1 generalizing c with
  | nil => simp [incRules]
  | cons d rest ih =>
    by_cases hd : d.ID = storeID
    · rcases hinc : c.Inc storeID (some (toUint64 d.BlockTime)) with ⟨⟨x, e⟩, c1⟩
      cases e with
      | none => simp [incRules, hd, hinc]
      | some err => simp [incRules, hd, hinc, ih]
    · simp [incRules, hd, ih]

/-- A rule of a configuration with pairwise distinct ids splits the rule list
into rules with other ids before and after it. -/
theorem split_of_nodup (data : List ByIpData) (r : ByIpData)
    (hnodup : (data.map ByIpData.ID).Nodup) (hr : r ∈ data) :
    ∃ pre post, data = pre ++ r :: post ∧ (∀ d ∈ pre, d.ID ≠ r.ID) ∧
      ∀ d ∈ post, d.ID ≠ r.ID := by
  obtain ⟨pre, post, rfl⟩ := List.mem_iff_append.mp hr
  refine ⟨pre, post, rfl, ?_, ?_⟩
  · intro d hd heq
    simp only [List.map_append, List.map_cons] at hnodup
    have := (List.nodup_append.mp hnodup).2.2
    exact this (List.mem_map_of_mem _ hd) (by simp [heq])
  · intro d hd heq
    simp only [List.map_append, List.map_cons] at hnodup
    have h2 := (List.nodup_append.mp hnodup).2.1
    have h3 := (List.nodup_cons.mp h2).1
    exact h3 (heq ▸ List.mem_map_of_mem _ hd)

/-- With pairwise distinct rule ids, `IncByIDs` on the single id of a rule is
one `Inc` with the rule's block time, and an error of that `Inc` (the fresh-key
signal included) turns the returned count into 0. -/
theorem IncByIDs_single (cfg : Config) (c : MemoryCache) (r : ByIpData)
    (hnodup : (cfg.ByIp.Data.map ByIpData.ID).Nodup) (hr : r ∈ cfg.ByIp.Data) :
    IncByIDs cfg c [r.ID] =
      match c.Inc r.ID (some (toUint64 r.BlockTime)) with
      | ((_, some _), c1) => (0, c1)
      | ((x, none), c1) => (x, c1) := by
  obtain ⟨pre, post, hdata, hpre, hpost⟩ := split_of_nodup _ r hnodup hr
  simp only [IncByIDs, List.length_singleton, one_ne_zero, if_false, incIDs, hdata,
    incRules_append, incRules_of_ne c r.ID pre hpre]
  rcases hinc : c.Inc r.ID (some (toUint64 r.BlockTime)) with ⟨⟨x, e⟩, c1⟩
  cases e with
  | none => simp [incRules, hinc]
  | some err => simp [incRules, hinc, incRules_of_ne c1 r.ID post hpost]

/-- With pairwise distinct rule ids, `IsLimitedByIDs` on the single id of a rule
compares the stored integer with that rule's limit. -/
theorem IsLimitedByIDs_single (cfg : Config) (c : MemoryCache) (r : ByIpData)
    (hnodup : (cfg.ByIp.Data.map ByIpData.ID).Nodup) (hr : r ∈ cfg.ByIp.Data) :
    IsLimitedByIDs cfg c [r.ID] = true ↔
      ∃ v n, c.data r.ID = some v ∧ ParseInt v = some n ∧ r.Limit ≤ n := by
  simp only [IsLimitedByIDs, List.length_singleton, one_ne_zero, if_false, isLimitedIDs_iff,
    isLimitedRules_iff]
  constructor
  · rintro ⟨id, hid, d, hd, hdid, v, n, hget, hp, hl⟩
    simp only [List.mem_singleton] at hid
    subst hid
    have hdr : d = r := List.inj_on_of_nodup_map hnodup hd hr hdid
    subst hdr
    refine ⟨v, n, ?_, hp, hl⟩
    cases hdat : c.data d.ID with
    | none => simp [MemoryCache.Get, hdat] at hget
    | some w => simp [MemoryCache.Get, hdat] at hget; simp [hget]
  · rintro ⟨v, n, hdat, hp, hl⟩
    exact ⟨r.ID, by simp, r, hr, rfl, v, n, by simp [MemoryCache.Get, hdat], hp, hl⟩

/-- The middleware on a request that is not a reset and whose first resolved id
is `id`: the verdict is read before the increment, the wrapped handler is
called in both cases. -/
theorem RateLimit_first_id (lib : Lib) (cfg : Config) (c : MemoryCache) (q : Request)
    (id : String) (hreset : ¬ (q.Path = "/reset" ∧ q.Method = "POST"))
    (hid : (IdsByIP lib cfg q.Proto q.Method q.Path (firstField q.XForwardedFor)).head? =
      some id) :
    RateLimit lib cfg c q =
      ({ Code := if IsLimitedByIDs cfg c [id] then some 429 else none, Next := true },
        (IncByIDs cfg c [id]).2) := by
  rcases hids : IdsByIP lib cfg q.Proto q.Method q.Path (firstField q.XForwardedFor) with
    _ | ⟨x, rest⟩
  · simp [hids] at hid
  · simp only [hids, List.head?_cons, Option.some.injEq] at hid
    subst hid
    simp [RateLimit, hreset, hids, IsLimitedByApp]


/-- One request of a run in which `k` earlier requests were counted for the
rule: the verdict compares `k` with the limit, and the counter moves to
`k + 1`. -/
theorem RateLimit_step (lib : Lib) (cfg : Config) (c : MemoryCache) (q : Request)
    (r : ByIpData) (k : Nat)
    (hnodup : (cfg.ByIp.Data.map ByIpData.ID).Nodup) (hr : r ∈ cfg.ByIp.Data)
    (hreset : ¬ (q.Path = "/reset" ∧ q.Method = "POST"))
    (hid : (IdsByIP lib cfg q.Proto q.Method q.Path (firstField q.XForwardedFor)).head? =
      some r.ID)
    (hk : c.data r.ID = if k = 0 then none else some (FormatInt (k : Int)))
    (hk2 : k < 2 ^ 63) :
    (RateLimit lib cfg c q).1 =
        { Code := if (k : Int) < max r.Limit 1 then none else some 429, Next := true } ∧
      (k + 1 < 2 ^ 63 →
        (RateLimit lib cfg c q).2.data r.ID = some (FormatInt ((k + 1 : Nat) : Int))) := by
  rw [RateLimit_first_id lib cfg c q r.ID hreset hid, IncByIDs_single cfg c r hnodup hr]
  have hlim := IsLimitedByIDs_single cfg c r hnodup hr
  by_cases h0 : k = 0
  · subst h0
    simp only [if_true] at hk
    have hnot : ¬ (IsLimitedByIDs cfg c [r.ID] = true) := by
      rw [hlim]; rintro ⟨v, n, hv, _, _⟩; rw [hk] at hv; cases hv
    rw [Inc_absent c r.ID _ hk]
    refine ⟨?_, ?_⟩
    · have e1 : (if IsLimitedByIDs cfg c [r.ID] = true then some 429 else none : Option Nat) =
          none := if_neg hnot
      have e2 : (if ((0 : Nat) : Int) < max r.Limit 1 then none else some 429 : Option Nat) =
          none := if_pos (by omega)
      rw [e1, e2]
    · intro _
      simp only [GoMap.insert_self]
      rfl
  · simp only [h0, if_false] at hk
    have hp := ParseInt_FormatInt (k : Int) (by omega) (by omega)
    have hiff : IsLimitedByIDs cfg c [r.ID] = true ↔ r.Limit ≤ (k : Int) := by
      rw [hlim]
      constructor
      · rintro ⟨v, n, hv, hpn, hl⟩
        rw [hk] at hv
        cases hv
        rw [hp] at hpn
        cases hpn
        exact hl
      · intro hl
        exact ⟨_, _, hk, hp, hl⟩
    rw [Inc_present c r.ID _ _ _ hk hp]
    refine ⟨?_, ?_⟩
    · by_cases hl : r.Limit ≤ (k : Int)
      · have e1 : (if IsLimitedByIDs cfg c [r.ID] = true then some 429 else none : Option Nat) =
            some 429 := if_pos (hiff.mpr hl)
        have e2 : (if (k : Int) < max r.Limit 1 then none else some 429 : Option Nat) =
            some 429 := if_neg (by omega)
        rw [e1, e2]
      · have e1 : (if IsLimitedByIDs cfg c [r.ID] = true then some 429 else none : Option Nat) =
            none := if_neg (fun h => hl (hiff.mp h))
        have e2 : (if (k : Int) < max r.Limit 1 then none else some 429 : Option Nat) =
            none := if_pos (by omega)
        rw [e1, e2]
    · intro hk3
      have hw := wrapInt64_of_range ((k : Int) + 1) (by omega) (by omega)
      simp only [hw, (initCancel_frame _ _ _).1, GoMap.insert_self, Nat.cast_add, Nat.cast_one]

/-- A run of requests that all resolve to the rule first, started when `k`
requests were already counted. -/
theorem serveAll_from (lib : Lib) (cfg : Config) (r : ByIpData)
    (hnodup : (cfg.ByIp.Data.map ByIpData.ID).Nodup) (hr : r ∈ cfg.ByIp.Data) :
    ∀ (reqs : List Request) (c : MemoryCache) (k : Nat),
      (∀ q ∈ reqs, ¬ (q.Path = "/reset" ∧ q.Method = "POST") ∧
        (IdsByIP lib cfg q.Proto q.Method q.Path (firstField q.XForwardedFor)).head? =
          some r.ID) →
      c.data r.ID = (if k = 0 then none else some (FormatInt (k : Int))) →
      k + reqs.length ≤ 2 ^ 63 →
      (serveAll lib cfg c reqs).1 = (List.range reqs.length).map (fun (i : Nat) =>
        ({ Code := if ((k + i : Nat) : Int) < max r.Limit 1 then none else some 429,
           Next := true } : Response)) := by
  intro reqs
  induction reqs with
  | nil => intro c k _ _ _; simp [serveAll]
  | cons q rest ih =>
    intro c k hreqs hk hlen
    simp only [List.length_cons] at hlen
    obtain ⟨hreset, hid⟩ := hreqs q (by simp)
    obtain ⟨h1, h2⟩ := RateLimit_step lib cfg c q r k hnodup hr hreset hid hk (by omega)
    have hdata : (if q.ContextEnds = true then contextDone c (RateLimit lib cfg c q).2
        else (RateLimit lib cfg c q).2).data = (RateLimit lib cfg c q).2.data := by
      split <;> rfl
    simp only [serveAll, List.length_cons, List.range_succ_eq_map, List.map_cons, List.map_map,
      h1, add_zero, List.cons.injEq, true_and]
    cases rest with
    | nil => simp [serveAll]
    | cons q2 rest2 =>
      simp only [List.length_cons] at hlen
      have hk1 : (if q.ContextEnds = true then contextDone c (RateLimit lib cfg c q).2
          else (RateLimit lib cfg c q).2).data r.ID =
          (if k + 1 = 0 then none else some (FormatInt ((k + 1 : Nat) : Int))) := by
        rw [hdata, if_neg (by omega)]
        exact h2 (by omega)
      rw [ih _ (k + 1) (fun x hx => hreqs x (by simp [hx])) hk1
        (by simp only [List.length_cons]; omega)]
      apply List.map_congr_left
      intro i _
      simp only [Function.comp, Nat.succ_eq_add_one]
      have : k + 1 + i = k + (i + 1) := by omega
      rw [this]

/-- Successive `Inc` calls over a ttl list in two parts. -/
theorem incAll_append (key : String) (l1 l2 : List (Option Nat)) (c : MemoryCache) :
    (incAll key c (l1 ++ l2)).1 =
      (incAll key c l1).1 ++ (incAll key (incAll key c l1).2 l2).1 := by
  induction l1 generalizing c with
  | nil => simp [incAll]
  | cons ttl rest ih => simp [incAll, ih]

/-- Successive `Inc` calls on a key with no entry: call number `i` (from 0)
returns `i + 1`, the first one with the fresh-key signal, and the number of
calls is left stored. -/
theorem incAll_fresh (key : String) (ttls : List (Option Nat)) (c0 : MemoryCache)
    (h0 : c0.data key = none) (hN : ttls.length < 2 ^ 63) :
    (incAll key c0 ttls).1 = (List.range ttls.length).map (fun (i : Nat) =>
        ((i : Int) + 1, if i = 0 then some Error.ValueNotFoundByKey else none)) ∧
      (0 < ttls.length →
        (incAll key c0 ttls).2.data key = some (FormatInt (ttls.length : Int))) ∧
      ∀ k, k ≠ key → (incAll key c0 ttls).2.data k = c0.data k := by
  cases ttls with
  | nil => simp [incAll]
  | cons ttl rest =>
    simp only [List.length_cons] at hN
    have hone : ({ c0 with data := c0.data.insert key "1" } : MemoryCache).data key =
        some (FormatInt 1) := by
      simp only [GoMap.insert_self]; rfl
    obtain ⟨i1, i2, i3⟩ := incAll_from key rest _ 1 (by omega) (by omega) hone
    refine ⟨?_, ?_, ?_⟩
    · simp only [incAll, Inc_absent c0 key ttl h0, i1, List.length_cons,
        List.range_succ_eq_map, List.map_cons, List.map_map]
      simp only [Nat.cast_zero, zero_add, if_true, List.cons.injEq, true_and]
      apply List.map_congr_left
      intro i _
      simp only [Function.comp, Nat.succ_eq_add_one, Nat.cast_add, Nat.cast_one,
        Nat.add_one_ne_zero, if_false, Prod.mk.injEq, and_true]
      omega
    · intro _
      simp only [incAll, Inc_absent c0 key ttl h0, i2, List.length_cons, Nat.cast_add,
        Nat.cast_one]
      congr 2
      omega
    · intro k hk
      simp only [incAll, Inc_absent c0 key ttl h0]
      rw [i3 k hk]
      exact GoMap.insert_other _ _ _ _ hk

/-- After `2^63 - 1` successive `Inc` calls on a key with no entry, one more
call wraps around to the smallest `int64`. -/
theorem incAll_wraps (key : String) (l : List (Option Nat)) (c0 : MemoryCache)
    (h0 : c0.data key = none) (hl : l.length = 9223372036854775807) :
    (incAll key c0 (l ++ [none])).1.getLast? = some (-9223372036854775808, none) := by
  obtain ⟨_, h2, _⟩ := incAll_fresh key l c0 h0 (by rw [hl]; norm_num)
  have hst := h2 (by rw [hl]; norm_num)
  rw [hl] at hst
  simp only [Nat.cast_ofNat] at hst
  have hp := ParseInt_FormatInt 9223372036854775807 (by norm_num) (by norm_num)
  rw [incAll_append]
  simp only [incAll, List.getLast?_append, List.getLast?_singleton]
  rw [Inc_present _ key none _ _ hst hp]
  rfl

/-! ## The rule matcher -/

/-- The handler loop appends the rule id once per handler that passes. -/
theorem handlerLoop_eq (lib : Lib) (protocol method url storeID : String)
    (hs : List LimitHandler) (res : List String) :
    handlerLoop lib protocol method url storeID hs res =
      res ++ (hs.filter (handlerAppends lib protocol method url)).map (fun _ => storeID) := by
  induction hs generalizing res with
  | nil => simp [handlerLoop]
  | cons lh rest ih =>
    unfold handlerLoop
    by_cases h1 : (lh.Regexp && (lib.Compile lh.Url).isNone) = true
    · simp [h1, ih, handlerAppends]
    · by_cases h2 : (lh.ProtocolRegexp && (lib.Compile lh.Protocol).isNone) = true
      · simp [h1, h2, ih, handlerAppends]
      · by_cases h3 : lh.Url = ""
        · simp [h1, h2, h3, ih, handlerAppends]
        · by_cases h4 : handlerCond lib protocol method url lh = true
          · simp only [h1, h2, h3, h4, if_true, if_false, ih]
            have ha : handlerAppends lib protocol method url lh = true := by
              simp only [Bool.not_eq_true] at h1 h2
              simp [handlerAppends, h1, h2, h3, h4]
            simp [List.filter_cons, ha]
          · simp only [h1, h2, h3, h4, if_false, ih]
            have ha : handlerAppends lib protocol method url lh = false := by
              simp only [Bool.not_eq_true] at h4
              simp [handlerAppends, h4]
            simp [List.filter_cons, ha]

/-- The rule loop appends, rule after rule, the ids of each rule. -/
theorem ruleLoop_eq (lib : Lib) (protocol method url : String) (ip : Option IP)
    (data : List ByIpData) (res : List String) :
    ruleLoop lib protocol method url ip data res =
      res ++ data.flatMap (ruleIDs lib protocol method url ip) := by
  induction data generalizing res with
  | nil => simp [ruleLoop]
  | cons d rest ih =>
    unfold ruleLoop
    by_cases h1 : maskSkips lib d.Mask ip = true
    · simp [h1, ih, ruleIDs]
    · by_cases h2 : protocol = "*" ∧ method = "*" ∧ url = "*"
      · obtain ⟨rfl, rfl, rfl⟩ := h2
        simp [h1, ih, ruleIDs]
      · simp [h1, h2, ih, ruleIDs, handlerLoop_eq]

/-- The result of `IdsByIP` is the concatenation, in declaration order, of what
each rule contributes. -/
theorem IdsByIP_eq (lib : Lib) (cfg : Config) (protocol method url strIP : String) :
    IdsByIP lib cfg protocol method url strIP =
      cfg.ByIp.Data.flatMap (ruleIDs lib (lib.ToLower protocol) (lib.ToLower method)
        (lib.ToLower url) (lib.ParseIP strIP)) := by
  simp [IdsByIP, ruleLoop_eq]

/-- A rule contributes nothing but its own id, and only when it is not
skipped. -/
theorem mem_ruleIDs (lib : Lib) (protocol method url : String) (ip : Option IP)
    (d : ByIpData) (x : String) (hx : x ∈ ruleIDs lib protocol method url ip d) :
    x = d.ID ∧ maskSkips lib d.Mask ip = false := by
  unfold ruleIDs at hx
  by_cases h1 : maskSkips lib d.Mask ip = true
  · simp [h1] at hx
  · simp only [Bool.not_eq_true] at h1
    refine ⟨?_, h1⟩
    by_cases h2 : protocol = "*" ∧ method = "*" ∧ url = "*"
    · simpa [h1, h2] using hx
    · simp only [h1, h2, if_false, Bool.false_eq_true, List.mem_map] at hx
      obtain ⟨_, _, rfl⟩ := hx
      rfl

/-- The verdict of `IsLimitedByIDs` depends on the store only through the
values under the listed ids. -/
theorem IsLimitedByIDs_congr (cfg : Config) (c c2 : MemoryCache) (ids : List String)
    (h : ∀ id ∈ ids, c.data id = c2.data id) :
    IsLimitedByIDs cfg c ids = IsLimitedByIDs cfg c2 ids := by
  have key : ∀ id ∈ ids, ∀ data : List ByIpData,
      isLimitedRules c id data = isLimitedRules c2 id data := by
    intro id hid data
    induction data with
    | nil => rfl
    | cons d rest ih => simp [isLimitedRules, MemoryCache.Get, h id hid, ih]
  unfold IsLimitedByIDs
  by_cases h0 : ids.length = 0
  · simp [h0]
  · simp only [h0, if_false]
    clear h0
    induction ids with
    | nil => rfl
    | cons id rest ih =>
      simp only [isLimitedIDs, key id (by simp)]
      rw [ih (fun x hx => h x (by simp [hx])) (fun x hx => key x (by simp [hx]))]

/-! ## The counter store: timers, `Set` and `Decr` -/

/-- The method `initCancel` on a key with a registered timer changes nothing. -/
theorem initCancel_armed (c : MemoryCache) (key : String) (ttl : Option Nat) (d : Int)
    (h : c.timers key = some d) : c.initCancel key ttl = c := by
  unfold MemoryCache.initCancel
  cases ttl with
  | none => rfl
  | some t =>
    by_cases ht : t ≤ 0
    · simp [ht]
    · simp [ht, h]

/-- The timer that `initCancel` leaves for the key: the one that was there, or
a new one when there was none and the ttl is set and positive. -/
theorem initCancel_timer (c : MemoryCache) (key : String) (ttl : Option Nat) :
    (c.initCancel key ttl).timers key =
      match c.timers key, ttl with
      | some d, _ => some d
      | none, some t => if 0 < t then some (timerDuration t) else none
      | none, none => none := by
  unfold MemoryCache.initCancel
  cases ttl with
  | none => cases h : c.timers key <;> simp
  | some t =>
    by_cases ht : t ≤ 0
    · have : ¬ 0 < t := by omega
      cases h : c.timers key <;> simp [ht, this, h]
    · have : 0 < t := by omega
      cases h : c.timers key <;> simp [ht, this, GoMap.insert, h]

/-- A non-empty string has a positive length. -/
theorem length_ne_zero_of_ne_empty (key : String) (h : key ≠ "") : key.length ≠ 0 := by
  intro h0
  apply h
  apply String.ext
  exact List.length_eq_zero.mp h0

/-- The method `Set` on a non-empty key. -/
theorem Set_nonempty (c : MemoryCache) (key value : String) (ttl : Option Nat)
    (h : key ≠ "") :
    c.Set key value ttl =
      (none, MemoryCache.initCancel { c with data := c.data.insert key value } key ttl) := by
  simp [MemoryCache.Set, length_ne_zero_of_ne_empty key h]

/-- The method `Decr` on a key with no entry. -/
theorem Decr_absent (c : MemoryCache) (key : String) (ttl : Option Nat)
    (h : c.data key = none) :
    c.Decr key ttl =
      ((-1, some Error.ValueNotFoundByKey), { c with data := c.data.insert key "-1" }) := by
  simp [MemoryCache.Decr, h]

/-- The method `Decr` on a key whose value parses as an integer. -/
theorem Decr_present (c : MemoryCache) (key : String) (ttl : Option Nat) (v : String) (n : Int)
    (h : c.data key = some v) (hp : ParseInt v = some n) :
    c.Decr key ttl =
      ((wrapInt64 (n - 1), none),
        MemoryCache.initCancel { c with data := c.data.insert key (FormatInt (wrapInt64 (n - 1))) }
          key ttl) := by
  simp [MemoryCache.Decr, MemoryCache.sliceByteToInt64, h, hp]

/-- The methods `Inc` and `Decr` leave the store as it is when they return 0
with an error for a value that is not an integer. -/
theorem Inc_Decr_not_integer (c : MemoryCache) (key : String) (ttl : Option Nat) (v : String)
    (h : c.data key = some v) (hp : ParseInt v = none) :
    c.Inc key ttl = ((0, some (Error.ValueByKeyIsNotInteger key)), c) ∧
      c.Decr key ttl = ((0, some (Error.ValueByKeyIsNotInteger key)), c) := by
  simp [MemoryCache.Inc, MemoryCache.Decr, MemoryCache.sliceByteToInt64, h, hp]

/-- The wrapped value is in the `int64` range. -/
theorem wrapInt64_range (x : Int) : -2 ^ 63 ≤ wrapInt64 x ∧ wrapInt64 x < 2 ^ 63 := by
  unfold wrapInt64
  omega

/-- A write with `Inc` never removes an entry of `timers`. -/
theorem Inc_timer_kept (c : MemoryCache) (key : String) (ttl : Option Nat) (k : String)
    (d : Int) (h : c.timers k = some d) : (c.Inc key ttl).2.timers k = some d := by
  cases hd : c.data key with
  | none => rw [Inc_absent c key ttl hd]; exact h
  | some v =>
    cases hp : ParseInt v with
    | none => rw [(Inc_Decr_not_integer c key ttl v hd hp).1]; exact h
    | some n =>
      rw [Inc_present c key ttl v n hd hp]
      by_cases hk : k = key
      · subst hk
        have e := initCancel_armed
          { c with data := c.data.insert k (FormatInt (wrapInt64 (n + 1))) } k ttl d h
        simp only [e]
        exact h
      · rw [(initCancel_frame _ key ttl).2 k hk]
        exact h

/-! ## The counter store: `Del`, `Clear` and the reachable stores -/

/-- Two stores with the same values and the same timers are the same store. -/
theorem MemoryCache.ext_maps (c c2 : MemoryCache) (hd : ∀ k, c.data k = c2.data k)
    (ht : ∀ k, c.timers k = c2.timers k) : c = c2 := by
  cases c
  cases c2
  simp only [MemoryCache.mk.injEq]
  exact ⟨funext hd, funext ht⟩

/-- The method `callCancel` returns no error, keeps the values and leaves no
timer for the key. -/
theorem callCancel_spec (c : MemoryCache) (key : String) :
    (c.callCancel key).1 = none ∧ (c.callCancel key).2.data = c.data ∧
      ∀ k, (c.callCancel key).2.timers k = if k = key then none else c.timers k := by
  unfold MemoryCache.callCancel
  cases h : c.timers key with
  | none =>
    refine ⟨rfl, rfl, ?_⟩
    intro k
    by_cases hk : k = key
    · simp [hk, h]
    · simp [hk]
  | some d =>
    refine ⟨rfl, rfl, ?_⟩
    intro k
    simp [GoMap.erase]

/-- The method `Del` returns no error and removes the value and the timer of
the listed keys, and of them only. -/
theorem Del_spec (list : List String) : ∀ c : MemoryCache,
    (c.Del list).1 = none ∧
      (∀ k, (c.Del list).2.data k = if k ∈ list then none else c.data k) ∧
      ∀ k, (c.Del list).2.timers k = if k ∈ list then none else c.timers k := by
  induction list with
  | nil => intro c; simp [MemoryCache.Del]
  | cons key rest ih =>
    intro c
    obtain ⟨h1, h2, h3⟩ := callCancel_spec { c with data := c.data.erase key } key
    rcases hcc : MemoryCache.callCancel { c with data := c.data.erase key } key with ⟨e, c2⟩
    rw [hcc] at h1 h2 h3
    simp only at h1 h2 h3
    subst h1
    obtain ⟨i1, i2, i3⟩ := ih c2
    simp only [MemoryCache.Del, hcc]
    refine ⟨i1, ?_, ?_⟩
    · intro k
      rw [i2 k, h2]
      by_cases hk : k = key
      · simp [hk, GoMap.erase]
      · simp [hk, GoMap.erase]
    · intro k
      rw [i3 k, h3 k]
      by_cases hk : k = key
      · simp [hk]
      · simp [hk]

/-- One event keeps the invariant of a run. -/
theorem step_timersHaveValues (s : Running) (e : Event) (h : s.timersHaveValues) :
    (s.step e).timersHaveValues := by
  have hinit : ∀ (key v : String) (ttl : Option Nat) (k : String),
      (MemoryCache.initCancel { s.store with data := s.store.data.insert key v } key ttl).data
        k = none →
      (MemoryCache.initCancel { s.store with data := s.store.data.insert key v } key
        ttl).timers k = none ∨ s.expiring k = true := by
    intro key v ttl k hk
    have hf := initCancel_frame { s.store with data := s.store.data.insert key v } key ttl
    rw [hf.1] at hk
    by_cases hkk : k = key
    · subst hkk
      simp [GoMap.insert] at hk
    · rw [hf.2 k hkk]
      simp only [GoMap.insert, hkk, if_false] at hk
      exact h k hk
  have hins : ∀ (key v k : String), (s.store.data.insert key v) k = none →
      s.store.timers k = none ∨ s.expiring k = true := by
    intro key v k hk
    by_cases hkk : k = key
    · subst hkk
      simp [GoMap.insert] at hk
    · simp only [GoMap.insert, hkk, if_false] at hk
      exact h k hk
  cases e with
  | Set key value ttl =>
    intro k hk
    simp only [Running.step, MemoryCache.Set] at hk ⊢
    by_cases hl : key.length = 0
    · simp only [hl, if_true] at hk ⊢
      exact h k hk
    · simp only [hl, if_false] at hk ⊢
      exact hinit key value ttl k hk
  | Inc key ttl =>
    intro k hk
    simp only [Running.step] at hk ⊢
    cases hd : s.store.data key with
    | none =>
      rw [Inc_absent s.store key ttl hd] at hk ⊢
      exact hins key "1" k hk
    | some v =>
      cases hp : ParseInt v with
      | none =>
        rw [(Inc_Decr_not_integer s.store key ttl v hd hp).1] at hk ⊢
        exact h k hk
      | some n =>
        rw [Inc_present s.store key ttl v n hd hp] at hk ⊢
        exact hinit key _ ttl k hk
  | Decr key ttl =>
    intro k hk
    simp only [Running.step] at hk ⊢
    cases hd : s.store.data key with
    | none =>
      rw [Decr_absent s.store key ttl hd] at hk ⊢
      exact hins key "-1" k hk
    | some v =>
      cases hp : ParseInt v with
      | none =>
        rw [(Inc_Decr_not_integer s.store key ttl v hd hp).2] at hk ⊢
        exact h k hk
      | some n =>
        rw [Decr_present s.store key ttl v n hd hp] at hk ⊢
        exact hinit key _ ttl k hk
  | Get key => exact h
  | Has key => exact h
  | Del list =>
    intro k hk
    simp only [Running.step] at hk ⊢
    obtain ⟨_, h2, h3⟩ := Del_spec list s.store
    rw [h3 k]
    rw [h2 k] at hk
    by_cases hm : k ∈ list
    · left; simp [hm]
    · simp only [hm, if_false] at hk ⊢
      exact h k hk
  | Clear => intro k _; left; rfl
  | TimerFired key =>
    intro k hk
    simp only [Running.step] at hk ⊢
    by_cases ht : (s.store.timers key).isSome = true ∧ s.expiring key = false
    · rw [if_pos ht] at hk ⊢
      by_cases hkk : k = key
      · right; simp [hkk]
      · simp only [MemoryCache.timerFired, GoMap.erase, hkk, if_false] at hk ⊢
        exact h k hk
    · rw [if_neg ht] at hk ⊢
      exact h k hk
  | TimerUnregistered key =>
    intro k hk
    simp only [Running.step] at hk ⊢
    by_cases ht : s.expiring key = true
    · rw [if_pos ht] at hk ⊢
      by_cases hkk : k = key
      · left; simp [MemoryCache.timerUnregistered, GoMap.erase, hkk]
      · simp only [MemoryCache.timerUnregistered, GoMap.erase, hkk, if_false] at hk ⊢
        exact h k hk
    · rw [if_neg ht] at hk ⊢
      exact h k hk
  | CtxDone key =>
    intro k hk
    simp only [Running.step] at hk ⊢
    by_cases ht : (s.store.timers key).isSome = true ∧ s.expiring key = false
    · rw [if_pos ht] at hk ⊢
      by_cases hkk : k = key
      · left; simp [MemoryCache.ctxDone, GoMap.erase, hkk]
      · simp only [MemoryCache.ctxDone, GoMap.erase, hkk, if_false] at hk ⊢
        exact h k hk
    · rw [if_neg ht] at hk ⊢
      exact h k hk

/-- A run keeps the invariant of a run. -/
theorem run_timersHaveValues (es : List Event) :
    ∀ s : Running, s.timersHaveValues → (s.run es).timersHaveValues := by
  induction es with
  | nil => intro s h; exact h
  | cons e rest ih => intro s h; exact ih _ (step_timersHaveValues s e h)

/-- In a reachable store a key without value has no timer. -/
theorem reachable_timersHaveValues (c : MemoryCache) (h : c.Reachable) :
    timersHaveValues c := by
  obtain ⟨es, rfl, hq⟩ := h
  intro k hk
  rcases run_timersHaveValues es Running.new (fun _ _ => Or.inl rfl) k hk with h1 | h1
  · exact h1
  · rw [hq k] at h1
    cases h1

/-- The inner loop of `ClearByIDs` returns no error and removes the value and
the timer of the id when a rule has that id, and nothing else. -/
theorem clearRules_spec (storeID : String) (data : List ByIpData) : ∀ c : MemoryCache,
    (clearRules c storeID data).1 = none ∧
      (∀ k, (clearRules c storeID data).2.data k =
        if k = storeID ∧ data.any (fun d => decide (d.ID = storeID)) = true then none
        else c.data k) ∧
      ∀ k, (clearRules c storeID data).2.timers k =
        if k = storeID ∧ data.any (fun d => decide (d.ID = storeID)) = true then none
        else c.timers k := by
  induction data with
  | nil => intro c; simp [clearRules]
  | cons d rest ih =>
    intro c
    by_cases hd : d.ID = storeID
    · obtain ⟨h1, h2, h3⟩ := Del_spec [storeID] c
      rcases hdel : c.Del [storeID] with ⟨e, c1⟩
      rw [hdel] at h1 h2 h3
      simp only at h1 h2 h3
      subst h1
      obtain ⟨i1, i2, i3⟩ := ih c1
      simp only [clearRules, hd, ne_eq, not_true_eq_false, if_false, hdel]
      refine ⟨i1, ?_, ?_⟩
      · intro k
        rw [i2 k, h2 k]
        by_cases hk : k = storeID <;> simp [hk, hd]
      · intro k
        rw [i3 k, h3 k]
        by_cases hk : k = storeID <;> simp [hk, hd]
    · obtain ⟨i1, i2, i3⟩ := ih c
      simp only [clearRules, hd, ne_eq, not_false_eq_true, if_true]
      refine ⟨i1, ?_, ?_⟩
      · intro k; rw [i2 k]; simp [hd]
      · intro k; rw [i3 k]; simp [hd]

/-- The method `ClearByIDs` returns no error and removes the value and the
timer of the listed ids that are ids of configured rules, and nothing else. -/
theorem ClearByIDs_spec (cfg : Config) (ids : List String) : ∀ c : MemoryCache,
    (ClearByIDs cfg c ids).1 = none ∧
      (∀ k, (ClearByIDs cfg c ids).2.data k =
        if k ∈ ids ∧ configured cfg k = true then none else c.data k) ∧
      ∀ k, (ClearByIDs cfg c ids).2.timers k =
        if k ∈ ids ∧ configured cfg k = true then none else c.timers k := by
  have key : ∀ (ids : List String) (c : MemoryCache),
      (clearIDs cfg c ids).1 = none ∧
        (∀ k, (clearIDs cfg c ids).2.data k =
          if k ∈ ids ∧ configured cfg k = true then none else c.data k) ∧
        ∀ k, (clearIDs cfg c ids).2.timers k =
          if k ∈ ids ∧ configured cfg k = true then none else c.timers k := by
    intro ids
    induction ids with
    | nil => intro c; simp [clearIDs]
    | cons id rest ih =>
      intro c
      obtain ⟨h1, h2, h3⟩ := clearRules_spec id cfg.ByIp.Data c
      rcases hcl : clearRules c id cfg.ByIp.Data with ⟨e, c1⟩
      rw [hcl] at h1 h2 h3
      simp only at h1 h2 h3
      subst h1
      obtain ⟨i1, i2, i3⟩ := ih c1
      simp only [clearIDs, hcl]
      refine ⟨i1, ?_, ?_⟩
      · intro k
        rw [i2 k, h2 k]
        by_cases hk : k = id
        · subst hk
          by_cases hc : configured cfg k = true
          · have hc2 := hc
            unfold configured at hc2
            simp [hc, hc2]
          · have hc2 := hc
            unfold configured at hc2
            simp [hc, hc2]
        · simp [hk]
      · intro k
        rw [i3 k, h3 k]
        by_cases hk : k = id
        · subst hk
          by_cases hc : configured cfg k = true
          · have hc2 := hc
            unfold configured at hc2
            simp [hc, hc2]
          · have hc2 := hc
            unfold configured at hc2
            simp [hc, hc2]
        · simp [hk]
  intro c
  unfold ClearByIDs
  by_cases h0 : ids.length = 0
  · have : ids = [] := List.length_eq_zero.mp h0
    subst this
    simp
  · simp only [h0, if_false]
    exact key ids c

/-! # The claims -/

/-- C1 (as stated, refuted): a rule with limit 0. The claim wants the first
request, which is the (L+1)-th, answered 429; the request resolves to the rule
and is accepted, because the counter is absent when the verdict is read. -/
theorem RateLimit_zero_limit_accepts_first :
    (IdsByIP refLib zeroLimitCfg exampleReq.Proto exampleReq.Method exampleReq.Path
        (firstField exampleReq.XForwardedFor)).head? = some "R1" ∧
      (serveAll refLib zeroLimitCfg NewMemoryCache [exampleReq]).1.map Response.Code =
        [none] := by
  decide

/-- C1 (amended): for a configuration with pairwise distinct rule ids, a rule
with limit L, an empty store and a run of at most 2^63 non-reset requests that
all resolve to the rule as their first id, with no expiry or reset in between:
the first max(L, 1) requests are accepted (the middleware writes no status) and
every later one is answered 429. -/
theorem RateLimit_window (lib : Lib) (cfg : Config) (r : ByIpData) (reqs : List Request)
    (hnodup : (cfg.ByIp.Data.map ByIpData.ID).Nodup) (hr : r ∈ cfg.ByIp.Data)
    (hreqs : ∀ q ∈ reqs, ¬ (q.Path = "/reset" ∧ q.Method = "POST") ∧
      (IdsByIP lib cfg q.Proto q.Method q.Path (firstField q.XForwardedFor)).head? =
        some r.ID)
    (hlen : reqs.length ≤ 2 ^ 63) :
    (serveAll lib cfg NewMemoryCache reqs).1.map Response.Code =
      (List.range reqs.length).map
        (fun (i : Nat) => if (i : Int) < max r.Limit 1 then none else some 429) := by
  have h := serveAll_from lib cfg r hnodup hr reqs NewMemoryCache 0 hreqs rfl (by omega)
  rw [h, List.map_map]
  apply List.map_congr_left
  intro i _
  simp

/-- C1 (amended), at the end-to-end example: five `GET /run` requests from
`10.1.2.3` against limit 3. -/
theorem RateLimit_window_witness :
    (exampleCfg.ByIp.Data.map ByIpData.ID).Nodup ∧ exampleRule ∈ exampleCfg.ByIp.Data ∧
      (List.replicate 5 exampleReq).length ≤ 2 ^ 63 ∧
      (serveAll refLib exampleCfg NewMemoryCache (List.replicate 5 exampleReq)).1.map
          Response.Code =
        (List.range (List.replicate 5 exampleReq).length).map
          (fun (i : Nat) => if (i : Int) < max exampleRule.Limit 1 then none else some 429) :=
  ⟨by decide, by decide, by decide,
    RateLimit_window refLib exampleCfg exampleRule (List.replicate 5 exampleReq)
      (by decide) (by decide) (by decide) (by decide)⟩

/-- C2: `IsLimitedByIDs(ids)` is true exactly when some id of the list is the
id of a configured rule and the store returns for it a value that parses as a
base-10 64-bit integer at or above that rule's limit; the empty list gives
false. -/
theorem IsLimitedByIDs_iff (cfg : Config) (c : MemoryCache) (ids : List String) :
    (IsLimitedByIDs cfg c ids = true ↔
      ∃ id ∈ ids, ∃ d ∈ cfg.ByIp.Data, d.ID = id ∧
        ∃ v n, c.Get id = (some v, none) ∧ ParseInt v = some n ∧ d.Limit ≤ n) ∧
      IsLimitedByIDs cfg c [] = false := by
  refine ⟨?_, by simp [IsLimitedByIDs]⟩
  cases ids with
  | nil => simp [IsLimitedByIDs]
  | cons id rest =>
    simp only [IsLimitedByIDs, List.length_cons, Nat.succ_ne_zero, if_false,
      isLimitedIDs_iff, isLimitedRules_iff]

/-- C3 (code at the failing input): on the empty store `IncByIDs` with the id
of the configured rule `R1` sets the counter to 1 and returns 0, because the
fresh-key signal of `Inc` is taken for a failure. -/
theorem IncByIDs_fresh_key_returns_zero :
    (IncByIDs exampleCfg NewMemoryCache ["R1"]).1 = 0 ∧
      (IncByIDs exampleCfg NewMemoryCache ["R1"]).2.data "R1" = some "1" := by
  decide

/-- C4 (code at the failing input): on the empty store `IncByIDs` with the ids
of two configured rules creates both counters, the one of the first id and the
one of the later id, and returns 0. -/
theorem IncByIDs_fresh_key_touches_later_id :
    (IncByIDs twoRuleCfg NewMemoryCache ["a", "b"]).2.data "a" = some "1" ∧
      (IncByIDs twoRuleCfg NewMemoryCache ["a", "b"]).2.data "b" = some "1" ∧
      NewMemoryCache.data "b" = none ∧
      (IncByIDs twoRuleCfg NewMemoryCache ["a", "b"]).1 = 0 := by
  decide

/-- C5 (code at the failing input): `Inc` with ttl 15 on a key with no entry
stores "1" and returns 1 with `ValueNotFoundByKey`, but registers no timer;
the timer of 15 seconds is registered by the next `Inc` on the key. -/
theorem Inc_fresh_key_arms_no_timer :
    (NewMemoryCache.Inc "inc_key_not_exists" (some 15)).1 =
        (1, some Error.ValueNotFoundByKey) ∧
      (NewMemoryCache.Inc "inc_key_not_exists" (some 15)).2.data "inc_key_not_exists" =
        some "1" ∧
      (NewMemoryCache.Inc "inc_key_not_exists" (some 15)).2.timers "inc_key_not_exists" =
        none ∧
      ((NewMemoryCache.Inc "inc_key_not_exists" (some 15)).2.Inc "inc_key_not_exists"
        (some 15)).2.timers "inc_key_not_exists" = some 15000000000 := by
  decide

/-- C6 (as stated, refuted): the stored decimal form of the integer
`-2^63 - 1`, which is below `2^63 - 1`, makes `Inc` fail with the not-integer
error instead of returning `-2^63`; and the last of `2^63` successive `Inc`
calls on an absent key returns `-2^63`, not `2^63`. -/
theorem Inc_outside_int64 :
    FormatInt (-9223372036854775809) = "-9223372036854775809" ∧
      ((NewMemoryCache.Set "k" "-9223372036854775809" none).2.Inc "k" none).1 =
        (0, some (Error.ValueByKeyIsNotInteger "k")) ∧
      (incAll "k" NewMemoryCache (List.replicate 9223372036854775807 none ++ [none])).1.getLast? =
        some (-9223372036854775808, none) := by
  exact ⟨by decide, by decide,
    incAll_wraps "k" (List.replicate 9223372036854775807 none) NewMemoryCache rfl
      (List.length_replicate _ _)⟩

/-- C6 (amended): for a key whose stored value is the decimal form of an
integer n with -2^63 ≤ n < 2^63 - 1, `Inc` stores the decimal form of n + 1 and
returns (n + 1, no error), leaving the value and timer of every other key
unchanged; and N < 2^63 successive `Inc` calls on a key with no entry return
1, 2, ..., N in order (the first with the fresh-key signal), leave N stored and
leave the other values unchanged. -/
theorem Inc_counts (c : MemoryCache) (key : String) (ttl : Option Nat) (n : Int)
    (hlo : -2 ^ 63 ≤ n) (hhi : n < 2 ^ 63 - 1) (hc : c.data key = some (FormatInt n))
    (c0 : MemoryCache) (ttls : List (Option Nat)) (h0 : c0.data key = none)
    (hN : ttls.length < 2 ^ 63) :
    ((c.Inc key ttl).1 = (n + 1, none) ∧
      (c.Inc key ttl).2.data key = some (FormatInt (n + 1)) ∧
      ∀ k, k ≠ key → (c.Inc key ttl).2.data k = c.data k ∧
        (c.Inc key ttl).2.timers k = c.timers k) ∧
    ((incAll key c0 ttls).1 = (List.range ttls.length).map (fun (i : Nat) =>
        ((i : Int) + 1, if i = 0 then some Error.ValueNotFoundByKey else none)) ∧
      (0 < ttls.length →
        (incAll key c0 ttls).2.data key = some (FormatInt (ttls.length : Int))) ∧
      ∀ k, k ≠ key → (incAll key c0 ttls).2.data k = c0.data k) :=
  ⟨Inc_integer c key ttl n hlo hhi hc, incAll_fresh key ttls c0 h0 hN⟩

/-- C6 (amended), at a store holding "41" under `k` and at three calls on the
absent key `k` of the empty store. -/
theorem Inc_counts_witness :
    (-2 ^ 63 ≤ (41 : Int) ∧ (41 : Int) < 2 ^ 63 - 1 ∧
      (NewMemoryCache.Set "k" "41" (some 15)).2.data "k" = some (FormatInt 41) ∧
      NewMemoryCache.data "k" = none ∧ [some 15, some 15, none].length < 2 ^ 63) ∧
    (((NewMemoryCache.Set "k" "41" (some 15)).2.Inc "k" (some 15)).1 = (41 + 1, none) ∧
      ((NewMemoryCache.Set "k" "41" (some 15)).2.Inc "k" (some 15)).2.data "k" =
        some (FormatInt (41 + 1)) ∧
      ∀ k, k ≠ "k" →
        ((NewMemoryCache.Set "k" "41" (some 15)).2.Inc "k" (some 15)).2.data k =
          (NewMemoryCache.Set "k" "41" (some 15)).2.data k ∧
        ((NewMemoryCache.Set "k" "41" (some 15)).2.Inc "k" (some 15)).2.timers k =
          (NewMemoryCache.Set "k" "41" (some 15)).2.timers k) ∧
    ((incAll "k" NewMemoryCache [some 15, some 15, none]).1 =
        (List.range [some 15, some 15, none].length).map (fun (i : Nat) =>
          ((i : Int) + 1, if i = 0 then some Error.ValueNotFoundByKey else none)) ∧
      (0 < [some 15, some 15, none].length →
        (incAll "k" NewMemoryCache [some 15, some 15, none]).2.data "k" =
          some (FormatInt ([some 15, some 15, none].length : Int))) ∧
      ∀ k, k ≠ "k" →
        (incAll "k" NewMemoryCache [some 15, some 15, none]).2.data k = NewMemoryCache.data k) :=
  ⟨⟨by decide, by decide, by decide, by decide, by decide⟩,
    Inc_counts (NewMemoryCache.Set "k" "41" (some 15)).2 "k" (some 15) 41 (by decide)
      (by decide) (by decide) NewMemoryCache [some 15, some 15, none] (by decide) (by decide)⟩

/-- C7: a rule whose mask is a valid CIDR contributes no id for a source IP
that fails to parse or lies outside the network, whatever the protocol, method
and URL (the all-wildcard query included): the result is the one obtained
without the rule; and when the rule ids are pairwise distinct, the rule's id is
not in the result and the verdict of `IsLimitedByIDs` on the result does not
depend on the counter stored under that rule's id. -/
theorem IdsByIP_outside_mask (lib : Lib) (cfg : Config) (pre post : List ByIpData)
    (r : ByIpData) (ipNet : IPNet) (protocol method url strIP : String)
    (hnil : ∀ n, lib.Contains n none = false)
    (hdata : cfg.ByIp.Data = pre ++ r :: post)
    (hmask : r.Mask ≠ "") (hcidr : lib.ParseCIDR r.Mask = some ipNet)
    (hout : lib.ParseIP strIP = none ∨ lib.Contains ipNet (lib.ParseIP strIP) = false) :
    IdsByIP lib cfg protocol method url strIP =
        IdsByIP lib (cfg.withData (pre ++ post)) protocol method url strIP ∧
      ((cfg.ByIp.Data.map ByIpData.ID).Nodup →
        r.ID ∉ IdsByIP lib cfg protocol method url strIP ∧
        ∀ c c2 : MemoryCache, (∀ k, k ≠ r.ID → c.data k = c2.data k) →
          IsLimitedByIDs cfg c (IdsByIP lib cfg protocol method url strIP) =
            IsLimitedByIDs cfg c2 (IdsByIP lib cfg protocol method url strIP)) := by
  have hc : lib.Contains ipNet (lib.ParseIP strIP) = false := by
    rcases hout with h | h
    · rw [h]; exact hnil ipNet
    · exact h
  have hskip : maskSkips lib r.Mask (lib.ParseIP strIP) = true := by
    simp [maskSkips, hmask, hcidr, hc]
  refine ⟨?_, ?_⟩
  · simp [IdsByIP_eq, Config.withData, hdata, ruleIDs, hskip]
  · intro hnodup
    have hnot : r.ID ∉ IdsByIP lib cfg protocol method url strIP := by
      rw [IdsByIP_eq]
      intro hmem
      obtain ⟨d, hd, hx⟩ := List.mem_flatMap.mp hmem
      obtain ⟨hid, hns⟩ := mem_ruleIDs _ _ _ _ _ d r.ID hx
      have hdr : d = r :=
        List.inj_on_of_nodup_map hnodup hd (by rw [hdata]; simp) hid.symm
      rw [hdr, hskip] at hns
      cases hns
    refine ⟨hnot, ?_⟩
    intro c c2 hagree
    apply IsLimitedByIDs_congr
    intro id hid
    apply hagree
    rintro rfl
    exact hnot hid

/-- C7, at the rule for `123.45.67.0/24` and the source IP `123.45.68.1`: the
query resolves to the rule without mask only. -/
theorem IdsByIP_outside_mask_witness :
    ((∀ n, refLib.Contains n none = false) ∧
      maskCfg.ByIp.Data = [] ++ rule67 :: [rule68, rule0] ∧
      rule67.Mask ≠ "" ∧
      refLib.ParseCIDR rule67.Mask =
        some { IP := [123, 45, 67, 0], Mask := [255, 255, 255, 0] } ∧
      (refLib.ParseIP "123.45.68.1" = none ∨
        refLib.Contains { IP := [123, 45, 67, 0], Mask := [255, 255, 255, 0] }
          (refLib.ParseIP "123.45.68.1") = false)) ∧
    (IdsByIP refLib maskCfg "HTTP/1.1" "GET" "/run" "123.45.68.1" =
        IdsByIP refLib (maskCfg.withData ([] ++ [rule68, rule0])) "HTTP/1.1" "GET" "/run"
          "123.45.68.1" ∧
      ((maskCfg.ByIp.Data.map ByIpData.ID).Nodup →
        rule67.ID ∉ IdsByIP refLib maskCfg "HTTP/1.1" "GET" "/run" "123.45.68.1" ∧
        ∀ c c2 : MemoryCache, (∀ k, k ≠ rule67.ID → c.data k = c2.data k) →
          IsLimitedByIDs maskCfg c (IdsByIP refLib maskCfg "HTTP/1.1" "GET" "/run" "123.45.68.1") =
            IsLimitedByIDs maskCfg c2
              (IdsByIP refLib maskCfg "HTTP/1.1" "GET" "/run" "123.45.68.1"))) ∧
    (maskCfg.ByIp.Data.map ByIpData.ID).Nodup ∧
    IdsByIP refLib maskCfg "HTTP/1.1" "GET" "/run" "123.45.68.1" = ["R0"] :=
  ⟨⟨fun _ => rfl, by decide, by decide, by decide, Or.inr (by decide)⟩,
    IdsByIP_outside_mask refLib maskCfg [] [rule68, rule0] rule67
      { IP := [123, 45, 67, 0], Mask := [255, 255, 255, 0] } "HTTP/1.1" "GET" "/run"
      "123.45.68.1" (fun _ => rfl) (by decide) (by decide) (by decide) (Or.inr (by decide)),
    by decide, by decide⟩

/-- What one pass of the rule loop appends for a rule on the all-wildcard
query, when the rule's mask is empty or a valid CIDR. -/
theorem ruleIDs_wildcard (lib : Lib) (strIP : String) (d : ByIpData)
    (hvalid : d.Mask ≠ "" → (lib.ParseCIDR d.Mask).isSome = true) :
    ruleIDs lib "*" "*" "*" (lib.ParseIP strIP) d =
      if maskContains lib d.Mask strIP = true then [d.ID] else [] := by
  by_cases hm : d.Mask = ""
  · simp [ruleIDs, maskSkips, maskContains, hm]
  · obtain ⟨n, hn⟩ := Option.isSome_iff_exists.mp (hvalid hm)
    cases hc : lib.Contains n (lib.ParseIP strIP) <;>
      simp [ruleIDs, maskSkips, maskContains, hm, hn, hc]

/-- C8: when every non-empty mask is a valid CIDR, the all-wildcard query
`IdsByIP("*", "*", "*", ip)` returns, in declaration order and once per rule,
exactly the ids of the rules whose mask contains ip (an empty mask applying
regardless of IP), whatever the handlers of the rules are. -/
theorem IdsByIP_wildcard (lib : Lib) (cfg : Config) (strIP : String)
    (hstar : lib.ToLower "*" = "*")
    (hvalid : ∀ d ∈ cfg.ByIp.Data, d.Mask ≠ "" → (lib.ParseCIDR d.Mask).isSome = true) :
    IdsByIP lib cfg "*" "*" "*" strIP =
      (cfg.ByIp.Data.filter (fun d => maskContains lib d.Mask strIP)).map ByIpData.ID := by
  rw [IdsByIP_eq, hstar]
  generalize cfg.ByIp.Data = data at hvalid
  induction data with
  | nil => rfl
  | cons d rest ih =>
    have hrest := ih (fun x hx => hvalid x (by simp [hx]))
    rw [List.flatMap_cons, hrest, ruleIDs_wildcard lib strIP d (hvalid d (by simp))]
    by_cases hc : maskContains lib d.Mask strIP = true
    · simp [List.filter_cons, hc]
    · simp [List.filter_cons, hc]

/-- C8, at the three-rule configuration and the source IP `123.45.68.1`:
the rule without handlers and the rule without mask are returned. -/
theorem IdsByIP_wildcard_witness :
    (refLib.ToLower "*" = "*" ∧
      ∀ d ∈ maskCfg.ByIp.Data, d.Mask ≠ "" → (refLib.ParseCIDR d.Mask).isSome = true) ∧
    IdsByIP refLib maskCfg "*" "*" "*" "123.45.68.1" =
      (maskCfg.ByIp.Data.filter (fun d => maskContains refLib d.Mask "123.45.68.1")).map
        ByIpData.ID ∧
    (maskCfg.ByIp.Data.filter (fun d => maskContains refLib d.Mask "123.45.68.1")).map
        ByIpData.ID = ["R68", "R0"] :=
  ⟨⟨by decide, by decide⟩,
    IdsByIP_wildcard refLib maskCfg "123.45.68.1" (by decide) (by decide), by decide⟩

/-- The condition of the handler loop, on the lower-cased query, is the spec's
handler match. -/
theorem handlerCond_iff (lib : Lib) (protocol method url : String) (lh : LimitHandler)
    (hurl : lib.ToLower url = "*" ↔ url = "*") :
    handlerCond lib (lib.ToLower protocol) (lib.ToLower method) (lib.ToLower url) lh = true ↔
      handlerMatches lib protocol method url lh := by
  simp only [handlerCond, handlerMatches, Bool.and_eq_true, Bool.or_eq_true, decide_eq_true_eq,
    Bool.not_eq_true', hurl, or_assoc, and_assoc]

/-- C9: for a query that is not all-wildcard and a rule (of a configuration
with pairwise distinct ids) that passes the mask check and whose handlers all
have a non-empty URL and well-formed patterns, the rule's id is in the result
of `IdsByIP` exactly when one of its handlers satisfies the URL, method and
protocol conditions. -/
theorem IdsByIP_handler_match (lib : Lib) (cfg : Config) (r : ByIpData)
    (protocol method url strIP : String)
    (hp : lib.ToLower protocol = "*" ↔ protocol = "*")
    (hm : lib.ToLower method = "*" ↔ method = "*")
    (hu : lib.ToLower url = "*" ↔ url = "*")
    (hnodup : (cfg.ByIp.Data.map ByIpData.ID).Nodup) (hr : r ∈ cfg.ByIp.Data)
    (hwild : ¬ (protocol = "*" ∧ method = "*" ∧ url = "*"))
    (hmask : maskSkips lib r.Mask (lib.ParseIP strIP) = false)
    (hurl : ∀ h ∈ r.Handlers, h.Url ≠ "")
    (hpat : ∀ h ∈ r.Handlers, (h.Regexp = true → (lib.Compile h.Url).isSome = true) ∧
      (h.ProtocolRegexp = true → (lib.Compile h.Protocol).isSome = true)) :
    r.ID ∈ IdsByIP lib cfg protocol method url strIP ↔
      ∃ h ∈ r.Handlers, handlerMatches lib protocol method url h := by
  have hwild2 : ¬ (lib.ToLower protocol = "*" ∧ lib.ToLower method = "*" ∧
      lib.ToLower url = "*") := by
    rw [hp, hm, hu]; exact hwild
  have happ : ∀ h ∈ r.Handlers,
      (handlerAppends lib (lib.ToLower protocol) (lib.ToLower method) (lib.ToLower url) h = true ↔
        handlerMatches lib protocol method url h) := by
    intro h hh
    rw [← handlerCond_iff lib protocol method url h hu]
    have h1 : (h.Regexp && (lib.Compile h.Url).isNone) = false := by
      cases hre : h.Regexp with
      | false => rfl
      | true =>
        have := (hpat h hh).1 hre
        cases hcomp : lib.Compile h.Url with
        | none => rw [hcomp] at this; cases this
        | some m => rfl
    have h2 : (h.ProtocolRegexp && (lib.Compile h.Protocol).isNone) = false := by
      cases hre : h.ProtocolRegexp with
      | false => rfl
      | true =>
        have := (hpat h hh).2 hre
        cases hcomp : lib.Compile h.Protocol with
        | none => rw [hcomp] at this; cases this
        | some m => rfl
    simp [handlerAppends, h1, h2, hurl h hh]
  have hown : r.ID ∈ ruleIDs lib (lib.ToLower protocol) (lib.ToLower method) (lib.ToLower url)
      (lib.ParseIP strIP) r ↔ ∃ h ∈ r.Handlers, handlerMatches lib protocol method url h := by
    simp only [ruleIDs, hmask, hwild2, if_false, Bool.false_eq_true, List.mem_map,
      List.mem_filter, and_true]
    constructor
    · rintro ⟨h, ⟨hh, ha⟩⟩
      exact ⟨h, hh, (happ h hh).mp ha⟩
    · rintro ⟨h, hh, hmatch⟩
      exact ⟨h, hh, (happ h hh).mpr hmatch⟩
  rw [IdsByIP_eq, List.mem_flatMap, ← hown]
  constructor
  · rintro ⟨d, hd, hx⟩
    have hid := (mem_ruleIDs _ _ _ _ _ d r.ID hx).1
    have hdr : d = r := List.inj_on_of_nodup_map hnodup hd hr hid.symm
    rw [← hdr]
    rw [hdr] at hx ⊢
    exact hx
  · intro hx
    exact ⟨r, hr, hx⟩

/-- C9, at the rule without mask of the three-rule configuration: `GET /run`
over `HTTP/2.0` matches its second handler, whose protocol is the pattern
`.*`, and `GET /upload` matches none. -/
theorem IdsByIP_handler_match_witness :
    ((refLib.ToLower "HTTP/2.0" = "*" ↔ "HTTP/2.0" = "*") ∧
      (refLib.ToLower "GET" = "*" ↔ "GET" = "*") ∧
      (refLib.ToLower "/RUN" = "*" ↔ "/RUN" = "*") ∧
      (maskCfg.ByIp.Data.map ByIpData.ID).Nodup ∧ rule0 ∈ maskCfg.ByIp.Data ∧
      ¬ ("HTTP/2.0" = "*" ∧ "GET" = "*" ∧ "/RUN" = "*") ∧
      maskSkips refLib rule0.Mask (refLib.ParseIP "10.1.2.3") = false ∧
      (∀ h ∈ rule0.Handlers, h.Url ≠ "") ∧
      (∀ h ∈ rule0.Handlers, (h.Regexp = true → (refLib.Compile h.Url).isSome = true) ∧
        (h.ProtocolRegexp = true → (refLib.Compile h.Protocol).isSome = true))) ∧
    (rule0.ID ∈ IdsByIP refLib maskCfg "HTTP/2.0" "GET" "/RUN" "10.1.2.3" ↔
      ∃ h ∈ rule0.Handlers, handlerMatches refLib "HTTP/2.0" "GET" "/RUN" h) ∧
    IdsByIP refLib maskCfg "HTTP/2.0" "GET" "/RUN" "10.1.2.3" = ["R0"] ∧
    IdsByIP refLib maskCfg "HTTP/2.0" "GET" "/upload" "10.1.2.3" = [] :=
  ⟨⟨by decide, by decide, by decide, by decide, by decide, by decide, by decide, by decide,
      by decide⟩,
    IdsByIP_handler_match refLib maskCfg rule0 "HTTP/2.0" "GET" "/RUN" "10.1.2.3" (by decide)
      (by decide) (by decide) (by decide) (by decide) (by decide) (by decide) (by decide)
      (by decide),
    by decide, by decide⟩

/-- C10 (as stated, refuted): the mask `10.0.0.0/33` is not a CIDR, yet the
rule is not skipped: its id is returned for `GET /run` from `192.168.1.1`. -/
theorem IdsByIP_malformed_mask_not_skipped :
    refLib.ParseCIDR "10.0.0.0/33" = none ∧
      IdsByIP refLib badMaskCfg "HTTP/1.1" "GET" "/run" "192.168.1.1" = ["R1"] := by
  decide

/-- C10 (amended): a rule whose mask is not a well-formed CIDR is not skipped
but matched as a rule with an empty mask: for every source IP, protocol,
method and URL, `IdsByIP` returns what it returns when that rule's mask is
replaced by the empty mask, the other rules being matched as before. -/
theorem IdsByIP_malformed_mask (lib : Lib) (cfg : Config) (pre post : List ByIpData)
    (r : ByIpData) (protocol method url strIP : String)
    (hdata : cfg.ByIp.Data = pre ++ r :: post)
    (hbad : lib.ParseCIDR r.Mask = none) :
    IdsByIP lib cfg protocol method url strIP =
      IdsByIP lib (cfg.withData (pre ++ { r with Mask := "" } :: post)) protocol method url
        strIP := by
  have hone : ∀ p m u ip, ruleIDs lib p m u ip r = ruleIDs lib p m u ip { r with Mask := "" } := by
    intro p m u ip
    simp [ruleIDs, maskSkips, hbad]
  simp [IdsByIP_eq, Config.withData, hdata, hone]

/-- C10 (amended), at the rule with the mask `10.0.0.0/33`. -/
theorem IdsByIP_malformed_mask_witness :
    (badMaskCfg.ByIp.Data = [] ++ { exampleRule with Mask := "10.0.0.0/33" } :: [] ∧
      refLib.ParseCIDR ({ exampleRule with Mask := "10.0.0.0/33" } : ByIpData).Mask = none) ∧
    IdsByIP refLib badMaskCfg "HTTP/1.1" "GET" "/run" "192.168.1.1" =
      IdsByIP refLib
        (badMaskCfg.withData
          ([] ++ { ({ exampleRule with Mask := "10.0.0.0/33" } : ByIpData) with Mask := "" } :: []))
        "HTTP/1.1" "GET" "/run" "192.168.1.1" :=
  ⟨⟨by decide, by decide⟩,
    IdsByIP_malformed_mask refLib badMaskCfg [] [] { exampleRule with Mask := "10.0.0.0/33" }
      "HTTP/1.1" "GET" "/run" "192.168.1.1" (by decide) (by decide)⟩

/-- What a rule appends does not change when a handler that the loop body
rejects is removed. -/
theorem ruleIDs_remove_handler (lib : Lib) (protocol method url : String) (ip : Option IP)
    (r : ByIpData) (hpre hpost : List LimitHandler) (h : LimitHandler)
    (hh : r.Handlers = hpre ++ h :: hpost)
    (hrej : handlerAppends lib protocol method url h = false) :
    ruleIDs lib protocol method url ip r =
      ruleIDs lib protocol method url ip { r with Handlers := hpre ++ hpost } := by
  simp [ruleIDs, hh, List.filter_append, List.filter_cons, hrej]

/-- C11: a handler whose regex-flagged URL pattern or regex-flagged protocol
pattern does not compile is skipped, and only that handler: for every query
(the queries that are not all-wildcard included) the result of `IdsByIP` is the
result obtained from the configuration with that handler removed; `IdsByIP`
returns its list, no error is raised. -/
theorem IdsByIP_malformed_pattern (lib : Lib) (cfg : Config) (pre post : List ByIpData)
    (r : ByIpData) (hpre hpost : List LimitHandler) (h : LimitHandler)
    (protocol method url strIP : String)
    (hdata : cfg.ByIp.Data = pre ++ r :: post)
    (hh : r.Handlers = hpre ++ h :: hpost)
    (hbad : (h.Regexp = true ∧ (lib.Compile h.Url).isNone = true) ∨
      (h.ProtocolRegexp = true ∧ (lib.Compile h.Protocol).isNone = true)) :
    IdsByIP lib cfg protocol method url strIP =
      IdsByIP lib (cfg.withData (pre ++ { r with Handlers := hpre ++ hpost } :: post))
        protocol method url strIP := by
  have hrej : ∀ p m u, handlerAppends lib p m u h = false := by
    intro p m u
    rcases hbad with ⟨h1, h2⟩ | ⟨h1, h2⟩
    · simp [handlerAppends, h1, h2]
    · simp [handlerAppends, h1, h2]
  simp only [IdsByIP_eq, Config.withData, hdata, List.flatMap_append, List.flatMap_cons]
  rw [ruleIDs_remove_handler lib _ _ _ _ r hpre hpost h hh (hrej _ _ _)]

/-- C11, at the rule whose first handler has the pattern `(`: `GET /run` is
matched by the second handler. -/
theorem IdsByIP_malformed_pattern_witness :
    (badPatternCfg.ByIp.Data = [] ++ badPatternRule :: [exampleRule] ∧
      badPatternRule.Handlers =
        [] ++ badPatternHandler :: [{ Method := "GET", Url := "/run" }] ∧
      ((badPatternHandler.Regexp = true ∧
          (refLib.Compile badPatternHandler.Url).isNone = true) ∨
        (badPatternHandler.ProtocolRegexp = true ∧
          (refLib.Compile badPatternHandler.Protocol).isNone = true))) ∧
    IdsByIP refLib badPatternCfg "HTTP/1.1" "GET" "/run" "10.1.2.3" =
      IdsByIP refLib
        (badPatternCfg.withData ([] ++
          { badPatternRule with Handlers := [] ++ [{ Method := "GET", Url := "/run" }] } ::
            [exampleRule]))
        "HTTP/1.1" "GET" "/run" "10.1.2.3" ∧
    IdsByIP refLib badPatternCfg "HTTP/1.1" "GET" "/run" "10.1.2.3" = ["RP", "R1"] :=
  ⟨⟨by decide, by decide, Or.inl (by decide)⟩,
    IdsByIP_malformed_pattern refLib badPatternCfg [] [exampleRule] badPatternRule [] 
      [{ Method := "GET", Url := "/run" }] badPatternHandler "HTTP/1.1" "GET" "/run" "10.1.2.3"
      (by decide) (by decide) (Or.inl (by decide)),
    by decide⟩

/-- C12 (as stated, refuted): the handler `GET` with an empty URL accepts the
method and the protocol of the query `GET *` over `HTTP/1.1`, the rule has no
mask, and yet the rule's id is not returned. -/
theorem IdsByIP_empty_url_skipped :
    emptyUrlRule.Handlers = [{ Method := "GET", Url := "" }] ∧
      maskSkips refLib emptyUrlRule.Mask (refLib.ParseIP "10.1.2.3") = false ∧
      IdsByIP refLib emptyUrlCfg "HTTP/1.1" "GET" "*" "10.1.2.3" = [] := by
  decide

/-- C12 (amended): for a rule that passes the mask check and a handler of it
with well-formed patterns and a non-empty URL field, whatever that URL is, a
query with URL "*" whose method and protocol satisfy the handler's method and
protocol conditions matches the handler, so the rule's id is returned. -/
theorem IdsByIP_wildcard_url (lib : Lib) (cfg : Config) (r : ByIpData) (h : LimitHandler)
    (protocol method strIP : String)
    (hstar : lib.ToLower "*" = "*")
    (hr : r ∈ cfg.ByIp.Data) (hh : h ∈ r.Handlers)
    (hmask : maskSkips lib r.Mask (lib.ParseIP strIP) = false)
    (hpat : (h.Regexp = true → (lib.Compile h.Url).isSome = true) ∧
      (h.ProtocolRegexp = true → (lib.Compile h.Protocol).isSome = true))
    (hurl : h.Url ≠ "")
    (hmethod : h.Method = "" ∨ lib.ToLower h.Method = lib.ToLower method)
    (hproto : h.Protocol = "" ∨
      (h.ProtocolRegexp = false ∧ lib.ToLower h.Protocol = lib.ToLower protocol) ∨
      (h.ProtocolRegexp = true ∧ lib.MatchString h.Protocol (lib.ToLower protocol) = true)) :
    r.ID ∈ IdsByIP lib cfg protocol method "*" strIP := by
  rw [IdsByIP_eq, List.mem_flatMap]
  refine ⟨r, hr, ?_⟩
  rw [hstar]
  unfold ruleIDs
  rw [hmask, if_neg (by simp)]
  by_cases hw : lib.ToLower protocol = "*" ∧ lib.ToLower method = "*" ∧ "*" = "*"
  · rw [if_pos hw]; simp
  · rw [if_neg hw]
    have h1 : (h.Regexp && (lib.Compile h.Url).isNone) = false := by
      cases hre : h.Regexp with
      | false => rfl
      | true =>
        have := hpat.1 hre
        cases hcomp : lib.Compile h.Url with
        | none => rw [hcomp] at this; cases this
        | some m => rfl
    have h2 : (h.ProtocolRegexp && (lib.Compile h.Protocol).isNone) = false := by
      cases hre : h.ProtocolRegexp with
      | false => rfl
      | true =>
        have := hpat.2 hre
        cases hcomp : lib.Compile h.Protocol with
        | none => rw [hcomp] at this; cases this
        | some m => rfl
    have hc : handlerCond lib (lib.ToLower protocol) (lib.ToLower method) "*" h = true := by
      simp only [handlerCond, Bool.and_eq_true, Bool.or_eq_true, decide_eq_true_eq,
        Bool.not_eq_true', true_or, true_and]
      exact ⟨hmethod, by tauto⟩
    have ha : handlerAppends lib (lib.ToLower protocol) (lib.ToLower method) "*" h = true := by
      simp [handlerAppends, h1, h2, hurl, hc]
    simp only [List.mem_map, List.mem_filter]
    exact ⟨h, ⟨hh, ha⟩, trivial⟩

/-- C12 (amended), at the rule without mask of the three-rule configuration
and its handler `POST /upload`, on the query `POST *`. -/
theorem IdsByIP_wildcard_url_witness :
    (refLib.ToLower "*" = "*" ∧ rule0 ∈ maskCfg.ByIp.Data ∧
      ({ Method := "POST", Url := "/upload" } : LimitHandler) ∈ rule0.Handlers ∧
      maskSkips refLib rule0.Mask (refLib.ParseIP "10.1.2.3") = false ∧
      ({ Method := "POST", Url := "/upload" } : LimitHandler).Url ≠ "") ∧
    rule0.ID ∈ IdsByIP refLib maskCfg "HTTP/1.1" "POST" "*" "10.1.2.3" :=
  ⟨⟨by decide, by decide, by decide, by decide, by decide⟩,
    IdsByIP_wildcard_url refLib maskCfg rule0 { Method := "POST", Url := "/upload" }
      "HTTP/1.1" "POST" "10.1.2.3" (by decide) (by decide) (by decide) (by decide)
      ⟨by decide, by decide⟩ (by decide) (Or.inr (by decide)) (Or.inl (by decide))⟩

/-- What a rule appends is its own id, repeated. -/
theorem ruleIDs_eq_replicate (lib : Lib) (protocol method url : String) (ip : Option IP)
    (d : ByIpData) :
    ruleIDs lib protocol method url ip d =
      List.replicate (ruleIDs lib protocol method url ip d).length d.ID := by
  rw [List.eq_replicate_iff]
  exact ⟨rfl, fun x hx => (mem_ruleIDs lib protocol method url ip d x hx).1⟩

/-- A rule appends its id at least once exactly when it matches. -/
theorem ruleIDs_length_pos (lib : Lib) (protocol method url : String) (ip : Option IP)
    (d : ByIpData) :
    0 < (ruleIDs lib protocol method url ip d).length ↔
      ruleMatches lib protocol method url ip d = true := by
  unfold ruleIDs ruleMatches
  by_cases h1 : maskSkips lib d.Mask ip = true
  · simp [h1]
  · by_cases h2 : protocol = "*" ∧ method = "*" ∧ url = "*"
    · simp [h1, h2]
    · have hm : maskSkips lib d.Mask ip = false := by simpa using h1
      rw [if_neg h1, if_neg h2, List.length_map, hm, decide_eq_false h2]
      simp only [Bool.not_false, Bool.false_or, Bool.true_and, List.any_eq_true]
      rw [List.length_pos_iff_exists_mem]
      simp only [List.mem_filter]

/-- C13: all matching rules are collected, in declaration order: the result of
`IdsByIP` lists, rule after rule in the order of declaration, the id of each
rule as many times as the rule loop appends it, which is at least once exactly
for the rules that match; so when the rules `r1` and `r2`, declared in this
order, both match, both ids are in the result, the id of `r1` before the id of
`r2`. -/
theorem IdsByIP_declaration_order (lib : Lib) (cfg : Config) (l1 l2 l3 : List ByIpData)
    (r1 r2 : ByIpData) (protocol method url strIP : String)
    (hdata : cfg.ByIp.Data = l1 ++ r1 :: (l2 ++ r2 :: l3))
    (h1 : ruleMatches lib (lib.ToLower protocol) (lib.ToLower method) (lib.ToLower url)
      (lib.ParseIP strIP) r1 = true)
    (h2 : ruleMatches lib (lib.ToLower protocol) (lib.ToLower method) (lib.ToLower url)
      (lib.ParseIP strIP) r2 = true) :
    (∃ count : ByIpData → Nat,
      (∀ d, 0 < count d ↔ ruleMatches lib (lib.ToLower protocol) (lib.ToLower method)
        (lib.ToLower url) (lib.ParseIP strIP) d = true) ∧
      IdsByIP lib cfg protocol method url strIP =
        cfg.ByIp.Data.flatMap (fun d => List.replicate (count d) d.ID)) ∧
    ∃ n1 n2 : Nat,
      IdsByIP lib cfg protocol method url strIP =
        IdsByIP lib (cfg.withData l1) protocol method url strIP ++
          (List.replicate (n1 + 1) r1.ID ++
            (IdsByIP lib (cfg.withData l2) protocol method url strIP ++
              (List.replicate (n2 + 1) r2.ID ++
                IdsByIP lib (cfg.withData l3) protocol method url strIP))) := by
  refine ⟨⟨fun d => (ruleIDs lib (lib.ToLower protocol) (lib.ToLower method) (lib.ToLower url)
      (lib.ParseIP strIP) d).length, fun d => ruleIDs_length_pos _ _ _ _ _ d, ?_⟩, ?_⟩
  · rw [IdsByIP_eq]
    congr 1
    funext d
    exact ruleIDs_eq_replicate _ _ _ _ _ d
  · have p1 := (ruleIDs_length_pos _ _ _ _ _ r1).mpr h1
    have p2 := (ruleIDs_length_pos _ _ _ _ _ r2).mpr h2
    obtain ⟨n1, hn1⟩ := Nat.exists_eq_succ_of_ne_zero (Nat.pos_iff_ne_zero.mp p1)
    obtain ⟨n2, hn2⟩ := Nat.exists_eq_succ_of_ne_zero (Nat.pos_iff_ne_zero.mp p2)
    refine ⟨n1, n2, ?_⟩
    have e1 := ruleIDs_eq_replicate lib (lib.ToLower protocol) (lib.ToLower method)
      (lib.ToLower url) (lib.ParseIP strIP) r1
    have e2 := ruleIDs_eq_replicate lib (lib.ToLower protocol) (lib.ToLower method)
      (lib.ToLower url) (lib.ParseIP strIP) r2
    rw [hn1] at e1
    rw [hn2] at e2
    simp only [IdsByIP_eq, Config.withData, hdata, List.flatMap_append, List.flatMap_cons]
    rw [e1, e2]

/-- C13, at the test configuration's shape: for `GET /run` over `HTTP/1.1` from
`10.1.2.3` the rule with the malformed first handler and the example rule both
match, and both ids are returned in declaration order. -/
theorem IdsByIP_declaration_order_witness :
    (badPatternCfg.ByIp.Data = [] ++ badPatternRule :: ([] ++ exampleRule :: []) ∧
      ruleMatches refLib (refLib.ToLower "HTTP/1.1") (refLib.ToLower "GET")
        (refLib.ToLower "/run") (refLib.ParseIP "10.1.2.3") badPatternRule = true ∧
      ruleMatches refLib (refLib.ToLower "HTTP/1.1") (refLib.ToLower "GET")
        (refLib.ToLower "/run") (refLib.ParseIP "10.1.2.3") exampleRule = true) ∧
    ((∃ count : ByIpData → Nat,
      (∀ d, 0 < count d ↔ ruleMatches refLib (refLib.ToLower "HTTP/1.1") (refLib.ToLower "GET")
        (refLib.ToLower "/run") (refLib.ParseIP "10.1.2.3") d = true) ∧
      IdsByIP refLib badPatternCfg "HTTP/1.1" "GET" "/run" "10.1.2.3" =
        badPatternCfg.ByIp.Data.flatMap (fun d => List.replicate (count d) d.ID)) ∧
    ∃ n1 n2 : Nat,
      IdsByIP refLib badPatternCfg "HTTP/1.1" "GET" "/run" "10.1.2.3" =
        IdsByIP refLib (badPatternCfg.withData []) "HTTP/1.1" "GET" "/run" "10.1.2.3" ++
          (List.replicate (n1 + 1) badPatternRule.ID ++
            (IdsByIP refLib (badPatternCfg.withData []) "HTTP/1.1" "GET" "/run" "10.1.2.3" ++
              (List.replicate (n2 + 1) exampleRule.ID ++
                IdsByIP refLib (badPatternCfg.withData []) "HTTP/1.1" "GET" "/run"
                  "10.1.2.3")))) ∧
    IdsByIP refLib badPatternCfg "HTTP/1.1" "GET" "/run" "10.1.2.3" = ["RP", "R1"] :=
  ⟨⟨by decide, by decide, by decide⟩,
    IdsByIP_declaration_order refLib badPatternCfg [] [] [] badPatternRule exampleRule
      "HTTP/1.1" "GET" "/run" "10.1.2.3" (by decide) (by decide) (by decide),
    by decide⟩

/-- The body of the handler loop gives the same answer on two handlers that
differ only in the case of the method, of a literal URL and of a literal
protocol. -/
theorem handlerAppends_case (lib : Lib) (protocol method url : String) (h h2 : LimitHandler)
    (hempty : ∀ s, lib.ToLower s = lib.ToLower "" → s = "")
    (hre : h2.Regexp = h.Regexp) (hpre : h2.ProtocolRegexp = h.ProtocolRegexp)
    (hmethod : lib.ToLower h2.Method = lib.ToLower h.Method)
    (hurl : if h.Regexp = true then h2.Url = h.Url else lib.ToLower h2.Url = lib.ToLower h.Url)
    (hproto : if h.ProtocolRegexp = true then h2.Protocol = h.Protocol
      else lib.ToLower h2.Protocol = lib.ToLower h.Protocol) :
    handlerAppends lib protocol method url h2 = handlerAppends lib protocol method url h := by
  have key : ∀ a b : String, lib.ToLower a = lib.ToLower b → (a = "" ↔ b = "") := by
    intro a b hab
    constructor
    · intro ha; subst ha; exact hempty b hab.symm
    · intro hb; subst hb; exact hempty a hab
  have em := key _ _ hmethod
  have eu : h2.Url = "" ↔ h.Url = "" := by
    by_cases hr : h.Regexp = true
    · rw [if_pos hr] at hurl; rw [hurl]
    · rw [if_neg hr] at hurl; exact key _ _ hurl
  have ep : h2.Protocol = "" ↔ h.Protocol = "" := by
    by_cases hr : h.ProtocolRegexp = true
    · rw [if_pos hr] at hproto; rw [hproto]
    · rw [if_neg hr] at hproto; exact key _ _ hproto
  unfold handlerAppends handlerCond
  rw [hre, hpre, hmethod]
  cases hr : h.Regexp <;> cases hp : h.ProtocolRegexp <;>
    simp only [hr, hp, if_true, if_false, Bool.false_eq_true] at hurl hproto <;>
    simp [hurl, hproto, em, eu, ep]

/-- C14: literal matching is case-insensitive: the result of `IdsByIP` is the
same when the query protocol, method and URL are replaced by strings with the
same lower-case form and, at the same time, the method, the literal URL and the
literal protocol of a handler are replaced by strings with the same lower-case
form (patterns being left as they are). -/
theorem IdsByIP_case_insensitive (lib : Lib) (cfg : Config) (pre post : List ByIpData)
    (r : ByIpData) (hpre hpost : List LimitHandler) (h h2 : LimitHandler)
    (protocol method url protocol2 method2 url2 strIP : String)
    (hempty : ∀ s, lib.ToLower s = lib.ToLower "" → s = "")
    (hdata : cfg.ByIp.Data = pre ++ r :: post)
    (hh : r.Handlers = hpre ++ h :: hpost)
    (hre : h2.Regexp = h.Regexp) (hpre2 : h2.ProtocolRegexp = h.ProtocolRegexp)
    (hmethod : lib.ToLower h2.Method = lib.ToLower h.Method)
    (hurl : if h.Regexp = true then h2.Url = h.Url else lib.ToLower h2.Url = lib.ToLower h.Url)
    (hproto : if h.ProtocolRegexp = true then h2.Protocol = h.Protocol
      else lib.ToLower h2.Protocol = lib.ToLower h.Protocol)
    (hqp : lib.ToLower protocol2 = lib.ToLower protocol)
    (hqm : lib.ToLower method2 = lib.ToLower method)
    (hqu : lib.ToLower url2 = lib.ToLower url) :
    IdsByIP lib cfg protocol method url strIP =
      IdsByIP lib (cfg.withData (pre ++ { r with Handlers := hpre ++ h2 :: hpost } :: post))
        protocol2 method2 url2 strIP := by
  have ha := handlerAppends_case lib (lib.ToLower protocol) (lib.ToLower method)
    (lib.ToLower url) h h2 hempty hre hpre2 hmethod hurl hproto
  simp only [IdsByIP_eq, Config.withData, hdata, hqp, hqm, hqu, List.flatMap_append,
    List.flatMap_cons]
  congr 2
  by_cases hb : handlerAppends lib (lib.ToLower protocol) (lib.ToLower method)
      (lib.ToLower url) h = true
  · simp [ruleIDs, hh, List.filter_append, List.filter_cons, ha, hb]
  · simp [ruleIDs, hh, List.filter_append, List.filter_cons, ha, hb]

/-- The reference `ToLower` gives the empty string on the empty string only. -/
theorem refLib_toLower_empty (s : String) (h : refLib.ToLower s = refLib.ToLower "") :
    s = "" := by
  have hd := congrArg String.data h
  simp only [refLib, List.map_nil, List.map_eq_nil_iff] at hd
  exact String.ext hd

/-- C14, at the example rule: the handler `GET /run` written `get /RUN` and the
query `GET /run` over `HTTP/1.1` written `get /Run` over `http/1.1`. -/
theorem IdsByIP_case_insensitive_witness :
    (exampleCfg.ByIp.Data = [] ++ exampleRule :: [] ∧
      exampleRule.Handlers = [] ++ { Method := "GET", Url := "/run" } :: [] ∧
      refLib.ToLower "get" = refLib.ToLower "GET" ∧
      refLib.ToLower "/RUN" = refLib.ToLower "/run" ∧
      refLib.ToLower "/Run" = refLib.ToLower "/run" ∧
      refLib.ToLower "http/1.1" = refLib.ToLower "HTTP/1.1") ∧
    IdsByIP refLib exampleCfg "HTTP/1.1" "GET" "/run" "10.1.2.3" =
      IdsByIP refLib
        (exampleCfg.withData ([] ++
          { exampleRule with Handlers := [] ++ { Method := "get", Url := "/RUN" } :: [] } :: []))
        "http/1.1" "get" "/Run" "10.1.2.3" ∧
    IdsByIP refLib exampleCfg "HTTP/1.1" "GET" "/run" "10.1.2.3" = ["R1"] :=
  ⟨⟨by decide, by decide, by decide, by decide, by decide, by decide⟩,
    IdsByIP_case_insensitive refLib exampleCfg [] [] exampleRule [] []
      { Method := "GET", Url := "/run" } { Method := "get", Url := "/RUN" }
      "HTTP/1.1" "GET" "/run" "http/1.1" "get" "/Run" "10.1.2.3"
      refLib_toLower_empty (by decide) (by decide) (by decide) (by decide) (by decide)
      (by decide) (by decide) (by decide) (by decide) (by decide),
    by decide⟩

/-- C15 (as stated, refuted): the key `key1` holds "abc" and has an armed timer
of 3 seconds; `Inc` and `Decr` on it fail with the not-integer error and the
value is still "abc".  The empty key, counted up twice, holds "2" and has an
armed timer; `Set` on it fails with the empty-key error and the value is still
"2". -/
theorem armed_key_write_fails :
    (NewMemoryCache.Set "key1" "abc" (some 3)).2.timers "key1" = some 3000000000 ∧
      ((NewMemoryCache.Set "key1" "abc" (some 3)).2.Inc "key1" (some 600)).1 =
        (0, some (Error.ValueByKeyIsNotInteger "key1")) ∧
      ((NewMemoryCache.Set "key1" "abc" (some 3)).2.Inc "key1" (some 600)).2.data "key1" =
        some "abc" ∧
      ((NewMemoryCache.Set "key1" "abc" (some 3)).2.Decr "key1" (some 600)).1 =
        (0, some (Error.ValueByKeyIsNotInteger "key1")) ∧
      ((NewMemoryCache.Set "key1" "abc" (some 3)).2.Decr "key1" (some 600)).2.data "key1" =
        some "abc" ∧
      ((NewMemoryCache.Inc "" (some 3)).2.Inc "" (some 3)).2.timers "" = some 3000000000 ∧
      (((NewMemoryCache.Inc "" (some 3)).2.Inc "" (some 3)).2.Set "" "value2" (some 600)).1 =
        some Error.KeyIsEmpty ∧
      (((NewMemoryCache.Inc "" (some 3)).2.Inc "" (some 3)).2.Set "" "value2"
        (some 600)).2.data "" = some "2" := by
  decide

/-- C15 (amended): arm-once TTL: on a key that has an armed timer, `Set`, `Inc`
and `Decr` with any ttl leave the timers exactly as they were (the timer of the
key is neither replaced nor extended), and the write that succeeds updates the
value: `Set` on a non-empty key returns no error and stores the new value;
`Inc` and `Decr` on a value that is the integer n return n + 1 and n - 1
(wrapped to `int64`) with no error and store the decimal form of that count;
on a key with no value they store "1" and "-1" and return 1 and -1 with the
not-found signal.  `Inc` and `Decr` on a value that is not an integer fail with
the not-integer error and write nothing.  In each case the values are those the
same call writes on the store without the timer. -/
theorem write_keeps_armed_timer (c : MemoryCache) (key value : String) (ttl : Option Nat)
    (d : Int) (h : c.timers key = some d) :
    ((c.Set key value ttl).2.timers = c.timers ∧ (c.Inc key ttl).2.timers = c.timers ∧
      (c.Decr key ttl).2.timers = c.timers) ∧
    (key ≠ "" →
      (c.Set key value ttl).1 = none ∧ (c.Set key value ttl).2.data key = some value) ∧
    (∀ (v : String) (n : Int), c.data key = some v → ParseInt v = some n →
      ((c.Inc key ttl).1 = (wrapInt64 (n + 1), none) ∧
        (c.Inc key ttl).2.data key = some (FormatInt (wrapInt64 (n + 1)))) ∧
      ((c.Decr key ttl).1 = (wrapInt64 (n - 1), none) ∧
        (c.Decr key ttl).2.data key = some (FormatInt (wrapInt64 (n - 1))))) ∧
    (c.data key = none →
      ((c.Inc key ttl).1 = (1, some Error.ValueNotFoundByKey) ∧
        (c.Inc key ttl).2.data key = some "1") ∧
      ((c.Decr key ttl).1 = (-1, some Error.ValueNotFoundByKey) ∧
        (c.Decr key ttl).2.data key = some "-1")) ∧
    (∀ v : String, c.data key = some v → ParseInt v = none →
      ((c.Inc key ttl).1 = (0, some (Error.ValueByKeyIsNotInteger key)) ∧
        (c.Inc key ttl).2.data = c.data) ∧
      ((c.Decr key ttl).1 = (0, some (Error.ValueByKeyIsNotInteger key)) ∧
        (c.Decr key ttl).2.data = c.data)) ∧
    ((c.Set key value ttl).2.data =
        (MemoryCache.Set { c with timers := c.timers.erase key } key value ttl).2.data ∧
      (c.Inc key ttl).2.data =
        (MemoryCache.Inc { c with timers := c.timers.erase key } key ttl).2.data ∧
      (c.Decr key ttl).2.data =
        (MemoryCache.Decr { c with timers := c.timers.erase key } key ttl).2.data) := by
  have harm : ∀ c1 : MemoryCache, c1.timers = c.timers → c1.initCancel key ttl = c1 :=
    fun c1 h1 => initCancel_armed c1 key ttl d (by rw [h1]; exact h)
  refine ⟨⟨?_, ?_, ?_⟩, ?_, ?_, ?_, ?_, ⟨?_, ?_, ?_⟩⟩
  · by_cases hk : key.length = 0
    · simp [MemoryCache.Set, hk]
    · simp [MemoryCache.Set, hk, harm]
  · cases hd : c.data key with
    | none => simp [Inc_absent c key ttl hd]
    | some v =>
      cases hp : ParseInt v with
      | none => simp [(Inc_Decr_not_integer c key ttl v hd hp).1]
      | some n => simp [Inc_present c key ttl v n hd hp, harm]
  · cases hd : c.data key with
    | none => simp [Decr_absent c key ttl hd]
    | some v =>
      cases hp : ParseInt v with
      | none => simp [(Inc_Decr_not_integer c key ttl v hd hp).2]
      | some n => simp [Decr_present c key ttl v n hd hp, harm]
  · intro hne
    rw [Set_nonempty c key value ttl hne]
    exact ⟨rfl, by simp [(initCancel_frame _ _ _).1, GoMap.insert_self]⟩
  · intro v n hd hp
    rw [Inc_present c key ttl v n hd hp, Decr_present c key ttl v n hd hp]
    exact ⟨⟨rfl, by simp [(initCancel_frame _ _ _).1, GoMap.insert_self]⟩,
      ⟨rfl, by simp [(initCancel_frame _ _ _).1, GoMap.insert_self]⟩⟩
  · intro hd
    rw [Inc_absent c key ttl hd, Decr_absent c key ttl hd]
    exact ⟨⟨rfl, GoMap.insert_self _ _ _⟩, ⟨rfl, GoMap.insert_self _ _ _⟩⟩
  · intro v hd hp
    rw [(Inc_Decr_not_integer c key ttl v hd hp).1, (Inc_Decr_not_integer c key ttl v hd hp).2]
    exact ⟨⟨rfl, rfl⟩, ⟨rfl, rfl⟩⟩
  · by_cases hk : key.length = 0
    · simp [MemoryCache.Set, hk]
    · simp [MemoryCache.Set, hk, harm, (initCancel_frame _ _ _).1]
  · cases hd : c.data key with
    | none => simp [MemoryCache.Inc, hd]
    | some v =>
      cases hp : ParseInt v with
      | none => simp [MemoryCache.Inc, MemoryCache.sliceByteToInt64, hd, hp]
      | some n =>
        simp [MemoryCache.Inc, MemoryCache.sliceByteToInt64, hd, hp, (initCancel_frame _ _ _).1]
  · cases hd : c.data key with
    | none => simp [MemoryCache.Decr, hd]
    | some v =>
      cases hp : ParseInt v with
      | none => simp [MemoryCache.Decr, MemoryCache.sliceByteToInt64, hd, hp]
      | some n =>
        simp [MemoryCache.Decr, MemoryCache.sliceByteToInt64, hd, hp,
          (initCancel_frame _ _ _).1]

/-- C15 (amended), at the key `key1` armed by `Set` with ttl 3 and holding "7":
written with ttl 600, the timer of 3 seconds stays; `Set` stores the new value,
`Inc` returns 8 and stores "8", `Decr` returns 6 and stores "6". -/
theorem write_keeps_armed_timer_witness :
    (NewMemoryCache.Set "key1" "7" (some 3)).2.timers "key1" = some 3000000000 ∧
    (((NewMemoryCache.Set "key1" "7" (some 3)).2.Set "key1" "value2" (some 600)).2.timers =
        (NewMemoryCache.Set "key1" "7" (some 3)).2.timers ∧
      ((NewMemoryCache.Set "key1" "7" (some 3)).2.Inc "key1" (some 600)).2.timers =
        (NewMemoryCache.Set "key1" "7" (some 3)).2.timers ∧
      ((NewMemoryCache.Set "key1" "7" (some 3)).2.Decr "key1" (some 600)).2.timers =
        (NewMemoryCache.Set "key1" "7" (some 3)).2.timers) ∧
    (((NewMemoryCache.Set "key1" "7" (some 3)).2.Set "key1" "value2" (some 600)).1 = none ∧
      ((NewMemoryCache.Set "key1" "7" (some 3)).2.Set "key1" "value2" (some 600)).2.data
        "key1" = some "value2") ∧
    ((((NewMemoryCache.Set "key1" "7" (some 3)).2.Inc "key1" (some 600)).1 =
        (wrapInt64 (7 + 1), none) ∧
      ((NewMemoryCache.Set "key1" "7" (some 3)).2.Inc "key1" (some 600)).2.data "key1" =
        some (FormatInt (wrapInt64 (7 + 1)))) ∧
      (((NewMemoryCache.Set "key1" "7" (some 3)).2.Decr "key1" (some 600)).1 =
        (wrapInt64 (7 - 1), none) ∧
      ((NewMemoryCache.Set "key1" "7" (some 3)).2.Decr "key1" (some 600)).2.data "key1" =
        some (FormatInt (wrapInt64 (7 - 1))))) ∧
    (((NewMemoryCache.Set "key1" "7" (some 3)).2.Inc "key1" (some 600)).1 = (8, none) ∧
      ((NewMemoryCache.Set "key1" "7" (some 3)).2.Inc "key1" (some 600)).2.data "key1" =
        some "8" ∧
      ((NewMemoryCache.Set "key1" "7" (some 3)).2.Decr "key1" (some 600)).1 = (6, none) ∧
      ((NewMemoryCache.Set "key1" "7" (some 3)).2.Decr "key1" (some 600)).2.data "key1" =
        some "6") :=
  ⟨by decide,
    (write_keeps_armed_timer (NewMemoryCache.Set "key1" "7" (some 3)).2 "key1" "value2"
      (some 600) 3000000000 (by decide)).1,
    (write_keeps_armed_timer (NewMemoryCache.Set "key1" "7" (some 3)).2 "key1" "value2"
      (some 600) 3000000000 (by decide)).2.1 (by decide),
    (write_keeps_armed_timer (NewMemoryCache.Set "key1" "7" (some 3)).2 "key1" "value2"
      (some 600) 3000000000 (by decide)).2.2.1 "7" 7 (by decide) (by decide),
    by decide⟩

/-- C16: `Set` on a non-empty key returns no error and stores the value; after
it the key has an armed timer exactly when it had one before or the ttl is set
and greater than zero: a timer that was there is kept, a new one is created
with the given ttl when there was none and the ttl is positive, and none is
created (no expiry is scheduled) for a ttl that is unset or zero; the values and
timers of the other keys are not touched. -/
theorem Set_arms_once (c : MemoryCache) (key value : String) (ttl : Option Nat)
    (hkey : key ≠ "") :
    (c.Set key value ttl).1 = none ∧
      (c.Set key value ttl).2.data key = some value ∧
      (((c.Set key value ttl).2.timers key).isSome = true ↔
        (c.timers key).isSome = true ∨ ∃ t, ttl = some t ∧ 0 < t) ∧
      (∀ d, c.timers key = some d → (c.Set key value ttl).2.timers key = some d) ∧
      (∀ t, c.timers key = none → ttl = some t → 0 < t →
        (c.Set key value ttl).2.timers key = some (timerDuration t)) ∧
      (c.timers key = none → (ttl = none ∨ ttl = some 0) →
        (c.Set key value ttl).2.timers key = none) ∧
      ∀ k, k ≠ key → (c.Set key value ttl).2.data k = c.data k ∧
        (c.Set key value ttl).2.timers k = c.timers k := by
  rw [Set_nonempty c key value ttl hkey]
  have ht := initCancel_timer { c with data := c.data.insert key value } key ttl
  have hf := initCancel_frame { c with data := c.data.insert key value } key ttl
  simp only at ht
  refine ⟨rfl, ?_, ?_, ?_, ?_, ?_, ?_⟩
  · simp [hf.1, GoMap.insert_self]
  · simp only [ht]
    cases hc : c.timers key with
    | some d => simp
    | none =>
      cases ttl with
      | none => simp
      | some t => by_cases h0 : 0 < t <;> simp [h0]
  · intro d hd
    simp [ht, hd]
  · intro t hn hs h0
    subst hs
    simp [ht, hn, h0]
  · intro hn hz
    rcases hz with hz | hz <;> subst hz <;> simp [ht, hn]
  · intro k hk
    exact ⟨by simp [hf.1, GoMap.insert_other _ _ _ _ hk], hf.2 k hk⟩

/-- C16, at `Set("key1", "value1", 3)` on the empty store. -/
theorem Set_arms_once_witness :
    "key1" ≠ "" ∧
      (NewMemoryCache.Set "key1" "value1" (some 3)).1 = none ∧
      (NewMemoryCache.Set "key1" "value1" (some 3)).2.data "key1" = some "value1" ∧
      (NewMemoryCache.Set "key1" "value1" (some 3)).2.timers "key1" = some 3000000000 ∧
      (NewMemoryCache.Set "key1" "value1" (some 0)).2.timers "key1" = none ∧
      (NewMemoryCache.Set "key1" "value1" none).2.timers "key1" = none :=
  ⟨by decide, (Set_arms_once NewMemoryCache "key1" "value1" (some 3) (by decide)).1,
    by decide, by decide, by decide, by decide⟩

/-- The store after the middleware has served a request that is not a reset and
resolves to the rule first: the store after one `Inc` on the rule's id with the
rule's block time. -/
theorem RateLimit_store (lib : Lib) (cfg : Config) (c : MemoryCache) (q : Request)
    (r : ByIpData)
    (hnodup : (cfg.ByIp.Data.map ByIpData.ID).Nodup) (hr : r ∈ cfg.ByIp.Data)
    (hreset : ¬ (q.Path = "/reset" ∧ q.Method = "POST"))
    (hid : (IdsByIP lib cfg q.Proto q.Method q.Path (firstField q.XForwardedFor)).head? =
      some r.ID) :
    (RateLimit lib cfg c q).2 = (c.Inc r.ID (some (toUint64 r.BlockTime))).2 := by
  rw [RateLimit_first_id lib cfg c q r.ID hreset hid, IncByIDs_single cfg c r hnodup hr]
  rcases hinc : c.Inc r.ID (some (toUint64 r.BlockTime)) with ⟨⟨x, e⟩, c1⟩
  cases e <;> rfl

/-- The end of a request's context leaves the values as they are. -/
theorem contextDone_data (before after : MemoryCache) :
    (contextDone before after).data = after.data := rfl

/-- The end of a request's context: a key that had no timer when the request
came in has none afterwards; a timer registered before stays as the request
left it. -/
theorem contextDone_timers (before after : MemoryCache) (k : String) :
    (before.timers k = none → (contextDone before after).timers k = none) ∧
      ((before.timers k).isSome = true →
        (contextDone before after).timers k = after.timers k) := by
  cases h : before.timers k <;> simp [contextDone, h]

/-- Requests whose contexts end when they have been served leave no timer
behind: a key without timer before the run has none after it, whatever the
requests are. -/
theorem serveAll_no_timer (lib : Lib) (cfg : Config) (k : String) :
    ∀ (reqs : List Request) (c : MemoryCache),
      (∀ q ∈ reqs, q.ContextEnds = true) → c.timers k = none →
      (serveAll lib cfg c reqs).2.timers k = none := by
  intro reqs
  induction reqs with
  | nil => intro c _ h; exact h
  | cons q rest ih =>
    intro c hreqs h
    simp only [serveAll]
    apply ih _ (fun x hx => hreqs x (by simp [hx]))
    rw [if_pos (hreqs q (by simp))]
    exact (contextDone_timers c _ k).1 h

/-- An armed timer of the rule's counter stays armed over a run of requests
that resolve to the rule first. -/
theorem serveAll_timer_kept (lib : Lib) (cfg : Config) (r : ByIpData) (d : Int)
    (hnodup : (cfg.ByIp.Data.map ByIpData.ID).Nodup) (hr : r ∈ cfg.ByIp.Data) :
    ∀ (reqs : List Request) (c : MemoryCache),
      (∀ q ∈ reqs, ¬ (q.Path = "/reset" ∧ q.Method = "POST") ∧
        (IdsByIP lib cfg q.Proto q.Method q.Path (firstField q.XForwardedFor)).head? =
          some r.ID) →
      c.timers r.ID = some d → (serveAll lib cfg c reqs).2.timers r.ID = some d := by
  intro reqs
  induction reqs with
  | nil => intro c _ h; exact h
  | cons q rest ih =>
    intro c hreqs h
    obtain ⟨hreset, hid⟩ := hreqs q (by simp)
    simp only [serveAll]
    apply ih _ (fun x hx => hreqs x (by simp [hx]))
    have hkept : (RateLimit lib cfg c q).2.timers r.ID = some d := by
      rw [RateLimit_store lib cfg c q r hnodup hr hreset hid]
      exact Inc_timer_kept c r.ID _ r.ID d h
    by_cases hc : q.ContextEnds = true
    · rw [if_pos hc, (contextDone_timers c _ r.ID).2 (by rw [h]; rfl)]
      exact hkept
    · rw [if_neg hc]
      exact hkept

/-- The duration of the timer for a block time of at most 9223372036 seconds:
no overflow of the nanosecond count. -/
theorem timerDuration_blockTime (t : Int) (h0 : 0 < t) (h1 : t ≤ 9223372036) :
    timerDuration (toUint64 t) = t * 1000000000 := by
  have ht : ((toUint64 t : Nat) : Int) = t := by
    unfold toUint64
    rw [Int.toNat_of_nonneg (by omega)]
    omega
  unfold timerDuration
  rw [ht, wrapInt64_of_range t (by omega) (by omega),
    wrapInt64_of_range (t * 1000000000) (by omega) (by omega)]

/-- The first two requests of a run on the empty store: the second one arms the
timer of the rule's counter with the rule's block time. -/
theorem serveAll_two_arms (lib : Lib) (cfg : Config) (r : ByIpData) (q1 q2 : Request)
    (hnodup : (cfg.ByIp.Data.map ByIpData.ID).Nodup) (hr : r ∈ cfg.ByIp.Data)
    (hT : 0 < r.BlockTime) (hT2 : r.BlockTime < 2 ^ 63)
    (hq1 : ¬ (q1.Path = "/reset" ∧ q1.Method = "POST") ∧
      (IdsByIP lib cfg q1.Proto q1.Method q1.Path (firstField q1.XForwardedFor)).head? =
        some r.ID)
    (hq2 : ¬ (q2.Path = "/reset" ∧ q2.Method = "POST") ∧
      (IdsByIP lib cfg q2.Proto q2.Method q2.Path (firstField q2.XForwardedFor)).head? =
        some r.ID) :
    (RateLimit lib cfg (RateLimit lib cfg NewMemoryCache q1).2 q2).2.timers r.ID =
      some (timerDuration (toUint64 r.BlockTime)) := by
  rw [RateLimit_store lib cfg _ q2 r hnodup hr hq2.1 hq2.2,
    RateLimit_store lib cfg _ q1 r hnodup hr hq1.1 hq1.2,
    Inc_absent NewMemoryCache r.ID _ rfl]
  have hp : ParseInt "1" = some 1 := by decide
  rw [Inc_present _ r.ID _ "1" 1 (GoMap.insert_self _ _ _) hp]
  have hpos : 0 < toUint64 r.BlockTime := by
    unfold toUint64
    omega
  simp only [initCancel_timer]
  have hnone : NewMemoryCache.timers r.ID = none := rfl
  simp [hnone, hpos]

/-- The window with contexts that outlive it, as in the middleware tests: for a
rule with limit L ≥ 1 and block time 0 < T ≤ 9223372036 of a configuration with
pairwise distinct ids, after a burst of L + 1 requests that resolve to the rule
first and whose contexts do not end, served on the empty store, the rule's
counter has an armed timer of T seconds; when that timer has fired and is
unregistered, the counter entry and the timer are gone, and the next such
request is accepted (no 429) and restarts the counter at "1". -/
theorem serveAll_window_reset_live_context (lib : Lib) (cfg : Config) (r : ByIpData)
    (reqs : List Request) (q : Request)
    (hnodup : (cfg.ByIp.Data.map ByIpData.ID).Nodup) (hr : r ∈ cfg.ByIp.Data)
    (hL : 1 ≤ r.Limit) (hT : 0 < r.BlockTime) (hT2 : r.BlockTime ≤ 9223372036)
    (hlen : (reqs.length : Int) = r.Limit + 1)
    (hreqs : ∀ x ∈ reqs, ¬ (x.Path = "/reset" ∧ x.Method = "POST") ∧
      (IdsByIP lib cfg x.Proto x.Method x.Path (firstField x.XForwardedFor)).head? =
        some r.ID)
    (hlive : ∀ x ∈ reqs, x.ContextEnds = false)
    (hq : ¬ (q.Path = "/reset" ∧ q.Method = "POST") ∧
      (IdsByIP lib cfg q.Proto q.Method q.Path (firstField q.XForwardedFor)).head? =
        some r.ID) :
    (serveAll lib cfg NewMemoryCache reqs).2.timers r.ID = some (r.BlockTime * 1000000000) ∧
      (((serveAll lib cfg NewMemoryCache reqs).2.timerFired r.ID).timerUnregistered
        r.ID).data r.ID = none ∧
      (((serveAll lib cfg NewMemoryCache reqs).2.timerFired r.ID).timerUnregistered
        r.ID).timers r.ID = none ∧
      (RateLimit lib cfg (((serveAll lib cfg NewMemoryCache reqs).2.timerFired
        r.ID).timerUnregistered r.ID) q).1.Code = none ∧
      (RateLimit lib cfg (((serveAll lib cfg NewMemoryCache reqs).2.timerFired
        r.ID).timerUnregistered r.ID) q).2.data r.ID = some "1" := by
  have hfired : (((serveAll lib cfg NewMemoryCache reqs).2.timerFired r.ID).timerUnregistered
      r.ID).data r.ID = none := by
    simp [MemoryCache.timerFired, MemoryCache.timerUnregistered, GoMap.erase]
  refine ⟨?_, hfired,
    by simp [MemoryCache.timerFired, MemoryCache.timerUnregistered, GoMap.erase], ?_, ?_⟩
  · match reqs, hlen, hreqs, hlive with
    | [], hlen, _, _ => simp at hlen; omega
    | [_], hlen, _, _ => simp at hlen; omega
    | q1 :: q2 :: rest, _, hreqs, hlive =>
      simp only [serveAll, hlive q1 (by simp), hlive q2 (by simp), Bool.false_eq_true,
        if_false]
      rw [← timerDuration_blockTime r.BlockTime hT hT2]
      apply serveAll_timer_kept lib cfg r _ hnodup hr rest _
        (fun x hx => hreqs x (by simp [hx]))
      exact serveAll_two_arms lib cfg r q1 q2 hnodup hr hT (by omega) (hreqs q1 (by simp))
        (hreqs q2 (by simp))
  · have hstep := RateLimit_step lib cfg _ q r 0 hnodup hr hq.1 hq.2
      (by simpa using hfired) (by norm_num)
    rw [hstep.1]
    simp only [Nat.cast_zero]
    rw [if_pos (by omega)]
  · have hstep := RateLimit_step lib cfg _ q r 0 hnodup hr hq.1 hq.2
      (by simpa using hfired) (by norm_num)
    have := hstep.2 (by norm_num)
    rw [this]
    rfl

/-- C17 (code at the failing input): the end-to-end example served by
`net/http`, where the context of a request ends when the request has been
served.  The burst of four `GET /run` requests against limit 3 and block time
10 is answered 200, 200, 200, 429 and leaves the counter at "4" with no timer
registered: the timer that each request arms ends with the request.  No expiry
can fire, the counter stays at "4", and the fifth request is answered 429
however long the client waits.  With limit 0 the burst is one request, which
arms no timer at all.  The same burst with contexts that are never cancelled
leaves the timer of 10 seconds armed. -/
theorem RateLimit_served_burst_arms_no_expiry :
    exampleReq.ContextEnds = true ∧
      (serveAll refLib exampleCfg NewMemoryCache (List.replicate 4 exampleReq)).1.map
        Response.Code = [none, none, none, some 429] ∧
      (serveAll refLib exampleCfg NewMemoryCache (List.replicate 4 exampleReq)).2.timers
        "R1" = none ∧
      (serveAll refLib exampleCfg NewMemoryCache (List.replicate 4 exampleReq)).2.data
        "R1" = some "4" ∧
      (Running.step
        { store := (serveAll refLib exampleCfg NewMemoryCache
            (List.replicate 4 exampleReq)).2,
          expiring := fun _ => false }
        (Event.TimerFired "R1")).store.data "R1" = some "4" ∧
      (RateLimit refLib exampleCfg
        (serveAll refLib exampleCfg NewMemoryCache (List.replicate 4 exampleReq)).2
        exampleReq).1.Code = some 429 ∧
      (serveAll refLib zeroLimitCfg NewMemoryCache [exampleReq]).2.timers "R1" = none ∧
      (serveAll refLib exampleCfg NewMemoryCache (List.replicate 4 backgroundReq)).2.timers
        "R1" = some 10000000000 := by
  decide

/-- C18: `Get` right after a successful `Set` of a non-empty key returns the
value just stored and no error; `Get` on a key that has no entry (in any store
without it, in a new store, after `Del`, after `Clear`, after the expiry of the
key) returns `ValueNotFoundByKey` and no value. `Get` is a function of the
store: it returns nothing but the value and the error, the store is as it
was. -/
theorem Get_after_Set (c : MemoryCache) (key value : String) (ttl : Option Nat) (k2 : String)
    (hkey : key ≠ "") (habs : c.data k2 = none) :
    ((c.Set key value ttl).1 = none ∧ (c.Set key value ttl).2.Get key = (some value, none)) ∧
      c.Get k2 = (none, some Error.ValueNotFoundByKey) ∧
      (∀ (c2 : MemoryCache) (k : String),
        NewMemoryCache.Get k = (none, some Error.ValueNotFoundByKey) ∧
        (c2.Del [k]).2.Get k = (none, some Error.ValueNotFoundByKey) ∧
        c2.Clear.2.Get k = (none, some Error.ValueNotFoundByKey) ∧
        (c2.timerFired k).Get k = (none, some Error.ValueNotFoundByKey) ∧
        ((c2.timerFired k).timerUnregistered k).Get k =
          (none, some Error.ValueNotFoundByKey)) := by
  refine ⟨?_, ?_, ?_⟩
  · rw [Set_nonempty c key value ttl hkey]
    refine ⟨rfl, ?_⟩
    simp [MemoryCache.Get, (initCancel_frame _ _ _).1, GoMap.insert_self]
  · simp [MemoryCache.Get, habs]
  · intro c2 k
    refine ⟨rfl, ?_, rfl, ?_, ?_⟩
    · cases ht : c2.timers k <;>
        simp [MemoryCache.Del, MemoryCache.callCancel, MemoryCache.Get, GoMap.erase, ht]
    · simp [MemoryCache.timerFired, MemoryCache.Get, GoMap.erase]
    · simp [MemoryCache.timerFired, MemoryCache.timerUnregistered, MemoryCache.Get,
        GoMap.erase]

/-- C18, at `Set("key1", "value1", 3)` on the empty store and the key
`not_exists_key`. -/
theorem Get_after_Set_witness :
    ("key1" ≠ "" ∧ NewMemoryCache.data "not_exists_key" = none) ∧
      ((NewMemoryCache.Set "key1" "value1" (some 3)).1 = none ∧
        (NewMemoryCache.Set "key1" "value1" (some 3)).2.Get "key1" = (some "value1", none)) ∧
      NewMemoryCache.Get "not_exists_key" = (none, some Error.ValueNotFoundByKey) :=
  ⟨⟨by decide, by decide⟩,
    (Get_after_Set NewMemoryCache "key1" "value1" (some 3) "not_exists_key" (by decide)
      (by decide)).1,
    (Get_after_Set NewMemoryCache "key1" "value1" (some 3) "not_exists_key" (by decide)
      (by decide)).2.1⟩

/-- C19: `Set` with the zero-length key fails with the empty-key error for
every value and ttl and returns the store as it was: no entry and no timer is
created, none is touched. -/
theorem Set_empty_key (c : MemoryCache) (value : String) (ttl : Option Nat) :
    c.Set "" value ttl = (some Error.KeyIsEmpty, c) := by
  simp [MemoryCache.Set]

/-- C20 (as stated, refuted): the stored decimal form of the integer `2^63`,
which is above `-2^63`, makes `Decr` fail with the not-integer error and leave
the value as it is, instead of storing `2^63 - 1`. -/
theorem Decr_outside_int64 :
    FormatInt 9223372036854775808 = "9223372036854775808" ∧
      ((NewMemoryCache.Set "k" "9223372036854775808" none).2.Decr "k" none).1 =
        (0, some (Error.ValueByKeyIsNotInteger "k")) ∧
      ((NewMemoryCache.Set "k" "9223372036854775808" none).2.Decr "k" none).2.data "k" =
        some "9223372036854775808" := by
  decide

/-- C20 (amended): `Decr` mirrors `Inc`: on a key with no entry it stores "-1"
and returns (-1, `ValueNotFoundByKey`); on a key holding the decimal form of an
integer n with -2^63 < n < 2^63 it stores the decimal form of n - 1 and returns
(n - 1, no error); and on a key holding the decimal form of an integer m of the
`int64` range, `Inc` followed by `Decr` and `Decr` followed by `Inc` leave the
decimal form of m stored. -/
theorem Decr_counts (c0 c c2 : MemoryCache) (key : String) (ttl ttl2 : Option Nat) (n m : Int)
    (h0 : c0.data key = none)
    (hlo : -2 ^ 63 < n) (hhi : n < 2 ^ 63) (hc : c.data key = some (FormatInt n))
    (hmlo : -2 ^ 63 ≤ m) (hmhi : m < 2 ^ 63) (hc2 : c2.data key = some (FormatInt m)) :
    ((c0.Decr key ttl).1 = (-1, some Error.ValueNotFoundByKey) ∧
      (c0.Decr key ttl).2.data key = some "-1") ∧
    ((c.Decr key ttl).1 = (n - 1, none) ∧
      (c.Decr key ttl).2.data key = some (FormatInt (n - 1))) ∧
    (((c2.Inc key ttl).2.Decr key ttl2).2.data key = some (FormatInt m) ∧
      ((c2.Decr key ttl).2.Inc key ttl2).2.data key = some (FormatInt m)) := by
  refine ⟨?_, ?_, ?_, ?_⟩
  · rw [Decr_absent c0 key ttl h0]
    exact ⟨rfl, GoMap.insert_self _ _ _⟩
  · have hp := ParseInt_FormatInt n (by omega) hhi
    rw [Decr_present c key ttl _ n hc hp, wrapInt64_of_range (n - 1) (by omega) (by omega)]
    refine ⟨rfl, ?_⟩
    simp [(initCancel_frame _ _ _).1, GoMap.insert_self]
  · have hp := ParseInt_FormatInt m hmlo hmhi
    have hr := wrapInt64_range (m + 1)
    have hp1 := ParseInt_FormatInt (wrapInt64 (m + 1)) hr.1 hr.2
    have hd1 : (c2.Inc key ttl).2.data key = some (FormatInt (wrapInt64 (m + 1))) := by
      rw [Inc_present c2 key ttl _ m hc2 hp]
      simp [(initCancel_frame _ _ _).1, GoMap.insert_self]
    rw [Decr_present _ key ttl2 _ _ hd1 hp1]
    have hback : wrapInt64 (wrapInt64 (m + 1) - 1) = m := by
      unfold wrapInt64; omega
    simp [(initCancel_frame _ _ _).1, GoMap.insert_self, hback]
  · have hp := ParseInt_FormatInt m hmlo hmhi
    have hr := wrapInt64_range (m - 1)
    have hp1 := ParseInt_FormatInt (wrapInt64 (m - 1)) hr.1 hr.2
    have hd1 : (c2.Decr key ttl).2.data key = some (FormatInt (wrapInt64 (m - 1))) := by
      rw [Decr_present c2 key ttl _ m hc2 hp]
      simp [(initCancel_frame _ _ _).1, GoMap.insert_self]
    rw [Inc_present _ key ttl2 _ _ hd1 hp1]
    have hback : wrapInt64 (wrapInt64 (m - 1) + 1) = m := by
      unfold wrapInt64; omega
    simp [(initCancel_frame _ _ _).1, GoMap.insert_self, hback]

/-- C20 (amended), at the empty store, at a store holding "10" and at a store
holding the largest `int64`. -/
theorem Decr_counts_witness :
    (NewMemoryCache.data "decr_key" = none ∧ -2 ^ 63 < (10 : Int) ∧ (10 : Int) < 2 ^ 63 ∧
      (NewMemoryCache.Set "decr_key" "10" none).2.data "decr_key" = some (FormatInt 10) ∧
      -2 ^ 63 ≤ (9223372036854775807 : Int) ∧ (9223372036854775807 : Int) < 2 ^ 63 ∧
      (NewMemoryCache.Set "decr_key" "9223372036854775807" none).2.data "decr_key" =
        some (FormatInt 9223372036854775807)) ∧
    (((NewMemoryCache.Decr "decr_key" (some 15)).1 = (-1, some Error.ValueNotFoundByKey) ∧
      (NewMemoryCache.Decr "decr_key" (some 15)).2.data "decr_key" = some "-1") ∧
    (((NewMemoryCache.Set "decr_key" "10" none).2.Decr "decr_key" (some 15)).1 =
        (10 - 1, none) ∧
      ((NewMemoryCache.Set "decr_key" "10" none).2.Decr "decr_key" (some 15)).2.data "decr_key" =
        some (FormatInt (10 - 1))) ∧
    ((((NewMemoryCache.Set "decr_key" "9223372036854775807" none).2.Inc "decr_key"
        (some 15)).2.Decr "decr_key" (some 3)).2.data "decr_key" =
        some (FormatInt 9223372036854775807) ∧
      (((NewMemoryCache.Set "decr_key" "9223372036854775807" none).2.Decr "decr_key"
        (some 15)).2.Inc "decr_key" (some 3)).2.data "decr_key" =
        some (FormatInt 9223372036854775807))) :=
  ⟨⟨by decide, by decide, by decide, by decide, by decide, by decide, by decide⟩,
    Decr_counts NewMemoryCache (NewMemoryCache.Set "decr_key" "10" none).2
      (NewMemoryCache.Set "decr_key" "9223372036854775807" none).2 "decr_key" (some 15) (some 3)
      10 9223372036854775807 (by decide) (by decide) (by decide) (by decide) (by decide)
      (by decide) (by decide)⟩

/-- C21: on a key whose stored value does not parse as a base-10 64-bit
integer, `Inc` and `Decr` return the value 0 and the not-integer error (they
are total functions, nothing panics) and the store they return is the store
they were given: the value, every other entry and every timer are as before. -/
theorem Inc_Decr_fail_on_non_integer (c : MemoryCache) (key : String) (ttl : Option Nat)
    (v : String) (h : c.data key = some v) (hp : ParseInt v = none) :
    c.Inc key ttl = ((0, some (Error.ValueByKeyIsNotInteger key)), c) ∧
      c.Decr key ttl = ((0, some (Error.ValueByKeyIsNotInteger key)), c) :=
  Inc_Decr_not_integer c key ttl v h hp

/-- C21, at a store holding "blabla" under `key`. -/
theorem Inc_Decr_fail_on_non_integer_witness :
    ((NewMemoryCache.Set "key" "blabla" none).2.data "key" = some "blabla" ∧
      ParseInt "blabla" = none) ∧
    ((NewMemoryCache.Set "key" "blabla" none).2.Inc "key" (some 15) =
        ((0, some (Error.ValueByKeyIsNotInteger "key")),
          (NewMemoryCache.Set "key" "blabla" none).2) ∧
      (NewMemoryCache.Set "key" "blabla" none).2.Decr "key" (some 15) =
        ((0, some (Error.ValueByKeyIsNotInteger "key")),
          (NewMemoryCache.Set "key" "blabla" none).2)) :=
  ⟨⟨by decide, by decide⟩,
    Inc_Decr_fail_on_non_integer (NewMemoryCache.Set "key" "blabla" none).2 "key" (some 15)
      "blabla" (by decide) (by decide)⟩

/-- C22: `Del` returns no error; afterwards none of the listed keys has a value
or a timer, and the value and the timer of every key that is not listed are as
before; applying the same `Del` twice leaves the store that applying it once
leaves; and in a reachable store, taken when no expiry is under way, `Del` of
a key with no entry changes nothing. -/
theorem Del_removes (c : MemoryCache) (list : List String) :
    (c.Del list).1 = none ∧
      (∀ k, k ∈ list → (c.Del list).2.data k = none ∧ (c.Del list).2.timers k = none) ∧
      (∀ k, k ∉ list → (c.Del list).2.data k = c.data k ∧
        (c.Del list).2.timers k = c.timers k) ∧
      ((c.Del list).2.Del list).2 = (c.Del list).2 ∧
      (c.Reachable → ∀ k, c.data k = none → (c.Del [k]).2 = c) := by
  obtain ⟨h1, h2, h3⟩ := Del_spec list c
  refine ⟨h1, ?_, ?_, ?_, ?_⟩
  · intro k hk
    exact ⟨by rw [h2 k]; simp [hk], by rw [h3 k]; simp [hk]⟩
  · intro k hk
    exact ⟨by rw [h2 k]; simp [hk], by rw [h3 k]; simp [hk]⟩
  · obtain ⟨_, i2, i3⟩ := Del_spec list (c.Del list).2
    apply MemoryCache.ext_maps
    · intro k
      rw [i2 k, h2 k]
      by_cases hk : k ∈ list <;> simp [hk]
    · intro k
      rw [i3 k, h3 k]
      by_cases hk : k ∈ list <;> simp [hk]
  · intro hreach k habs
    have hinv := reachable_timersHaveValues c hreach k habs
    obtain ⟨_, i2, i3⟩ := Del_spec [k] c
    apply MemoryCache.ext_maps
    · intro x
      rw [i2 x]
      by_cases hx : x = k
      · simp [hx, habs]
      · simp [hx]
    · intro x
      rw [i3 x]
      by_cases hx : x = k
      · simp [hx, hinv]
      · simp [hx]

/-- C22, at a store holding `del` with a timer and `keep` without: after
`Del("del")` the entry and the timer of `del` are gone and `keep` is as
before. -/
theorem Del_removes_witness :
    ((NewMemoryCache.Set "del" "exists" (some 3)).2.Set "keep" "v" none).2.timers "del" =
        some 3000000000 ∧
      ((((NewMemoryCache.Set "del" "exists" (some 3)).2.Set "keep" "v" none).2.Del ["del"]).1 =
        none) ∧
      ((((NewMemoryCache.Set "del" "exists" (some 3)).2.Set "keep" "v" none).2.Del
        ["del"]).2.data "del" = none ∧
      (((NewMemoryCache.Set "del" "exists" (some 3)).2.Set "keep" "v" none).2.Del
        ["del"]).2.timers "del" = none) ∧
      (((NewMemoryCache.Set "del" "exists" (some 3)).2.Set "keep" "v" none).2.Del
        ["del"]).2.data "keep" = some "v" :=
  ⟨by decide,
    (Del_removes ((NewMemoryCache.Set "del" "exists" (some 3)).2.Set "keep" "v" none).2
      ["del"]).1,
    (Del_removes ((NewMemoryCache.Set "del" "exists" (some 3)).2.Set "keep" "v" none).2
      ["del"]).2.1 "del" (by decide),
    by decide⟩

/-- C23: `Clear` returns no error and leaves the store of `NewMemoryCache`, with
no values and no timers, so that afterwards `Get` fails with
`ValueNotFoundByKey` and `Has` is false for every key. -/
theorem Clear_resets (c : MemoryCache) :
    c.Clear = (none, NewMemoryCache) ∧
      ∀ k, c.Clear.2.data k = none ∧ c.Clear.2.timers k = none ∧
        c.Clear.2.Get k = (none, some Error.ValueNotFoundByKey) ∧ c.Clear.2.Has k = false :=
  ⟨rfl, fun _ => ⟨rfl, rfl, rfl, rfl⟩⟩

/-- C24: `ClearByIDs` over the in-memory store returns no error, removes the
counter entry and the timer of every listed id that is the id of a configured
rule, and leaves the entry and the timer of every other key as they were, the
listed ids that are not configured rules included; afterwards `IsLimitedByIDs`
on the same list is false. -/
theorem ClearByIDs_clears_configured (cfg : Config) (c : MemoryCache) (ids : List String) :
    (ClearByIDs cfg c ids).1 = none ∧
      (∀ k, k ∈ ids → configured cfg k = true →
        (ClearByIDs cfg c ids).2.data k = none ∧ (ClearByIDs cfg c ids).2.timers k = none) ∧
      (∀ k, ¬ (k ∈ ids ∧ configured cfg k = true) →
        (ClearByIDs cfg c ids).2.data k = c.data k ∧
        (ClearByIDs cfg c ids).2.timers k = c.timers k) ∧
      IsLimitedByIDs cfg (ClearByIDs cfg c ids).2 ids = false := by
  obtain ⟨h1, h2, h3⟩ := ClearByIDs_spec cfg ids c
  refine ⟨h1, ?_, ?_, ?_⟩
  · intro k hk hc
    exact ⟨by rw [h2 k]; simp [hk, hc], by rw [h3 k]; simp [hk, hc]⟩
  · intro k hk
    exact ⟨by rw [h2 k, if_neg hk], by rw [h3 k, if_neg hk]⟩
  · rw [← Bool.not_eq_true]
    intro hlim
    cases ids with
    | nil => simp [IsLimitedByIDs] at hlim
    | cons id rest =>
      simp only [IsLimitedByIDs, List.length_cons, Nat.succ_ne_zero, if_false,
        isLimitedIDs_iff, isLimitedRules_iff] at hlim
      obtain ⟨x, hx, d, hd, hdx, v, n, hget, _, _⟩ := hlim
      have hconf : configured cfg x = true := by
        unfold configured
        rw [List.any_eq_true]
        exact ⟨d, hd, by simp [hdx]⟩
      have hnone := h2 x
      rw [if_pos ⟨hx, hconf⟩] at hnone
      simp [MemoryCache.Get, hnone] at hget

/-- C25: reset idempotence: `ClearByIDs` over the in-memory store never returns
an error; it leaves the store as it was on the empty list, on a list of ids
that are not ids of configured rules, and (in a reachable store, taken when no
expiry is under way) on ids whose counters have no entry; and applying it
twice leaves the store that applying it once leaves. -/
theorem ClearByIDs_idempotent (cfg : Config) (c : MemoryCache) (ids : List String) :
    (ClearByIDs cfg c ids).1 = none ∧
      ClearByIDs cfg c [] = (none, c) ∧
      ((∀ id ∈ ids, configured cfg id = false) → (ClearByIDs cfg c ids).2 = c) ∧
      (c.Reachable → (∀ id ∈ ids, c.data id = none) → (ClearByIDs cfg c ids).2 = c) ∧
      (ClearByIDs cfg (ClearByIDs cfg c ids).2 ids).2 = (ClearByIDs cfg c ids).2 := by
  obtain ⟨h1, h2, h3⟩ := ClearByIDs_spec cfg ids c
  refine ⟨h1, by simp [ClearByIDs], ?_, ?_, ?_⟩
  · intro hunknown
    apply MemoryCache.ext_maps
    · intro k
      rw [h2 k]
      by_cases hk : k ∈ ids
      · simp [hunknown k hk]
      · simp [hk]
    · intro k
      rw [h3 k]
      by_cases hk : k ∈ ids
      · simp [hunknown k hk]
      · simp [hk]
  · intro hreach hcleared
    have hinv := reachable_timersHaveValues c hreach
    apply MemoryCache.ext_maps
    · intro k
      rw [h2 k]
      by_cases hk : k ∈ ids
      · by_cases hc : configured cfg k = true
        · simp [hk, hc, hcleared k hk]
        · simp [hc]
      · simp [hk]
    · intro k
      rw [h3 k]
      by_cases hk : k ∈ ids
      · by_cases hc : configured cfg k = true
        · simp [hk, hc, hinv k (hcleared k hk)]
        · simp [hc]
      · simp [hk]
  · obtain ⟨_, i2, i3⟩ := ClearByIDs_spec cfg ids (ClearByIDs cfg c ids).2
    apply MemoryCache.ext_maps
    · intro k
      rw [i2 k, h2 k]
      by_cases hk : k ∈ ids ∧ configured cfg k = true <;> simp [hk]
    · intro k
      rw [i3 k, h3 k]
      by_cases hk : k ∈ ids ∧ configured cfg k = true <;> simp [hk]

/-- C25, at the ids of `Test_ClearByIDs`, which are not configured, on a store
that holds an entry under one of them. -/
theorem ClearByIDs_idempotent_witness :
    (∀ id ∈ ["123", "undefined"], configured exampleCfg id = false) ∧
      (ClearByIDs exampleCfg (NewMemoryCache.Set "123" "5" (some 3)).2 ["123", "undefined"]).1 =
        none ∧
      (ClearByIDs exampleCfg (NewMemoryCache.Set "123" "5" (some 3)).2
        ["123", "undefined"]).2 = (NewMemoryCache.Set "123" "5" (some 3)).2 :=
  ⟨by decide,
    (ClearByIDs_idempotent exampleCfg (NewMemoryCache.Set "123" "5" (some 3)).2
      ["123", "undefined"]).1,
    (ClearByIDs_idempotent exampleCfg (NewMemoryCache.Set "123" "5" (some 3)).2
      ["123", "undefined"]).2.2.1 (by decide)⟩

/-- The all-wildcard query resolves to the rules whose mask contains the IP,
when every non-empty mask is a valid CIDR. -/
theorem IdsByIP_wildcard_ids (lib : Lib) (cfg : Config) (strIP : String)
    (hstar : lib.ToLower "*" = "*")
    (hvalid : ∀ d ∈ cfg.ByIp.Data, d.Mask ≠ "" → (lib.ParseCIDR d.Mask).isSome = true) :
    ∀ x, x ∈ IdsByIP lib cfg "*" "*" "*" strIP ↔
      ∃ d ∈ cfg.ByIp.Data, d.ID = x ∧ maskContains lib d.Mask strIP = true := by
  intro x
  rw [IdsByIP_eq, hstar, List.mem_flatMap]
  constructor
  · rintro ⟨d, hd, hx⟩
    rw [ruleIDs_wildcard lib strIP d (hvalid d hd)] at hx
    by_cases hc : maskContains lib d.Mask strIP = true
    · rw [if_pos hc] at hx
      exact ⟨d, hd, (List.mem_singleton.mp hx).symm, hc⟩
    · rw [if_neg hc] at hx
      cases hx
  · rintro ⟨d, hd, hdx, hc⟩
    refine ⟨d, hd, ?_⟩
    rw [ruleIDs_wildcard lib strIP d (hvalid d hd), if_pos hc, hdx]
    exact List.mem_singleton.mpr rfl

/-- The reset branch of the middleware on a body that carries a non-empty IP:
the answer is 200, the wrapped handler is not called, and the store is the one
`ClearByIDs` leaves for the ids of the all-wildcard query. -/
theorem RateLimit_reset_path (lib : Lib) (cfg : Config) (c : MemoryCache) (q : Request)
    (ip : String) (hpath : q.Path = "/reset" ∧ q.Method = "POST")
    (hbody : lib.DecodeIP q.Body = some ip) (hip : ip ≠ "") :
    RateLimit lib cfg c q =
      ({ Code := some 200, Next := false },
        (ClearByIDs cfg c (IdsByIP lib cfg "*" "*" "*" ip)).2) := by
  have herr := (ClearByIDs_spec cfg (IdsByIP lib cfg "*" "*" "*" ip) c).1
  rcases hcl : ClearByIDs cfg c (IdsByIP lib cfg "*" "*" "*" ip) with ⟨e, c1⟩
  rw [hcl] at herr
  simp only at herr
  subst herr
  by_cases hlen : (IdsByIP lib cfg "*" "*" "*" ip).length > 0
  · simp [RateLimit, hpath, hbody, hip, hlen, hcl]
  · have hnil : IdsByIP lib cfg "*" "*" "*" ip = [] := by
      apply List.length_eq_zero.mp
      omega
    rw [hnil] at hcl
    simp only [ClearByIDs, List.length_nil, if_true, Prod.mk.injEq, true_and] at hcl
    subst hcl
    simp [RateLimit, hpath, hbody, hip, hnil]

/-- C26 (as stated, refuted): after the reset for `10.1.2.3`, three `GET /run`
requests from that IP match the rule `B` with limit 3, whose mask contains the
IP; the second and the third are answered 429, because the verdict is read from
the counter of the rule `A` with limit 1, which the requests resolve to
first. -/
theorem RateLimit_reset_counterexample :
    maskContains refLib "" "10.1.2.3" = true ∧
      IdsByIP refLib firstIdCfg exampleReq.Proto exampleReq.Method exampleReq.Path
        (firstField exampleReq.XForwardedFor) = ["A", "B"] ∧
      (serveAll refLib firstIdCfg (RateLimit refLib firstIdCfg NewMemoryCache resetReq).2
        (List.replicate 3 exampleReq)).1.map Response.Code = [none, some 429, some 429] := by
  decide

/-- C26 (amended): reset by IP, for a configuration with pairwise distinct rule
ids whose non-empty masks are valid CIDRs, any store and a `POST /reset` whose
body carries a non-empty IP: the answer is 200, the counter entry and timer of
every rule whose mask contains the IP (rules with an empty mask included) are
removed, the counters of the rules whose mask does not contain the IP are as
before, and the next L requests that resolve to such a rule with limit L as
their first rule id are accepted again. -/
theorem RateLimit_reset_by_ip (lib : Lib) (cfg : Config) (c : MemoryCache) (reset : Request)
    (ip : String) (r : ByIpData) (reqs : List Request)
    (hstar : lib.ToLower "*" = "*")
    (hnodup : (cfg.ByIp.Data.map ByIpData.ID).Nodup)
    (hvalid : ∀ d ∈ cfg.ByIp.Data, d.Mask ≠ "" → (lib.ParseCIDR d.Mask).isSome = true)
    (hpath : reset.Path = "/reset" ∧ reset.Method = "POST")
    (hbody : lib.DecodeIP reset.Body = some ip) (hip : ip ≠ "")
    (hr : r ∈ cfg.ByIp.Data) (hin : maskContains lib r.Mask ip = true)
    (hL : r.Limit < 2 ^ 63) (hlen : (reqs.length : Int) ≤ r.Limit)
    (hreqs : ∀ q ∈ reqs, ¬ (q.Path = "/reset" ∧ q.Method = "POST") ∧
      (IdsByIP lib cfg q.Proto q.Method q.Path (firstField q.XForwardedFor)).head? =
        some r.ID) :
    (RateLimit lib cfg c reset).1 = { Code := some 200, Next := false } ∧
      (∀ d ∈ cfg.ByIp.Data, maskContains lib d.Mask ip = true →
        (RateLimit lib cfg c reset).2.data d.ID = none ∧
        (RateLimit lib cfg c reset).2.timers d.ID = none) ∧
      (∀ d ∈ cfg.ByIp.Data, maskContains lib d.Mask ip = false →
        (RateLimit lib cfg c reset).2.data d.ID = c.data d.ID ∧
        (RateLimit lib cfg c reset).2.timers d.ID = c.timers d.ID) ∧
      (serveAll lib cfg (RateLimit lib cfg c reset).2 reqs).1.map Response.Code =
        List.replicate reqs.length none := by
  rw [RateLimit_reset_path lib cfg c reset ip hpath hbody hip]
  obtain ⟨_, h2, h3⟩ := ClearByIDs_spec cfg (IdsByIP lib cfg "*" "*" "*" ip) c
  have hmem := IdsByIP_wildcard_ids lib cfg ip hstar hvalid
  have hconf : ∀ d ∈ cfg.ByIp.Data, configured cfg d.ID = true := by
    intro d hd
    unfold configured
    rw [List.any_eq_true]
    exact ⟨d, hd, by simp⟩
  have hcleared : ∀ d ∈ cfg.ByIp.Data, maskContains lib d.Mask ip = true →
      (ClearByIDs cfg c (IdsByIP lib cfg "*" "*" "*" ip)).2.data d.ID = none ∧
      (ClearByIDs cfg c (IdsByIP lib cfg "*" "*" "*" ip)).2.timers d.ID = none := by
    intro d hd hc
    have hin2 : d.ID ∈ IdsByIP lib cfg "*" "*" "*" ip := (hmem d.ID).mpr ⟨d, hd, rfl, hc⟩
    exact ⟨by rw [h2, if_pos ⟨hin2, hconf d hd⟩], by rw [h3, if_pos ⟨hin2, hconf d hd⟩]⟩
  refine ⟨rfl, hcleared, ?_, ?_⟩
  · intro d hd hc
    have hnot : d.ID ∉ IdsByIP lib cfg "*" "*" "*" ip := by
      intro hmem2
      obtain ⟨d2, hd2, hid, hc2⟩ := (hmem d.ID).mp hmem2
      have : d2 = d := List.inj_on_of_nodup_map hnodup hd2 hd hid
      rw [this, hc] at hc2
      cases hc2
    exact ⟨by rw [h2, if_neg (fun h => hnot h.1)], by rw [h3, if_neg (fun h => hnot h.1)]⟩
  · have h0 := (hcleared r hr hin).1
    have hrun := serveAll_from lib cfg r hnodup hr reqs _ 0 hreqs (by simpa using h0) (by omega)
    simp only at hrun
    rw [hrun, List.map_map]
    apply List.ext_getElem
    · simp
    · intro i h1 _
      simp only [List.length_map, List.length_range] at h1
      simp only [List.getElem_map, List.getElem_range, Function.comp, zero_add,
        List.getElem_replicate]
      rw [if_pos (by omega)]

/-- C26 (amended), at the end-to-end example: after four `GET /run` requests
from `10.1.2.3` and the reset for that IP, the next three are accepted. -/
theorem RateLimit_reset_by_ip_witness :
    (refLib.ToLower "*" = "*" ∧ (exampleCfg.ByIp.Data.map ByIpData.ID).Nodup ∧
      (resetReq.Path = "/reset" ∧ resetReq.Method = "POST") ∧
      refLib.DecodeIP resetReq.Body = some "10.1.2.3" ∧
      maskContains refLib exampleRule.Mask "10.1.2.3" = true ∧
      ((List.replicate 3 exampleReq).length : Int) ≤ exampleRule.Limit) ∧
    (serveAll refLib exampleCfg NewMemoryCache (List.replicate 4 exampleReq)).2.data "R1" =
      some "4" ∧
    ((RateLimit refLib exampleCfg
        (serveAll refLib exampleCfg NewMemoryCache (List.replicate 4 exampleReq)).2
        resetReq).1 = { Code := some 200, Next := false } ∧
      (∀ d ∈ exampleCfg.ByIp.Data, maskContains refLib d.Mask "10.1.2.3" = true →
        (RateLimit refLib exampleCfg
          (serveAll refLib exampleCfg NewMemoryCache (List.replicate 4 exampleReq)).2
          resetReq).2.data d.ID = none ∧
        (RateLimit refLib exampleCfg
          (serveAll refLib exampleCfg NewMemoryCache (List.replicate 4 exampleReq)).2
          resetReq).2.timers d.ID = none) ∧
      (∀ d ∈ exampleCfg.ByIp.Data, maskContains refLib d.Mask "10.1.2.3" = false →
        (RateLimit refLib exampleCfg
          (serveAll refLib exampleCfg NewMemoryCache (List.replicate 4 exampleReq)).2
          resetReq).2.data d.ID =
          (serveAll refLib exampleCfg NewMemoryCache (List.replicate 4 exampleReq)).2.data
            d.ID ∧
        (RateLimit refLib exampleCfg
          (serveAll refLib exampleCfg NewMemoryCache (List.replicate 4 exampleReq)).2
          resetReq).2.timers d.ID =
          (serveAll refLib exampleCfg NewMemoryCache (List.replicate 4 exampleReq)).2.timers
            d.ID) ∧
      (serveAll refLib exampleCfg
        (RateLimit refLib exampleCfg
          (serveAll refLib exampleCfg NewMemoryCache (List.replicate 4 exampleReq)).2
          resetReq).2 (List.replicate 3 exampleReq)).1.map Response.Code =
        List.replicate (List.replicate 3 exampleReq).length none) :=
  ⟨⟨by decide, by decide, by decide, by decide, by decide, by decide⟩, by decide,
    RateLimit_reset_by_ip refLib exampleCfg
      (serveAll refLib exampleCfg NewMemoryCache (List.replicate 4 exampleReq)).2 resetReq
      "10.1.2.3" exampleRule (List.replicate 3 exampleReq) (by decide) (by decide) (by decide)
      (by decide) (by decide) (by decide) (by decide) (by decide) (by decide) (by decide)
      (by decide)⟩

/-- C27 (code at the failing input): the fourth `GET /run` request from
`10.1.2.3` against limit 3 is answered 429 and the wrapped handler is called
all the same, as it is for the three accepted requests. -/
theorem RateLimit_limited_request_forwarded :
    (serveAll refLib exampleCfg NewMemoryCache (List.replicate 4 exampleReq)).1 =
      [{ Code := none, Next := true }, { Code := none, Next := true },
        { Code := none, Next := true }, { Code := some 429, Next := true }] ∧
      (serveAll refLib exampleCfg NewMemoryCache (List.replicate 4 exampleReq)).2.data "R1" =
        some "4" := by
  decide

/-- The method `Inc` touches the value and the timer of its key only. -/
theorem Inc_frame (c : MemoryCache) (key : String) (ttl : Option Nat) (k : String)
    (hk : k ≠ key) :
    (c.Inc key ttl).2.data k = c.data k ∧ (c.Inc key ttl).2.timers k = c.timers k := by
  cases hd : c.data key with
  | none =>
    rw [Inc_absent c key ttl hd]
    exact ⟨GoMap.insert_other _ _ _ _ hk, rfl⟩
  | some v =>
    cases hp : ParseInt v with
    | none => rw [(Inc_Decr_not_integer c key ttl v hd hp).1]; exact ⟨rfl, rfl⟩
    | some n =>
      rw [Inc_present c key ttl v n hd hp]
      have hf := initCancel_frame
        { c with data := c.data.insert key (FormatInt (wrapInt64 (n + 1))) } key ttl
      exact ⟨by rw [hf.1]; exact GoMap.insert_other _ _ _ _ hk, hf.2 k hk⟩

/-- C28: only the first resolved rule id is consulted: for a request that is
not a reset and resolves to the id of the rule `r` followed by other ids, in a
configuration with pairwise distinct rule ids, the middleware answers 429
exactly when the counter of `r` is present and parses as an integer at or over
the limit of `r`; the request, rejected or not, advances the counter of `r` by
one (from no entry to "1", from the decimal form of n to that of n + 1), and
the value and the timer of every other key, the counters of the other matched
rules included, are as before. -/
theorem RateLimit_first_id_only (lib : Lib) (cfg : Config) (c : MemoryCache) (q : Request)
    (r : ByIpData) (rest : List String)
    (hnodup : (cfg.ByIp.Data.map ByIpData.ID).Nodup) (hr : r ∈ cfg.ByIp.Data)
    (hreset : ¬ (q.Path = "/reset" ∧ q.Method = "POST"))
    (hids : IdsByIP lib cfg q.Proto q.Method q.Path (firstField q.XForwardedFor) =
      r.ID :: rest) :
    ((RateLimit lib cfg c q).1.Code = some 429 ↔
        ∃ v n, c.data r.ID = some v ∧ ParseInt v = some n ∧ r.Limit ≤ n) ∧
      ((RateLimit lib cfg c q).1.Code ≠ some 429 → (RateLimit lib cfg c q).1.Code = none) ∧
      (c.data r.ID = none → (RateLimit lib cfg c q).2.data r.ID = some "1") ∧
      (∀ n : Int, -2 ^ 63 ≤ n → n < 2 ^ 63 - 1 → c.data r.ID = some (FormatInt n) →
        (RateLimit lib cfg c q).2.data r.ID = some (FormatInt (n + 1))) ∧
      ∀ k, k ≠ r.ID → (RateLimit lib cfg c q).2.data k = c.data k ∧
        (RateLimit lib cfg c q).2.timers k = c.timers k := by
  have hid : (IdsByIP lib cfg q.Proto q.Method q.Path (firstField q.XForwardedFor)).head? =
      some r.ID := by rw [hids]; rfl
  have hstore := RateLimit_store lib cfg c q r hnodup hr hreset hid
  have hresp := RateLimit_first_id lib cfg c q r.ID hreset hid
  have hlim := IsLimitedByIDs_single cfg c r hnodup hr
  refine ⟨?_, ?_, ?_, ?_, ?_⟩
  · rw [hresp, ← hlim]
    by_cases hb : IsLimitedByIDs cfg c [r.ID] = true
    · simp [hb]
    · simp [hb]
  · rw [hresp]
    by_cases hb : IsLimitedByIDs cfg c [r.ID] = true
    · simp [hb]
    · simp [hb]
  · intro h0
    rw [hstore, Inc_absent c r.ID _ h0]
    exact GoMap.insert_self _ _ _
  · intro n hlo hhi hn
    rw [hstore]
    exact (Inc_integer c r.ID _ n hlo hhi hn).2.1
  · intro k hk
    rw [hstore]
    exact Inc_frame c r.ID _ k hk

/-- C28, at the two rules with the same handler: `GET /run` resolves to `A` and
`B`; with the counter of `A` at its limit and the counter of `B` at 7, the
request is answered 429, `A` moves to 2 and `B` stays at 7. -/
theorem RateLimit_first_id_only_witness :
    ((firstIdCfg.ByIp.Data.map ByIpData.ID).Nodup ∧
      ¬ (exampleReq.Path = "/reset" ∧ exampleReq.Method = "POST") ∧
      IdsByIP refLib firstIdCfg exampleReq.Proto exampleReq.Method exampleReq.Path
        (firstField exampleReq.XForwardedFor) = "A" :: ["B"]) ∧
    ((RateLimit refLib firstIdCfg
        ((NewMemoryCache.Set "A" "1" none).2.Set "B" "7" none).2 exampleReq).1.Code =
        some 429 ↔
      ∃ v n, ((NewMemoryCache.Set "A" "1" none).2.Set "B" "7" none).2.data "A" = some v ∧
        ParseInt v = some n ∧ (1 : Int) ≤ n) ∧
    (RateLimit refLib firstIdCfg
      ((NewMemoryCache.Set "A" "1" none).2.Set "B" "7" none).2 exampleReq).1.Code = some 429 ∧
    (RateLimit refLib firstIdCfg
      ((NewMemoryCache.Set "A" "1" none).2.Set "B" "7" none).2 exampleReq).2.data "A" =
      some "2" ∧
    (RateLimit refLib firstIdCfg
      ((NewMemoryCache.Set "A" "1" none).2.Set "B" "7" none).2 exampleReq).2.data "B" =
      some "7" :=
  ⟨⟨by decide, by decide, by decide⟩,
    (RateLimit_first_id_only refLib firstIdCfg
      ((NewMemoryCache.Set "A" "1" none).2.Set "B" "7" none).2 exampleReq
      { ID := "A", Handlers := [{ Method := "GET", Url := "/run" }], Limit := 1,
        BlockTime := 10 }
      ["B"] (by decide) (by decide) (by decide) (by decide)).1,
    by decide, by decide, by decide⟩

/-- C29 (as stated, refuted): `10.1.2.3` is listed in the `exclude_ips` of the
rule and in the global exclusion list, and the rule's id is returned for that
source IP all the same. -/
theorem IdsByIP_excluded_ip_returned :
    "10.1.2.3" ∈ excludeCfg.ByIp.ExcludeIps ∧
      (∀ d ∈ excludeCfg.ByIp.Data, "10.1.2.3" ∈ d.ExcludeIps) ∧
      IdsByIP refLib excludeCfg "HTTP/1.1" "GET" "/run" "10.1.2.3" = ["R1"] := by
  decide

/-- C29 (amended): the `exclude_ips` lists are declared but not consulted: for
every configuration, protocol, method, URL and source IP, the result of
`IdsByIP` is the same whatever the global exclusion list and the `exclude_ips`
of the rules are; an IP listed there is matched against the rule as any
other. -/
theorem IdsByIP_ignores_exclude_ips (lib : Lib) (cfg : Config) (global : List String)
    (perRule : ByIpData → List String) (protocol method url strIP : String) :
    IdsByIP lib (cfg.withExcludeIps global perRule) protocol method url strIP =
      IdsByIP lib cfg protocol method url strIP := by
  simp only [IdsByIP_eq, Config.withExcludeIps, List.flatMap_map]
  congr 1

/-- No event arms a second timer for a key that has one: the registered timer
is kept as it is or removed. -/
theorem step_timer_kept_or_removed (s : Running) (e : Event) (k : String) (d : Int)
    (h : s.store.timers k = some d) :
    (s.step e).store.timers k = some d ∨ (s.step e).store.timers k = none := by
  have hwrite : ∀ (c1 : MemoryCache) (key : String) (ttl : Option Nat),
      c1.timers = s.store.timers → (c1.initCancel key ttl).timers k = some d := by
    intro c1 key ttl h1
    by_cases hk : k = key
    · subst hk
      rw [initCancel_armed c1 k ttl d (by rw [h1]; exact h), h1]
      exact h
    · rw [(initCancel_frame c1 key ttl).2 k hk, h1]
      exact h
  cases e with
  | Set key value ttl =>
    left
    simp only [Running.step, MemoryCache.Set]
    by_cases hk : key.length = 0
    · simpa [hk] using h
    · simpa [hk] using
        hwrite { s.store with data := s.store.data.insert key value } key ttl rfl
  | Inc key ttl => exact Or.inl (Inc_timer_kept s.store key ttl k d h)
  | Decr key ttl =>
    left
    simp only [Running.step]
    cases hd : s.store.data key with
    | none => rw [Decr_absent s.store key ttl hd]; exact h
    | some v =>
      cases hp : ParseInt v with
      | none => rw [(Inc_Decr_not_integer s.store key ttl v hd hp).2]; exact h
      | some n =>
        rw [Decr_present s.store key ttl v n hd hp]
        exact hwrite { s.store with
          data := s.store.data.insert key (FormatInt (wrapInt64 (n - 1))) } key ttl rfl
  | Get key => exact Or.inl h
  | Has key => exact Or.inl h
  | Del list =>
    simp only [Running.step]
    rw [(Del_spec list s.store).2.2 k]
    by_cases hm : k ∈ list
    · right; simp [hm]
    · left; simpa [hm] using h
  | Clear => exact Or.inr rfl
  | TimerFired key =>
    left
    simp only [Running.step]
    by_cases ht : (s.store.timers key).isSome = true ∧ s.expiring key = false
    · rw [if_pos ht]
      exact h
    · rw [if_neg ht]
      exact h
  | TimerUnregistered key =>
    simp only [Running.step]
    by_cases ht : s.expiring key = true
    · rw [if_pos ht]
      by_cases hk : k = key
      · right; simp [MemoryCache.timerUnregistered, GoMap.erase, hk]
      · left; simpa [MemoryCache.timerUnregistered, GoMap.erase, hk] using h
    · rw [if_neg ht]
      exact Or.inl h
  | CtxDone key =>
    simp only [Running.step]
    by_cases ht : (s.store.timers key).isSome = true ∧ s.expiring key = false
    · rw [if_pos ht]
      by_cases hk : k = key
      · right; simp [MemoryCache.ctxDone, GoMap.erase, hk]
      · left; simpa [MemoryCache.ctxDone, GoMap.erase, hk] using h
    · rw [if_neg ht]
      exact Or.inl h

/-- The expiry of a key is under way only after its timer has fired: one
event. -/
theorem step_expiring (s : Running) (e : Event) (k : String)
    (h : (s.step e).expiring k = true) : s.expiring k = true ∨ e = Event.TimerFired k := by
  cases e with
  | Set key value ttl => exact Or.inl h
  | Inc key ttl => exact Or.inl h
  | Decr key ttl => exact Or.inl h
  | Get key => exact Or.inl h
  | Has key => exact Or.inl h
  | Del list => exact Or.inl h
  | Clear => exact Or.inl h
  | TimerFired key =>
    simp only [Running.step] at h
    by_cases ht : (s.store.timers key).isSome = true ∧ s.expiring key = false
    · rw [if_pos ht] at h
      by_cases hk : k = key
      · right; rw [hk]
      · left; simpa [hk] using h
    · rw [if_neg ht] at h
      exact Or.inl h
  | TimerUnregistered key =>
    simp only [Running.step] at h
    by_cases ht : s.expiring key = true
    · rw [if_pos ht] at h
      by_cases hk : k = key
      · simp [hk] at h
      · left; simpa [hk] using h
    · rw [if_neg ht] at h
      exact Or.inl h
  | CtxDone key =>
    simp only [Running.step] at h
    by_cases ht : (s.store.timers key).isSome = true ∧ s.expiring key = false
    · rw [if_pos ht] at h
      exact Or.inl h
    · rw [if_neg ht] at h
      exact Or.inl h

/-- The expiry of a key is under way only after its timer has fired: a run. -/
theorem run_expiring (es : List Event) (k : String) :
    ∀ s : Running, (s.run es).expiring k = true →
      s.expiring k = true ∨ Event.TimerFired k ∈ es := by
  induction es with
  | nil => intro s h; exact Or.inl h
  | cons e rest ih =>
    intro s h
    rcases ih (s.step e) h with h1 | h1
    · rcases step_expiring s e k h1 with h2 | h2
      · exact Or.inl h2
      · right; rw [h2]; exact List.mem_cons_self _ _
    · exact Or.inr (List.mem_cons_of_mem _ h1)

/-- C31 (as stated, refuted): the key `k` is set with a ttl of 3 seconds and its
timer fires; after the first step of the expiry, which deletes the value under
`dataMu`, the timer of `k` is still registered and `k` has no value entry.  The
second step, under `timerMu`, unregisters the timer. -/
theorem store_timer_without_value :
    (Running.new.run [Event.Set "k" "1" (some 3), Event.TimerFired "k"]).store.timers "k" =
        some 3000000000 ∧
      (Running.new.run [Event.Set "k" "1" (some 3), Event.TimerFired "k"]).store.data "k" =
        none ∧
      (Running.new.run [Event.Set "k" "1" (some 3), Event.TimerFired "k"]).expiring "k" =
        true ∧
      (Running.new.run [Event.Set "k" "1" (some 3), Event.TimerFired "k",
        Event.TimerUnregistered "k"]).store.timers "k" = none := by
  decide

/-- C31 (amended): store invariant, with the expiry of a key in its two steps
(the value is deleted, later the timer is unregistered) and any other event in
between: in every store reached from a new store by a sequence of `Set`, `Inc`,
`Decr`, `Get`, `Has`, `Del`, `Clear`, timer and context events, every key that
has a registered timer also has a value entry, or its expiry is under way;
an expiry is under way only for a key whose timer has fired in the run; and
each key has at most one timer: `timers` holds one timer per key, and no
further event arms another timer for a key that has one (its timer is kept or
removed). -/
theorem store_invariant (es : List Event) (k : String) :
    (((Running.new.run es).store.timers k).isSome = true →
        ((Running.new.run es).store.data k).isSome = true ∨
          (Running.new.run es).expiring k = true) ∧
      ((Running.new.run es).expiring k = true → Event.TimerFired k ∈ es) ∧
      ∀ (e : Event) (d : Int), (Running.new.run es).store.timers k = some d →
        ((Running.new.run es).step e).store.timers k = some d ∨
          ((Running.new.run es).step e).store.timers k = none := by
  refine ⟨?_, ?_, fun e d h => step_timer_kept_or_removed _ e k d h⟩
  · intro ht
    have hinv := run_timersHaveValues es Running.new (fun _ _ => Or.inl rfl) k
    cases hd : (Running.new.run es).store.data k with
    | some v => exact Or.inl rfl
    | none =>
      rcases hinv hd with h1 | h1
      · rw [h1] at ht
        cases ht
      · exact Or.inr h1
  · intro hx
    rcases run_expiring es k Running.new hx with h1 | h1
    · cases h1
    · exact h1

/-- C31 (amended), at a run that sets a key with a ttl of 3 seconds, increments
it with a ttl of 9 seconds and deletes another key: no timer has fired, the key
has its value and its timer of 3 seconds, and a further `Set` with a ttl of 60
seconds keeps that timer. -/
theorem store_invariant_witness :
    (Running.new.run
        [Event.Set "k" "1" (some 3), Event.Inc "k" (some 9), Event.Del ["other"]]).store.timers
        "k" = some 3000000000 ∧
      (Running.new.run
        [Event.Set "k" "1" (some 3), Event.Inc "k" (some 9), Event.Del ["other"]]).store.data
        "k" = some "2" ∧
      (((Running.new.run
          [Event.Set "k" "1" (some 3), Event.Inc "k" (some 9),
            Event.Del ["other"]]).store.timers "k").isSome = true →
        ((Running.new.run
          [Event.Set "k" "1" (some 3), Event.Inc "k" (some 9),
            Event.Del ["other"]]).store.data "k").isSome = true ∨
        (Running.new.run
          [Event.Set "k" "1" (some 3), Event.Inc "k" (some 9),
            Event.Del ["other"]]).expiring "k" = true) ∧
      (((Running.new.run
          [Event.Set "k" "1" (some 3), Event.Inc "k" (some 9), Event.Del ["other"]]).step
          (Event.Set "k" "5" (some 60))).store.timers "k" = some 3000000000 ∨
        ((Running.new.run
          [Event.Set "k" "1" (some 3), Event.Inc "k" (some 9), Event.Del ["other"]]).step
          (Event.Set "k" "5" (some 60))).store.timers "k" = none) :=
  ⟨by decide, by decide,
    (store_invariant
      [Event.Set "k" "1" (some 3), Event.Inc "k" (some 9), Event.Del ["other"]] "k").1,
    (store_invariant
      [Event.Set "k" "1" (some 3), Event.Inc "k" (some 9), Event.Del ["other"]] "k").2.2
      (Event.Set "k" "5" (some 60)) 3000000000 (by decide)⟩

/-- The integers that `parseIntChars` returns are in the `int64` range. -/
theorem parseIntChars_range (cs : List Char) (n : Int) (h : parseIntChars cs = some n) :
    -2 ^ 63 ≤ n ∧ n < 2 ^ 63 := by
  cases cs with
  | nil => simp [parseIntChars] at h
  | cons c rest =>
    simp only [parseIntChars] at h
    by_cases hds : (if c = '+' ∨ c = '-' then rest else c :: rest) = []
    · rw [if_pos hds] at h; cases h
    · rw [if_neg hds] at h
      cases hpd : parseDigits (if c = '+' ∨ c = '-' then rest else c :: rest) 0 with
      | none => rw [hpd] at h; cases h
      | some un =>
        rw [hpd] at h
        simp only at h
        by_cases h1 : 2 ^ 64 ≤ un
        · rw [if_pos h1] at h; cases h
        · rw [if_neg h1] at h
          by_cases hneg : c = '-'
          · simp only [hneg, decide_True, Bool.not_true, Bool.false_and, Bool.true_and,
              decide_eq_true_eq, if_true, Bool.false_eq_true, if_false] at h
            by_cases h2 : 2 ^ 63 < un
            · rw [if_pos h2] at h; cases h
            · rw [if_neg h2] at h
              cases h
              omega
          · simp only [hneg, decide_False, Bool.not_false, Bool.true_and, Bool.false_and,
              decide_eq_true_eq, Bool.false_eq_true, if_false] at h
            by_cases h2 : 2 ^ 63 ≤ un
            · rw [if_pos h2] at h; cases h
            · rw [if_neg h2] at h
              cases h
              omega

/-- The integers that `ParseInt` returns are in the `int64` range. -/
theorem ParseInt_range (v : String) (n : Int) (h : ParseInt v = some n) :
    -2 ^ 63 ≤ n ∧ n < 2 ^ 63 :=
  parseIntChars_range v.data n h

/-- The store after `IncByIDs` on the single id of a rule, in a configuration
with pairwise distinct ids: the store after one `Inc`. -/
theorem IncByIDs_single_store (cfg : Config) (c : MemoryCache) (r : ByIpData)
    (hnodup : (cfg.ByIp.Data.map ByIpData.ID).Nodup) (hr : r ∈ cfg.ByIp.Data) :
    (IncByIDs cfg c [r.ID]).2 = (c.Inc r.ID (some (toUint64 r.BlockTime))).2 := by
  rw [IncByIDs_single cfg c r hnodup hr]
  rcases hinc : c.Inc r.ID (some (toUint64 r.BlockTime)) with ⟨⟨x, e⟩, c1⟩
  cases e <;> rfl

/-- A counter that holds the integer `n` holds `n + m` after `m` further
`IncByIDs` calls on its id, as long as `n + m` is an `int64`. -/
theorem incByIDsTimes_counter (cfg : Config) (r : ByIpData)
    (hnodup : (cfg.ByIp.Data.map ByIpData.ID).Nodup) (hr : r ∈ cfg.ByIp.Data) :
    ∀ (m : Nat) (c : MemoryCache) (v : String) (n : Int),
      c.data r.ID = some v → ParseInt v = some n → n + m < 2 ^ 63 →
      ∃ v2, (incByIDsTimes cfg [r.ID] m c).data r.ID = some v2 ∧
        ParseInt v2 = some (n + m) := by
  intro m
  induction m with
  | zero =>
    intro c v n hv hp _
    exact ⟨v, hv, by simpa using hp⟩
  | succ m ih =>
    intro c v n hv hp hb
    have hrange := ParseInt_range v n hp
    simp only [Nat.cast_add, Nat.cast_one] at hb
    have hw := wrapInt64_of_range (n + 1) (by omega) (by omega)
    have hstore : (IncByIDs cfg c [r.ID]).2.data r.ID = some (FormatInt (n + 1)) := by
      rw [IncByIDs_single_store cfg c r hnodup hr, Inc_present c r.ID _ v n hv hp, hw]
      simp [(initCancel_frame _ _ _).1, GoMap.insert_self]
    have hp1 := ParseInt_FormatInt (n + 1) (by omega) (by omega)
    obtain ⟨v2, h1, h2⟩ := ih (IncByIDs cfg c [r.ID]).2 _ (n + 1) hstore hp1 (by omega)
    refine ⟨v2, h1, ?_⟩
    rw [h2]
    congr 1
    simp only [Nat.cast_add, Nat.cast_one]
    omega

/-- C32 (as stated, refuted): the counter of the example rule holds
`2^63 - 2`, which is below `2^63 - 1`, and the rule is limited; after two
further `IncByIDs` calls the counter has wrapped around to `-2^63` and the rule
is no longer limited. -/
theorem IsLimitedByIDs_lost_on_wrap :
    IsLimitedByIDs exampleCfg (NewMemoryCache.Set "R1" "9223372036854775806" none).2 ["R1"] =
        true ∧
      (incByIDsTimes exampleCfg ["R1"] 2
        (NewMemoryCache.Set "R1" "9223372036854775806" none).2).data "R1" =
        some "-9223372036854775808" ∧
      IsLimitedByIDs exampleCfg
        (incByIDsTimes exampleCfg ["R1"] 2
          (NewMemoryCache.Set "R1" "9223372036854775806" none).2) ["R1"] = false := by
  decide

/-- C32 (amended): limiting is monotone within a window, as long as the counter
stays an `int64`: in a configuration with pairwise distinct rule ids, when a
configured id whose counter holds the integer n is limited, it is still
limited after m further `IncByIDs` calls on it with nothing in between, for
every m with n + m < 2^63, and its counter then holds n + m. -/
theorem IsLimitedByIDs_monotone (cfg : Config) (c : MemoryCache) (r : ByIpData) (m : Nat)
    (v : String) (n : Int)
    (hnodup : (cfg.ByIp.Data.map ByIpData.ID).Nodup) (hr : r ∈ cfg.ByIp.Data)
    (hv : c.data r.ID = some v) (hp : ParseInt v = some n) (hb : n + m < 2 ^ 63)
    (hlim : IsLimitedByIDs cfg c [r.ID] = true) :
    IsLimitedByIDs cfg (incByIDsTimes cfg [r.ID] m c) [r.ID] = true ∧
      ∃ v2, (incByIDsTimes cfg [r.ID] m c).data r.ID = some v2 ∧
        ParseInt v2 = some (n + m) := by
  obtain ⟨v2, h1, h2⟩ := incByIDsTimes_counter cfg r hnodup hr m c v n hv hp hb
  refine ⟨?_, v2, h1, h2⟩
  obtain ⟨w, k, hw, hk, hle⟩ := (IsLimitedByIDs_single cfg c r hnodup hr).mp hlim
  rw [hv] at hw
  cases hw
  rw [hp] at hk
  cases hk
  exact (IsLimitedByIDs_single cfg _ r hnodup hr).mpr ⟨v2, n + m, h1, h2, by omega⟩

/-- C32 (amended), at the example rule with its counter at the limit 3 and five
further calls. -/
theorem IsLimitedByIDs_monotone_witness :
    ((exampleCfg.ByIp.Data.map ByIpData.ID).Nodup ∧ exampleRule ∈ exampleCfg.ByIp.Data ∧
      (NewMemoryCache.Set "R1" "3" (some 10)).2.data exampleRule.ID = some "3" ∧
      ParseInt "3" = some 3 ∧ (3 : Int) + (5 : Nat) < 2 ^ 63 ∧
      IsLimitedByIDs exampleCfg (NewMemoryCache.Set "R1" "3" (some 10)).2 [exampleRule.ID] =
        true) ∧
    (IsLimitedByIDs exampleCfg
        (incByIDsTimes exampleCfg [exampleRule.ID] 5 (NewMemoryCache.Set "R1" "3" (some 10)).2)
        [exampleRule.ID] = true ∧
      ∃ v2, (incByIDsTimes exampleCfg [exampleRule.ID] 5
          (NewMemoryCache.Set "R1" "3" (some 10)).2).data exampleRule.ID = some v2 ∧
        ParseInt v2 = some (3 + (5 : Nat))) ∧
    (incByIDsTimes exampleCfg [exampleRule.ID] 5
      (NewMemoryCache.Set "R1" "3" (some 10)).2).data "R1" = some "8" :=
  ⟨⟨by decide, by decide, by decide, by decide, by decide, by decide⟩,
    IsLimitedByIDs_monotone exampleCfg (NewMemoryCache.Set "R1" "3" (some 10)).2 exampleRule 5
      "3" 3 (by decide) (by decide) (by decide) (by decide) (by decide) (by decide),
    by decide⟩

end Ratelimit
